import Mathlib

/-!
# GRIB2 sample decoder (`grib2decode4.c`): embedding and checked properties

The C functions of the decoding core are embedded as Lean functions with the
same names.  Conventions of the embedding:

* a byte is a `Fin 256`; a `char *` buffer is a `Mem`, the bytes found at the
  offsets from the pointer (the pointer carries no length in C, and the
  unpackers read up to three bytes past the last packed value);
* an input stream (`FILE *`) is the list of bytes not yet consumed;
* `int` is a 32-bit signed integer, `unsigned int` a 32-bit unsigned one,
  `size_t` is wider than `int`, `double` and `float` are the IEEE-754 binary64
  and binary32 formats; allocations succeed;
* the global `isLittleEndian` is a parameter of every function that depends on
  the byte order of the host;
* `exit(n)` is `Outcome.fatal`, behaviour that C leaves undefined (a shift by a
  negative amount, a write outside an allocation, the use of an indeterminate
  value that decides control flow) is `Outcome.undefined` or `none`;
* a decoded `double` is a `Dbl`: an integer-valued double, the conversion to
  `double` of a `float` (exact, except that a signalling NaN comes out quiet),
  or a double whose first four bytes were overwritten by `memcpy`.
-/

namespace Grib2

/-! ## Bytes, memory, host byte order -/

abbrev Byte := Fin 256

/-- Bytes found at the offsets from a `char *` pointer. -/
abbrev Mem := Nat → Byte

/-- Memory that holds the listed bytes at offsets `0, 1, ...` and zero after them. -/
def memOf (bs : List Byte) : Mem := fun i => bs.getD i 0

/-- Memory that holds the listed bytes at offsets `0, 1, ...`, followed by
whatever the memory after the allocation holds (`junk`). -/
def memFrom (bs : List Byte) (junk : Mem) : Mem := fun i => (bs[i]?).getD (junk i)

/-- The `size` bytes `memcpy` copies from offset `ii`. -/
def peek (mem : Mem) (ii size : Nat) : List Byte :=
  (List.range size).map (fun jj => mem (ii + jj))

/-- Big-endian value of a byte string. -/
def beValue (bs : List Byte) : Nat :=
  bs.foldl (fun acc b => acc * 256 + b.val) 0

/-- Value of an unsigned object whose bytes, in memory order, are `bs`. -/
def hostValue (isLittleEndian : Bool) (bs : List Byte) : Nat :=
  if isLittleEndian then beValue bs.reverse else beValue bs

/-- `swabN(buf, size, 1)`: reverse the bytes of one element. -/
def swabN (bs : List Byte) : List Byte := bs.reverse

/-- The macro `FIT_BYTE_ORDER(pointer,size)`: `if(isLittleEndian)swabN(pointer,size,1)`. -/
def FIT_BYTE_ORDER (isLittleEndian : Bool) (bs : List Byte) : List Byte :=
  if isLittleEndian then swabN bs else bs

/-- Reading of a 32-bit pattern as a signed `int`. -/
def toInt32 (n : Nat) : Int :=
  if n % 2 ^ 32 < 2 ^ 31 then (n % 2 ^ 32 : Nat) else (n % 2 ^ 32 : Nat) - 4294967296

/-! ## Outcomes -/

/-- The three `exit` calls of the decoding core. -/
inductive Fatal
  | reallyGrib      -- "Really GRIB file ?", exit(1)
  | unexpectedEOF   -- "Unexpected EOF", exit(1)
  | internalError   -- "Internal Error !", exit(9)
  deriving DecidableEq

/-- Result of a call: a normal return, a fatal exit, or undefined behaviour. -/
inductive Outcome (α : Type)
  | ok (a : α)
  | fatal (e : Fatal)
  | undefined
  deriving DecidableEq

/-! ## Decoded doubles -/

/-- A value held in the `double` variable `dd` of `decode_buf`.  `int 0` stands
for both zeros; the sign bit a signed tag gives to `dd` is `negated`. -/
inductive Dbl
  | int (v : Int)                              -- an integer-valued double
  | single (bits : Nat)                        -- `(double)f`, `f` the float of this bit pattern
  | chars (b0 b1 b2 b3 : Byte) (stale : Dbl)   -- first four bytes overwritten, rest kept
  deriving DecidableEq

/-- Number of binary digits of `x` beyond the first 53, by halving at most `fuel` times. -/
def excessBits : Nat → Nat → Nat
  | 0, _ => 0
  | fuel + 1, x => if x < 2 ^ 53 then 0 else excessBits fuel (x / 2) + 1

/-- Rounding of a natural number to the nearest double (53-bit significand,
ties to even): the result of a double addition whose exact sum is `x`. -/
def roundDouble (x : Nat) : Nat :=
  let e := excessBits x x
  let q := x / 2 ^ e
  let r := x % 2 ^ e
  if 2 * r < 2 ^ e then q * 2 ^ e
  else if 2 ^ e < 2 * r then (q + 1) * 2 ^ e
  else if q % 2 = 0 then q * 2 ^ e
  else (q + 1) * 2 ^ e

/-! ## `decode_buf` -/

/-- First `switch` of `decode_buf`: the byte width of a tag, `none` on the
`default` branch. -/
def fieldSize (c : Char) : Option Nat :=
  if c = '1' ∨ c = '2' ∨ c = '4' ∨ c = '8' then some (c.toNat - '0'.toNat)
  else if c = 'u' then some 1
  else if c = 'S' then some 2
  else if c = 'R' ∨ c = 'C' then some 4
  else none

/-- Lines 147-149: `missing = 1; for jj < size: missing &= (buffer[jj] == 0xFF)`. -/
def missingFlag (buffer : List Byte) : Bool :=
  buffer.foldl (fun missing b => missing && (b == 0xFF)) true

/-- Lines 158-161: the signed tags.  `dd * 256.0` is exact, the addition rounds. -/
def signedValue (buffer : List Byte) : Int :=
  match buffer with
  | [] => 0
  | b0 :: rest =>
    let dd := rest.foldl (fun dd b => roundDouble (dd * 256 + b.val)) (b0.val &&& 0x7F)
    if b0.val &&& 0x80 ≠ 0 then -(dd : Int) else (dd : Int)

/-- Whether a single-precision bit pattern is a signalling NaN: exponent bits
all ones, fraction not zero, top fraction bit (bit 22) clear. -/
def isSignalling (bits : Nat) : Bool :=
  decide (bits / 2 ^ 23 % 256 = 255 ∧ bits % 2 ^ 23 ≠ 0 ∧ bits / 2 ^ 22 % 2 = 0)

/-- Line 164, the conversion in `dd = *(float *)buffer`: the bit pattern of the
float that has the same value as the double stored.  The conversion of a float
to `double` is exact and keeps the sign and the payload of a NaN, but it makes
a signalling NaN quiet (bit 22 set). -/
def quieted (bits : Nat) : Nat :=
  if isSignalling bits then bits + 2 ^ 22 else bits

/-- Second `switch` of `decode_buf`: the new content of `dd`. -/
def fieldValue (isLittleEndian : Bool) (c : Char) (buffer : List Byte) (dd : Dbl) : Dbl :=
  if c = 'u' then .int (buffer.getD 0 0).val
  else if c = 'S' then .int ((((buffer.getD 0 0).val <<< 8) + (buffer.getD 1 0).val : Nat) : Int)
  else if c = '1' ∨ c = '2' ∨ c = '4' ∨ c = '8' then .int (signedValue buffer)
  else if c = 'R' then
    .single (quieted (hostValue isLittleEndian (FIT_BYTE_ORDER isLittleEndian buffer)))
  else if c = 'C' then
    match buffer with
    | [b0, b1, b2, b3] => .chars b0 b1 b2 b3 dd
    | _ => dd
  else dd

/-- Local state of `decode_buf` at the end of one loop iteration. -/
structure FieldState where
  size : Nat
  buffer : List Byte
  missing : Bool
  dd : Dbl
  ii : Nat
  deriving DecidableEq

/-- One iteration of the loop of `decode_buf` at offset `ii` for tag `c`;
`none` is the `default` branch (`exit(9)`). -/
def decodeField (isLittleEndian : Bool) (sec_buffer : Mem) (ii : Nat) (c : Char) (dd : Dbl) :
    Option FieldState :=
  match fieldSize c with
  | none => none
  | some size =>
    let buffer := peek sec_buffer ii size
    some { size := size, buffer := buffer, missing := missingFlag buffer,
           dd := fieldValue isLittleEndian c buffer dd, ii := ii + size }

/-- The function `decode_buf`: decodes the tags of `format` from offset `index`;
returns the values appended through `dvpp` and the final `*index`.  `dd` is the
content of the local `dd` on entry (indeterminate in C). -/
def decode_buf (isLittleEndian : Bool) (sec_buffer : Mem) :
    Nat → List Char → Dbl → Outcome (List Dbl × Nat)
  | index, [], _ => .ok ([], index)
  | index, c :: format, dd =>
    match decodeField isLittleEndian sec_buffer index c dd with
    | none => .fatal .internalError
    | some st =>
      match decode_buf isLittleEndian sec_buffer st.ii format st.dd with
      | .ok (vs, e) => .ok (st.dd :: vs, e)
      | .fatal e => .fatal e
      | .undefined => .undefined

/-! ## Section formats and the template catalog -/

/-- The table `sectionFormat[9]`. -/
def sectionFormat : List (List Char) :=
  [ "C2uu8".toList,             -- Section 0
    "4u22uuu2uuuuuuu".toList,   -- Section 1
    "".toList,                  -- Section 2
    "4uu4uuS".toList,           -- Section 3
    "4u2S".toList,              -- Section 4
    "4u4S".toList,              -- Section 5
    "4uu".toList,               -- Section 6
    "4u".toList,                -- Section 7
    "C".toList ]                -- Section 8

/-- The C struct `TemplateFormat`. -/
structure TemplateFormat where
  secno : Int
  templat : Int
  format : List Char
  deriving DecidableEq

/-- The table `templateFormat[]`, its terminating entry included. -/
def templateFormat : List TemplateFormat :=
  [ ⟨3, 0, "uu4u4u4444444u4444u".toList⟩,
    ⟨3, 20, "uu4u4u44444u4444uu".toList⟩,
    ⟨4, 0, "uuuuu2uu4u14u14".toList⟩,
    ⟨4, 1, "uuuuu2uu4u14u14uuu".toList⟩,
    ⟨4, 8, "uuuuu2uu4u14u142uuuuuu4uuu4u4".toList⟩,
    ⟨4, 9, "uuuuu2uu4u14u14uuu14142uuuuuu4uuu4u4".toList⟩,
    ⟨4, 11, "uuuuu2uu4u14u14uuu2uuuuuu4uuu4u4".toList⟩,
    ⟨5, 0, "R22uu".toList⟩,
    ⟨0, 0, "".toList⟩ ]

/-- Lines 211-215: `for( tfp = templateFormat ; tfp->secno ; tfp++ )` with its
`break`; `none` when the loop stops on an entry whose `secno` is 0. -/
def findTemplate (secno templat : Int) : List TemplateFormat → Option TemplateFormat
  | [] => none
  | tfp :: more =>
    if tfp.secno = 0 then none
    else if tfp.secno = secno ∧ tfp.templat = templat then some tfp
    else findTemplate secno templat more

/-- Conversion `(int)` of a decoded double.  Only integer-valued doubles are
converted by the decoder (every converted index holds an integer tag); the
conversion is undefined outside the range of `int`. -/
def Dbl.toInt : Dbl → Option Int
  | .int v => if -2147483648 ≤ v ∧ v < 2147483648 then some v else none
  | _ => none

/-- Whether `n` doubles written from the start fit the array of `length` doubles. -/
def fitsArray (length : Int) (n : Nat) : Bool :=
  n = 0 || decide ((n : Int) ≤ length)

/-- Lines 190-198: the capacity `length` of the value array. -/
def arrayLength (isLittleEndian : Bool) (secno : Nat) (sec_buffer : Mem) : Int :=
  if secno = 0 then 5
  else if secno = 1 then 15
  else if secno = 7 then 2
  else if secno = 8 then 1
  else toInt32 (hostValue isLittleEndian (FIT_BYTE_ORDER isLittleEndian (peek sec_buffer 0 4)))

/-- The function `decode_section`: the values left in `*double_values`.  `dd0`
and `dd1` are the indeterminate initial contents of `dd` in the two calls of
`decode_buf`. -/
def decode_section (isLittleEndian : Bool) (secno : Nat) (sec_buffer : Mem) (dd0 dd1 : Dbl) :
    Outcome (List Dbl) :=
  match sectionFormat[secno]? with
  | none => .undefined
  | some format =>
    let length := arrayLength isLittleEndian secno sec_buffer
    match decode_buf isLittleEndian sec_buffer 0 format dd0 with
    | .fatal e => .fatal e
    | .undefined => .undefined
    | .ok (vs, index) =>
      if fitsArray length vs.length = false then .undefined
      else if 3 ≤ secno ∧ secno ≤ 5 then
        match (vs.getLast?).bind Dbl.toInt with
        | none => .undefined
        | some templat =>
          match findTemplate secno templat templateFormat with
          | none => .ok vs
          | some tfp =>
            match decode_buf isLittleEndian sec_buffer index tfp.format dd1 with
            | .fatal e => .fatal e
            | .undefined => .undefined
            | .ok (ws, _) =>
              if fitsArray length (vs ++ ws).length = false then .undefined
              else .ok (vs ++ ws)
      else .ok vs

/-! ## Section framer -/

/-- ASCII `GRIB`. -/
def magicGRIB : List Byte := [0x47, 0x52, 0x49, 0x42]

/-- ASCII `7777`. -/
def magic7777 : List Byte := [0x37, 0x37, 0x37, 0x37]

/-- What a framer call hands back: the returned section number, the content of
`*sec_buffer`, and the stream after the call. -/
structure Framed where
  secno : Nat
  buffer : List Byte
  rest : List Byte
  deriving DecidableEq

/-- The function `read_section_0`. -/
def read_section_0 (fp : List Byte) : Outcome Framed :=
  let bufr := fp.take 16
  if bufr.length ≠ 16 ∨ bufr.take 4 ≠ magicGRIB then .fatal .reallyGrib
  else .ok ⟨0, bufr, fp.drop 16⟩

/-- The function `read_section_X`.  The result of the first `fread` is not
checked: with fewer than 4 bytes left `length` is indeterminate.  A `length`
below 4 makes the count `length - 4` of the second `fread` wrap to a huge
`size_t`, so any byte still in the stream is written outside the allocation;
a `length` of 4 makes `bufp[4]` a read outside it. -/
def read_section_X (isLittleEndian : Bool) (fp : List Byte) : Outcome Framed :=
  if fp.length < 4 then .undefined
  else
    let lengthBytes := fp.take 4
    let fp1 := fp.drop 4
    if lengthBytes = magic7777 then .ok ⟨8, magic7777, fp1⟩
    else
      let swapped := FIT_BYTE_ORDER isLittleEndian lengthBytes
      let length := toInt32 (hostValue isLittleEndian swapped)
      if length < 4 then (if fp1 = [] then .fatal .unexpectedEOF else .undefined)
      else
        let body := fp1.take (length - 4).toNat
        if body.length ≠ (length - 4).toNat then .fatal .unexpectedEOF
        else
          let bufp := FIT_BYTE_ORDER isLittleEndian swapped ++ body
          match bufp[4]? with
          | none => .undefined
          | some s => .ok ⟨s.val, bufp, fp1.drop body.length⟩

/-! ## Grid and bitmap unpackers -/

/-- Floating-point operations used by `unpack_data`, left uninterpreted: the
reading of a decoded double, `pow`, `+`, `*`, `/` on doubles and the
narrowing to `float` of the stored result. -/
structure FloatOps (F : Type) where
  ofDbl : Dbl → F
  pow : F → F → F
  add : F → F → F
  mul : F → F → F
  div : F → F → F
  toFloat : F → F

/-- Lines 245-247 and 273-275: `mask = 1; for( ii = 0 ; ii < nbit - 1 ; ii++ )
mask = mask << 1 | 1;` on a 32-bit `unsigned int`. -/
def maskOf (nbit : Int) : Nat :=
  Nat.iterate (fun mask => ((mask <<< 1) ||| 1) % 2 ^ 32) (nbit - 1).toNat 1

/-- Lines 250-252, the bit window: with `off = nbit*ii`, copy the 4 bytes at
`uc[off/8]`, put them in host order, and compute
`( uw>>(32-nbit-off%8)) & mask`.  `none` when the shift amount is outside
`0..31` (undefined in C) or the offset is negative. -/
def readBits (isLittleEndian : Bool) (uc : Mem) (nbit off : Int) (mask : Nat) : Option Nat :=
  let sh := 32 - nbit - Int.tmod off 8
  if 0 ≤ sh ∧ sh < 32 ∧ 0 ≤ off then
    let uw := hostValue isLittleEndian
      (FIT_BYTE_ORDER isLittleEndian (peek uc (Int.tdiv off 8).toNat 4))
    some ((uw >>> sh.toNat) &&& mask)
  else none

/-- Runs `body 0, ..., body (n-1)` in order and collects the results; `none` as
soon as one iteration is undefined. -/
def collect {α : Type} (body : Nat → Option α) : Nat → Option (List α)
  | 0 => some []
  | n + 1 =>
    match collect body n, body n with
    | some out, some v => some (out ++ [v])
    | _, _ => none

/-- The expression `( rr + pow_2_e * uw ) / pow_10_d` stored into a `float`. -/
def scaled {F : Type} (A : FloatOps F) (rr ee dd : Dbl) (uw : Nat) : F :=
  A.toFloat (A.div (A.add (A.ofDbl rr)
    (A.mul (A.pow (A.ofDbl (.int 2)) (A.ofDbl ee)) (A.ofDbl (.int uw))))
    (A.pow (A.ofDbl (.int 10)) (A.ofDbl dd)))

/-- The function `unpack_data`: the `num` floats written to `*out`.  `none`
when a needed entry of `values_5` was never written, a conversion to `int` or
the product `nbit*ii` is out of range, or a shift is undefined. -/
def unpack_data {F : Type} (A : FloatOps F) (isLittleEndian : Bool) (sec_7 : Mem)
    (values_5 : List Dbl) : Option (List F) :=
  let uc : Mem := fun i => sec_7 (5 + i)
  match (values_5[2]?).bind Dbl.toInt, values_5[4]?, values_5[5]?, values_5[6]?,
      (values_5[7]?).bind Dbl.toInt with
  | some num, some rr, some ee, some dd, some nbit =>
    let mask := maskOf nbit
    collect (fun ii =>
      if nbit * ii < -2147483648 ∨ 2147483648 ≤ nbit * ii then none
      else (readBits isLittleEndian uc nbit (nbit * ii) mask).map (scaled A rr ee dd))
      num.toNat
  | _, _, _, _, _ => none

/-- Effect of `memcpy( &uw, p, 1 )` on the value of the `unsigned int` `uw`:
the byte lowest in memory is replaced. -/
def storeFirstByte (isLittleEndian : Bool) (uw : Nat) (b : Byte) : Nat :=
  if isLittleEndian then uw / 256 * 256 + b.val else b.val * 2 ^ 24 + uw % 2 ^ 24

/-- Loop of `unpack_bitmap` (lines 277-282) for `n` more iterations from index
`ii`, `uw` being the current value of the variable `uw`. -/
def bitmapLoop (isLittleEndian : Bool) (uc : Mem) (mask : Nat) : Nat → Nat → Nat → List Nat
  | 0, _, _ => []
  | n + 1, ii, uw =>
    let loaded := storeFirstByte isLittleEndian uw (uc (ii / 8))
    let uw1 := (loaded >>> (8 - 1 - ii % 8)) &&& mask
    (uw1 % 256) :: bitmapLoop isLittleEndian uc mask n (ii + 1) uw1

/-- The function `unpack_bitmap`: the `num` bytes written to `*out`.  `uw0` is
the indeterminate initial value of `uw`, only one byte of which is written
before it is read. -/
def unpack_bitmap (isLittleEndian : Bool) (sec_6 : Mem) (values_3 : List Dbl) (uw0 : Nat) :
    Option (List Nat) :=
  let uc : Mem := fun i => sec_6 (6 + i)
  match (values_3[3]?).bind Dbl.toInt with
  | some num => some (bitmapLoop isLittleEndian uc (maskOf 1) num.toNat 0 (uw0 % 2 ^ 32))
  | none => none

/-- Exact rational arithmetic, an idealised instance of `FloatOps` used to
evaluate examples whose results are exactly representable. -/
def exactOps : FloatOps ℚ where
  ofDbl := fun d =>
    match d with
    | .int v => (v : ℚ)
    | .single bits =>
      let m : ℚ := if bits / 2 ^ 23 % 256 = 0 then ((bits % 2 ^ 23 : Nat) : ℚ) * 2 ^ (-149 : Int)
        else ((2 ^ 23 + bits % 2 ^ 23 : Nat) : ℚ) * 2 ^ (((bits / 2 ^ 23 % 256 : Nat) : Int) - 150)
      if bits / 2 ^ 31 % 2 = 1 then -m else m
    | .chars _ _ _ _ _ => 0
  pow := fun a b => a ^ (Int.floor b)
  add := fun a b => a + b
  mul := fun a b => a * b
  div := fun a b => a / b
  toFloat := fun a => a

/-! ## Bit fields, in the words of the specification -/

/-- Bit `k` of the buffer, bits counted most-significant first within each byte. -/
def bitAt (uc : Mem) (k : Nat) : Nat :=
  (uc (k / 8)).val / 2 ^ (7 - k % 8) % 2

/-- The unsigned integer formed by the `w` consecutive bits starting at bit
`off`, the first bit being the most significant. -/
def bitField (uc : Mem) (off : Nat) : Nat → Nat
  | 0 => 0
  | w + 1 => 2 * bitField uc off w + bitAt uc (off + w)

/-- Total byte width of a descriptor (0 for a tag `decode_buf` rejects). -/
def formatWidth (format : List Char) : Nat :=
  (format.map (fun c => (fieldSize c).getD 0)).sum

/-- The catalog pairs (section number, template number) listed by the specification. -/
def catalogPairs : List (Int × Int) :=
  [(3, 0), (3, 20), (4, 0), (4, 1), (4, 8), (4, 9), (4, 11), (5, 0)]

/-! ## Sign-magnitude reading, in the words of the specification -/

/-- Base-256 positional value `b1*256^(n-2) + ... + b(n-1)` of the bytes after the first. -/
def positional : List Byte → Nat
  | [] => 0
  | b :: bs => b.val * 256 ^ bs.length + positional bs

/-- Magnitude `M = (b0 & 0x7F)*256^(n-1) + b1*256^(n-2) + ... + b(n-1)`. -/
def magnitude : List Byte → Nat
  | [] => 0
  | b0 :: rest => (b0.val &&& 0x7F) * 256 ^ rest.length + positional rest

/-- Sign-magnitude value: `-M` if the top bit of the first byte is set, `+M` otherwise. -/
def signMagnitude (b : List Byte) : Int :=
  if (b.getD 0 0).val &&& 0x80 ≠ 0 then -(magnitude b : Int) else (magnitude b : Int)

/-! ## A symmetric encoder -/

/-- The byte of value `v mod 256`. -/
def byteOf (v : Nat) : Byte := ⟨v % 256, Nat.mod_lt v (by decide)⟩

/-- The `n` big-endian bytes of `v`. -/
def beBytes : Nat → Nat → List Byte
  | 0, _ => []
  | n + 1, v => byteOf (v / 256 ^ n) :: beBytes n (v % 256 ^ n)

/-- Whether every tag of the descriptor is one of `1 2 4 8 u S R C`, the tags
the first `switch` of `decode_buf` gives a width. -/
def validFormat (format : List Char) : Bool :=
  format.all (fun c => (fieldSize c).isSome)

/-! ## The raw integer of one grid point -/

/-- Lines 250-252 of `unpack_data` for the loop index `ii`: the value of `uw`
after `memcpy( &uw, &uc[(nbit*ii)/8], 4 ); FIT_BYTE_ORDER( &uw, 4 );
uw = ( uw>>(32-nbit-(nbit*ii)%8)) & mask;`, where `uc = sec_7 + 5` and `mask`
is the mask built by the loop before.  `none` when the `int` product `nbit*ii`
overflows or the shift is undefined. -/
def rawAt (isLittleEndian : Bool) (sec_7 : Mem) (nbit : Int) (ii : Nat) : Option Nat :=
  if nbit * ii < -2147483648 ∨ 2147483648 ≤ nbit * ii then none
  else readBits isLittleEndian (fun i => sec_7 (5 + i)) nbit (nbit * ii) (maskOf nbit)

/-! ## Byte width of a section, in the words of the specification -/

/-- The total byte width of the section's fixed-prefix descriptor plus, for
sections 3-5, the matched template's descriptor; the template number is the
unsigned 16-bit field that ends the fixed prefix. -/
def sectionWidth (secno : Nat) (mem : Mem) : Nat :=
  let w := formatWidth (sectionFormat.getD secno [])
  if 3 ≤ secno ∧ secno ≤ 5 then
    match findTemplate secno ((256 * (mem (w - 2)).val + (mem (w - 1)).val : Nat) : Int)
        templateFormat with
    | some tfp => w + formatWidth tfp.format
    | none => w
  else w

/-! ## The decode session of `main` -/

/-- What the C program leaves to the host: the byte order, and, for the
section handled at the `n`-th pass (`n = 0` for section 0), the bytes that
follow the section buffer in memory (`junk n`), the indeterminate contents of
`dd` in the two calls of `decode_buf` (`dd0 n`, `dd1 n`) and of `uw` in
`unpack_bitmap` (`uw0 n`). -/
structure Host where
  isLittleEndian : Bool
  junk : Nat → Mem
  dd0 : Nat → Dbl
  dd1 : Nat → Dbl
  uw0 : Nat → Nat

/-- Arguments of one call of `save_file` (lines 727-737); the output path and
the cut-out arguments, which the section loop does not compute, are left out.
`none` is a `NULL` pointer. -/
structure SaveCall (F : Type) where
  values_3 : Option (List Dbl)
  values_4 : Option (List Dbl)
  values_5 : Option (List Dbl)
  bitmap_data : Option (List Nat)
  unpacked_data : List F
  date : List Int
  prodfld : Int
  datakind : Int

/-- The variables of `main` that the section loop updates, and the calls of
`save_file` made so far.  `none` is a `NULL` pointer; a slot of
`sec_double_value` holds the values written by the last `decode_section` of
that section number. -/
structure Session (F : Type) where
  sec_double_value : List (Option (List Dbl))
  bitmap_data : Option (List Nat)
  unpacked_data : Option (List F)
  saved : List (SaveCall F)

/-- The expression `(int)sec_double_value[s][i]`; `none` when the slot is
`NULL`, the value was not written by the last `decode_section`, or the
conversion is undefined. -/
def intAt (sec_double_value : List (Option (List Dbl))) (s i : Nat) : Option Int :=
  match sec_double_value.getD s none with
  | none => none
  | some values => (values[i]?).bind Dbl.toInt

/-- Lines 672-676: the default of `tgt_kind`. -/
def defaultKind (datakind tgt_kind : Int) : Int :=
  if tgt_kind = 0 ∧ (datakind = 2 ∨ datakind = 3) then 152
  else if tgt_kind = 0 then 18
  else tgt_kind

/-- Lines 679-687 and 700-720: `tgt_kind1`, `tgt_kind2`, and the pair
(`target_flg`, `prodfld`) computed for a section 7. -/
def targetOf (datakind tgt_kind tempno4 paramc paramn fixedk cremdl : Int) : Int × Int :=
  if datakind < 100 then
    let tgt_kind1 := if tgt_kind < 100 then Int.tdiv tgt_kind 10 else Int.tdiv tgt_kind 100
    let tgt_kind2 := if tgt_kind < 100 then Int.tmod tgt_kind 10 else Int.tmod tgt_kind 100
    let target_flg : Int := if paramc = tgt_kind1 ∧ paramn = tgt_kind2 then 1 else 0
    (if tempno4 = 9 then 0 else target_flg, 0)
  else if datakind = 100 then
    (if fixedk = 1 ∧ paramc = 3 ∧ (paramn = 1 ∨ paramn = 200) ∧ (cremdl = 225 ∨ cremdl = 226)
      then 1 else 0, 10)
  else (0, 0)

/-- The six conversions `(int)sec_double_value[1][7]` ... `[1][12]` of line 730-735. -/
def dateOf (sec_double_value : List (Option (List Dbl))) : Option (List Int) :=
  match intAt sec_double_value 1 7, intAt sec_double_value 1 8, intAt sec_double_value 1 9,
      intAt sec_double_value 1 10, intAt sec_double_value 1 11, intAt sec_double_value 1 12 with
  | some y, some m, some d, some hh, some mm, some ss => some [y, m, d, hh, mm, ss]
  | _, _, _, _, _, _ => none

/-- Lines 697-699: `if( secno == 6 && (int)sec_double_value[6][2] == 0 )
unpack_bitmap( sec_buffer, sec_double_value[3], &bitmap_data );` gives the new
content of `bitmap_data`; the outer `none` is undefined behaviour. -/
def bitmapStep (h : Host) (n secno : Nat) (sec_buffer : Mem)
    (sec_double_value : List (Option (List Dbl))) (bitmap_data : Option (List Nat)) :
    Option (Option (List Nat)) :=
  if secno = 6 then
    match intAt sec_double_value 6 2 with
    | none => none
    | some flag =>
      if flag = 0 then
        match sec_double_value.getD 3 none with
        | none => none
        | some values_3 =>
          (unpack_bitmap h.isLittleEndian sec_buffer values_3 (h.uw0 n)).map some
      else some bitmap_data
  else some bitmap_data

/-- Lines 700-739, the body of `if( secno == 7 )`; `none` is undefined behaviour. -/
def dataStep {F : Type} (A : FloatOps F) (h : Host) (datakind tgt_kind : Int)
    (sec_buffer : Mem) (st : Session F) : Option (Session F) :=
  match intAt st.sec_double_value 4 3, intAt st.sec_double_value 4 4,
      intAt st.sec_double_value 4 5, intAt st.sec_double_value 4 13,
      intAt st.sec_double_value 4 7 with
  | some tempno4, some paramc, some paramn, some fixedk, some cremdl =>
    let target := targetOf datakind tgt_kind tempno4 paramc paramn fixedk cremdl
    if target.1 = 1 then
      match st.sec_double_value.getD 5 none with
      | none => none
      | some values_5 =>
        match unpack_data A h.isLittleEndian sec_buffer values_5, dateOf st.sec_double_value with
        | some out, some date =>
          some { st with
            unpacked_data := some out
            saved := st.saved ++ [
              { values_3 := st.sec_double_value.getD 3 none
                values_4 := st.sec_double_value.getD 4 none
                values_5 := some values_5
                bitmap_data := st.bitmap_data
                unpacked_data := out
                date := date
                prodfld := target.2
                datakind := datakind }] }
        | _, _ => none
    else some st
  | _, _, _, _, _ => none

/-- Lines 695-740: the body of the `while` loop after the framer returned
`fr` at pass `n`, up to the end of the body or the `break`. -/
def sectionStep {F : Type} (A : FloatOps F) (h : Host) (datakind tgt_kind : Int) (n : Nat)
    (fr : Framed) (st : Session F) : Outcome (Session F) :=
  let sec_buffer := memFrom fr.buffer (h.junk n)
  match decode_section h.isLittleEndian fr.secno sec_buffer (h.dd0 n) (h.dd1 n) with
  | .fatal e => .fatal e
  | .undefined => .undefined
  | .ok values =>
    let sec_double_value := st.sec_double_value.set fr.secno (some values)
    if fr.secno = 8 then .ok { st with sec_double_value := sec_double_value }
    else
      match bitmapStep h n fr.secno sec_buffer sec_double_value st.bitmap_data with
      | none => .undefined
      | some bitmap_data =>
        let st1 : Session F :=
          { st with sec_double_value := sec_double_value, bitmap_data := bitmap_data }
        if fr.secno = 7 then
          match dataStep A h datakind tgt_kind sec_buffer st1 with
          | none => .undefined
          | some st2 => .ok st2
        else .ok st1

/-- Lines 694-740: the `while` loop, for at most `fuel` passes; pass `n` reads
the next section from the stream `fp`.  The loop ends when the framer returns
0 or after a section 8. -/
def sectionLoop {F : Type} (A : FloatOps F) (h : Host) (datakind tgt_kind : Int) :
    Nat → Nat → List Byte → Session F → Outcome (Session F)
  | 0, _, _, _ => .undefined
  | fuel + 1, n, fp, st =>
    match read_section_X h.isLittleEndian fp with
    | .fatal e => .fatal e
    | .undefined => .undefined
    | .ok fr =>
      if fr.secno = 0 then .ok st
      else
        match sectionStep A h datakind tgt_kind n fr st with
        | .fatal e => .fatal e
        | .undefined => .undefined
        | .ok st1 =>
          if fr.secno = 8 then .ok st1
          else sectionLoop A h datakind tgt_kind fuel (n + 1) fr.rest st1

/-- Lines 672-742 of `main`: the decode session over the opened file `fp`,
given `datakind` (from the file name) and `tgt_kind` (from the command line, 0
when absent).  Every pass of the loop consumes at least 4 bytes of the stream,
so the number of passes allowed is never reached. -/
def main {F : Type} (A : FloatOps F) (h : Host) (datakind tgt_kind : Int) (fp : List Byte) :
    Outcome (Session F) :=
  match read_section_0 fp with
  | .fatal e => .fatal e
  | .undefined => .undefined
  | .ok fr =>
    match decode_section h.isLittleEndian fr.secno (memFrom fr.buffer (h.junk 0))
        (h.dd0 0) (h.dd1 0) with
    | .fatal e => .fatal e
    | .undefined => .undefined
    | .ok values =>
      sectionLoop A h datakind (defaultKind datakind tgt_kind) (fr.rest.length + 1) 1 fr.rest
        { sec_double_value := (List.replicate 9 none).set fr.secno (some values)
          bitmap_data := none
          unpacked_data := none
          saved := [] }

/-- The `bitmap_data` arguments of the calls of `save_file`, in order, when
the session returns normally. -/
def savedBitmaps {F : Type} : Outcome (Session F) → Option (List (Option (List Nat)))
  | .ok st => some (st.saved.map (fun call => call.bitmap_data))
  | _ => none

/-! ## Sample messages -/

/-- A host with little-endian byte order, zero bytes after every buffer and
zero in every indeterminate variable. -/
def sampleHost : Host :=
  { isLittleEndian := true
    junk := fun _ _ => 0
    dd0 := fun _ => .int 0
    dd1 := fun _ => .int 0
    uw0 := fun _ => 0 }

/-- Section 0 of a message of `total` bytes (below 256): `GRIB`, reserved,
discipline 0, edition 2, total length. -/
def sampleSection0 (total : Byte) : List Byte :=
  [0x47, 0x52, 0x49, 0x42, 0, 0, 0, 2, 0, 0, 0, 0, 0, 0, 0, total]

/-- Section 1, 21 bytes: centre 34, reference time 2019-02-15 00:00:00. -/
def sampleSection1 : List Byte :=
  [0, 0, 0, 21, 1, 0, 34, 0, 0, 2, 1, 1, 0x07, 0xE3, 2, 15, 0, 0, 0, 0, 1]

/-- Section 3, 72 bytes: 4 grid points, template 3.0, a 2 x 2 grid from
20N 120E to 19N 121E in steps of one degree, the earth's radius left missing. -/
def sampleSection3 : List Byte :=
  [0, 0, 0, 72, 3, 0, 0, 0, 0, 4, 0, 0, 0, 0,
   6, 255, 255, 255, 255, 255, 255, 255, 255, 255, 255, 255, 255, 255, 255, 255,
   0, 0, 0, 2, 0, 0, 0, 2, 0, 0, 0, 0, 255, 255, 255, 255,
   1, 49, 45, 0, 7, 39, 14, 0, 0x30,
   1, 33, 234, 192, 7, 54, 80, 64, 0, 15, 66, 64, 0, 15, 66, 64, 0]

/-- Section 4, 34 bytes: template 4.0 with the given parameter category and
parameter number. -/
def sampleSection4 (paramc paramn : Byte) : List Byte :=
  [0, 0, 0, 34, 4, 0, 0, 0, 0,
   paramc, paramn, 2, 0, 31, 0, 0, 0, 1, 0, 0, 0, 6, 1, 0, 0, 0, 0, 0, 255, 255, 255, 255, 255,
   255]

/-- Section 5, 21 bytes: `num` values, template 5.0 (simple packing) with
R = 0, E = 0, D = 0, nbits = 8. -/
def sampleSection5 (num : Byte) : List Byte :=
  [0, 0, 0, 21, 5, 0, 0, 0, num, 0, 0, 0, 0, 0, 0, 0, 0, 0, 0, 8, 0]

/-- The minimal message of the specification: sections 0, 1, 3, 4, 5, 7, 8,
a 2 x 2 grid with nbits = 8, R = 0, E = 0, D = 0 and packed bytes 1, 2, 3, 4,
for a product of the given parameter category and number. -/
def sampleMessage (paramc paramn : Byte) : List Byte :=
  sampleSection0 177 ++ sampleSection1 ++ sampleSection3 ++ sampleSection4 paramc paramn
    ++ sampleSection5 4 ++ [0, 0, 0, 9, 7, 1, 2, 3, 4] ++ magic7777

/-- A message of two fields on the same grid: sections 0, 1, 3, then 4, 5, 6,
7 with an explicit bitmap (flag 0, bits 1010) and two packed values, then
4, 5, 6, 7 with bitmap flag 255 (no bitmap) and four packed values, then 8. -/
def twoFieldMessage : List Byte :=
  sampleSection0 252 ++ sampleSection1 ++ sampleSection3
    ++ sampleSection4 1 8 ++ sampleSection5 2 ++ [0, 0, 0, 7, 6, 0, 0xA0]
    ++ [0, 0, 0, 7, 7, 1, 3]
    ++ sampleSection4 1 8 ++ sampleSection5 4 ++ [0, 0, 0, 6, 6, 255]
    ++ [0, 0, 0, 9, 7, 1, 2, 3, 4] ++ magic7777

/-! ## Lemmas on rounding and the signed tags -/

theorem excessBits_small (fuel x : Nat) (h : x < 2 ^ 53) : excessBits fuel x = 0 := by
  cases fuel with
  | zero => rfl
  | succ n => exact if_pos h

theorem roundDouble_small (x : Nat) (h : x < 2 ^ 53) : roundDouble x = x := by
  simp [roundDouble, excessBits_small x x h, Nat.mod_one]

theorem exactFold_ge (bs : List Byte) (a : Nat) :
    a ≤ bs.foldl (fun dd b => dd * 256 + b.val) a := by
  induction bs generalizing a with
  | nil => simp
  | cons b bs ih =>
    simp only [List.foldl_cons]
    exact le_trans (by omega) (ih (a * 256 + b.val))

theorem roundedFold_exact (bs : List Byte) (a : Nat)
    (h : bs.foldl (fun dd b => dd * 256 + b.val) a < 2 ^ 53) :
    bs.foldl (fun dd b => roundDouble (dd * 256 + b.val)) a
      = bs.foldl (fun dd b => dd * 256 + b.val) a := by
  induction bs generalizing a with
  | nil => simp
  | cons b bs ih =>
    simp only [List.foldl_cons] at h ⊢
    have hstep : a * 256 + b.val < 2 ^ 53 := lt_of_le_of_lt (exactFold_ge bs _) h
    rw [roundDouble_small _ hstep]
    exact ih _ h

theorem exactFold_positional (bs : List Byte) (a : Nat) :
    bs.foldl (fun dd b => dd * 256 + b.val) a = a * 256 ^ bs.length + positional bs := by
  induction bs generalizing a with
  | nil => simp [positional]
  | cons b bs ih =>
    simp only [List.foldl_cons, List.length_cons, positional]
    rw [ih]
    ring

theorem signedValue_exact (buffer : List Byte) (hM : magnitude buffer < 2 ^ 53) :
    signedValue buffer = signMagnitude buffer := by
  cases buffer with
  | nil => simp [signedValue, signMagnitude, magnitude]
  | cons b0 rest =>
    have hfold : rest.foldl (fun dd b => dd * 256 + b.val) (b0.val &&& 0x7F) < 2 ^ 53 := by
      rw [exactFold_positional]; exact hM
    simp only [signedValue, signMagnitude, magnitude, List.getD_cons_zero]
    rw [roundedFold_exact rest _ hfold, exactFold_positional]

theorem positional_lt (bs : List Byte) : positional bs < 256 ^ bs.length := by
  induction bs with
  | nil => simp [positional]
  | cons b bs ih =>
    simp only [positional, List.length_cons, pow_succ]
    have hb := b.isLt
    nlinarith [hb, ih]

theorem low7_le (b : Byte) : b.val &&& 0x7F ≤ 127 := by
  have h := Nat.and_pow_two_sub_one_eq_mod b.val 7
  norm_num at h
  omega

theorem magnitude_lt (b : List Byte) : magnitude b < 128 * 256 ^ (b.length - 1) := by
  cases b with
  | nil => simp [magnitude]
  | cons b0 rest =>
    simp only [magnitude, List.length_cons, Nat.add_sub_cancel]
    have h1 := low7_le b0
    have h2 := positional_lt rest
    nlinarith [h1, h2]

theorem length_peek (mem : Mem) (ii size : Nat) : (peek mem ii size).length = size := by
  simp [peek]

theorem magnitude_short (mem : Mem) (ii size : Nat) (h : size ≤ 4) :
    magnitude (peek mem ii size) < 2 ^ 53 := by
  have hlt := magnitude_lt (peek mem ii size)
  rw [length_peek] at hlt
  have hpow : 256 ^ (size - 1) ≤ 256 ^ 3 := Nat.pow_le_pow_right (by norm_num) (by omega)
  have : 128 * 256 ^ (size - 1) ≤ 128 * 256 ^ 3 := Nat.mul_le_mul_left _ hpow
  norm_num at this ⊢
  omega

theorem decode_buf_signed_tag (isLittleEndian : Bool) (sec_buffer : Mem) (index : Nat)
    (c : Char) (dd : Dbl) (hc : c = '1' ∨ c = '2' ∨ c = '4' ∨ c = '8') :
    decode_buf isLittleEndian sec_buffer index [c] dd
      = .ok ([.int (signedValue (peek sec_buffer index (c.toNat - '0'.toNat)))],
          index + (c.toNat - '0'.toNat)) := by
  rcases hc with rfl | rfl | rfl | rfl <;>
    simp [decode_buf, decodeField, fieldSize, fieldValue]

/-! ## C1: signed tags -/

/-- C1 (amended): for every width n in 1, 2, 4, 8 (the tag is the digit `c`,
n = `c.toNat - '0'.toNat`) and every n-byte field, provided in the 8-byte case
that the magnitude M is below 2^53, `decode_buf` under the signed tag n yields
exactly one value, the sign-magnitude value of the field (-M if the top bit of
b0 is set, +M otherwise), and advances the offset by n; the 1-byte fields 0x81,
0x01 and 0xFF decode to -1, 1 and -127. -/
theorem decode_buf_sign_magnitude (isLittleEndian : Bool) (sec_buffer : Mem) (index : Nat)
    (c : Char) (dd : Dbl) (hc : c = '1' ∨ c = '2' ∨ c = '4' ∨ c = '8')
    (hM : c = '8' → magnitude (peek sec_buffer index 8) < 2 ^ 53) :
    decode_buf isLittleEndian sec_buffer index [c] dd
        = .ok ([.int (signMagnitude (peek sec_buffer index (c.toNat - '0'.toNat)))],
            index + (c.toNat - '0'.toNat))
      ∧ decode_buf isLittleEndian (memOf [0x81]) 0 ['1'] dd = .ok ([.int (-1)], 1)
      ∧ decode_buf isLittleEndian (memOf [0x01]) 0 ['1'] dd = .ok ([.int 1], 1)
      ∧ decode_buf isLittleEndian (memOf [0xFF]) 0 ['1'] dd = .ok ([.int (-127)], 1) := by
  refine ⟨?_, ?_, ?_, ?_⟩
  · rw [decode_buf_signed_tag isLittleEndian sec_buffer index c dd hc]
    have hlt : magnitude (peek sec_buffer index (c.toNat - '0'.toNat)) < 2 ^ 53 := by
      rcases hc with rfl | rfl | rfl | rfl
      · exact magnitude_short _ _ _ (by decide)
      · exact magnitude_short _ _ _ (by decide)
      · exact magnitude_short _ _ _ (by decide)
      · exact hM rfl
    rw [signedValue_exact _ hlt]
  · rw [decode_buf_signed_tag _ _ _ _ _ (Or.inl rfl)]; rfl
  · rw [decode_buf_signed_tag _ _ _ _ _ (Or.inl rfl)]; rfl
  · rw [decode_buf_signed_tag _ _ _ _ _ (Or.inl rfl)]; rfl

/-- C1, witness: the 8-byte field 80 00 00 00 00 00 01 02 decodes to -258. -/
theorem decode_buf_sign_magnitude_witness :
    ('8' = '1' ∨ '8' = '2' ∨ '8' = '4' ∨ '8' = '8')
      ∧ ('8' = '8' → magnitude (peek (memOf [0x80, 0, 0, 0, 0, 0, 1, 2]) 0 8) < 2 ^ 53)
      ∧ decode_buf true (memOf [0x80, 0, 0, 0, 0, 0, 1, 2]) 0 ['8'] (.int 0)
          = .ok ([.int (-258)], 8) :=
  ⟨by decide, fun _ => by decide,
    (decode_buf_sign_magnitude true (memOf [0x80, 0, 0, 0, 0, 0, 1, 2]) 0 '8' (.int 0)
      (by decide) (fun _ => by decide)).1.trans (by decide)⟩

/-- C1, counterexample: the 8-byte field 00 20 00 00 00 00 00 01 has top bit
clear and magnitude 2^53 + 1, which no double holds; `decode_buf` yields 2^53. -/
theorem decode_buf_signed8_inexact :
    decode_buf true (memOf [0, 0x20, 0, 0, 0, 0, 0, 1]) 0 ['8'] (.int 0)
        = .ok ([.int (2 ^ 53)], 8)
      ∧ signMagnitude (peek (memOf [0, 0x20, 0, 0, 0, 0, 0, 1]) 0 8) = 2 ^ 53 + 1
      ∧ decode_buf true (memOf [0, 0x20, 0, 0, 0, 0, 0, 1]) 0 ['8'] (.int 0)
        ≠ .ok ([.int (signMagnitude (peek (memOf [0, 0x20, 0, 0, 0, 0, 0, 1]) 0 8))], 8) := by
  decide

/-! ## Lemmas on the bit window -/

theorem hostValue_fit (isLittleEndian : Bool) (bs : List Byte) :
    hostValue isLittleEndian (FIT_BYTE_ORDER isLittleEndian bs) = beValue bs := by
  cases isLittleEndian <;> simp [hostValue, FIT_BYTE_ORDER, swabN]

theorem fit_fit (isLittleEndian : Bool) (bs : List Byte) :
    FIT_BYTE_ORDER isLittleEndian (FIT_BYTE_ORDER isLittleEndian bs) = bs := by
  cases isLittleEndian <;> simp [FIT_BYTE_ORDER, swabN]

theorem maskOf_eq (w : Nat) (h1 : 1 ≤ w) (h32 : w ≤ 32) : maskOf (w : Int) = 2 ^ w - 1 := by
  interval_cases w <;> decide

theorem bitAt_lt (uc : Mem) (k : Nat) : bitAt uc k < 2 :=
  Nat.mod_lt _ (by norm_num)

theorem bitField_lt (uc : Mem) (off w : Nat) : bitField uc off w < 2 ^ w := by
  induction w with
  | zero => simp [bitField]
  | succ w ih =>
    have hb := bitAt_lt uc (off + w)
    simp only [bitField, pow_succ]
    omega

theorem bitField_append (uc : Mem) (off m n : Nat) :
    bitField uc off (m + n) = bitField uc off m * 2 ^ n + bitField uc (off + m) n := by
  induction n with
  | zero => simp [bitField]
  | succ n ih =>
    have hstep : bitField uc off (m + (n + 1))
        = 2 * bitField uc off (m + n) + bitAt uc (off + (m + n)) := rfl
    rw [hstep, ih]
    simp only [bitField, pow_succ, Nat.add_assoc]
    ring

theorem bitField_head (uc : Mem) (off m n : Nat) :
    bitField uc off (m + n) / 2 ^ n = bitField uc off m := by
  rw [bitField_append, Nat.add_comm, Nat.add_mul_div_right _ _ (by positivity),
    Nat.div_eq_of_lt (bitField_lt uc (off + m) n), Nat.zero_add]

theorem bitField_tail (uc : Mem) (off m n : Nat) :
    bitField uc off (m + n) % 2 ^ n = bitField uc (off + m) n := by
  rw [bitField_append, Nat.add_comm, Nat.add_mul_mod_self_right,
    Nat.mod_eq_of_lt (bitField_lt uc (off + m) n)]

theorem bitAt_byte (uc : Mem) (k j : Nat) (hj : j < 8) :
    bitAt uc (8 * k + j) = (uc k).val / 2 ^ (7 - j) % 2 := by
  have h1 : (8 * k + j) / 8 = k := by omega
  have h2 : (8 * k + j) % 8 = j := by omega
  simp only [bitAt, h1, h2]

theorem byte_bits (b : Nat) (hb : b < 256) :
    2 * (2 * (2 * (2 * (2 * (2 * (2 * (2 * 0 + b / 128 % 2) + b / 64 % 2) + b / 32 % 2)
      + b / 16 % 2) + b / 8 % 2) + b / 4 % 2) + b / 2 % 2) + b / 1 % 2 = b := by
  have hw : 128 * (b / 128 % 2) + 64 * (b / 64 % 2) + 32 * (b / 32 % 2) + 16 * (b / 16 % 2)
      + 8 * (b / 8 % 2) + 4 * (b / 4 % 2) + 2 * (b / 2 % 2) + b % 2 = b := by omega
  rw [Nat.div_one]
  calc 2 * (2 * (2 * (2 * (2 * (2 * (2 * (2 * 0 + b / 128 % 2) + b / 64 % 2) + b / 32 % 2)
        + b / 16 % 2) + b / 8 % 2) + b / 4 % 2) + b / 2 % 2) + b % 2
      = 128 * (b / 128 % 2) + 64 * (b / 64 % 2) + 32 * (b / 32 % 2) + 16 * (b / 16 % 2)
        + 8 * (b / 8 % 2) + 4 * (b / 4 % 2) + 2 * (b / 2 % 2) + b % 2 := by ring
    _ = b := hw

theorem bitField_byte (uc : Mem) (k : Nat) : bitField uc (8 * k) 8 = (uc k).val := by
  have hunf : bitField uc (8 * k) 8
      = 2 * (2 * (2 * (2 * (2 * (2 * (2 * (2 * 0 + bitAt uc (8 * k + 0)) + bitAt uc (8 * k + 1))
        + bitAt uc (8 * k + 2)) + bitAt uc (8 * k + 3)) + bitAt uc (8 * k + 4))
        + bitAt uc (8 * k + 5)) + bitAt uc (8 * k + 6)) + bitAt uc (8 * k + 7) := rfl
  rw [hunf, bitAt_byte uc k 0 (by norm_num), bitAt_byte uc k 1 (by norm_num),
    bitAt_byte uc k 2 (by norm_num), bitAt_byte uc k 3 (by norm_num),
    bitAt_byte uc k 4 (by norm_num), bitAt_byte uc k 5 (by norm_num),
    bitAt_byte uc k 6 (by norm_num), bitAt_byte uc k 7 (by norm_num)]
  exact byte_bits (uc k).val (uc k).isLt

theorem beValue_peek4 (uc : Mem) (k : Nat) :
    beValue (peek uc k 4) = bitField uc (8 * k) 32 := by
  have hlist : peek uc k 4 = [uc k, uc (k + 1), uc (k + 2), uc (k + 3)] := rfl
  have a1 := bitField_append uc (8 * k) 8 24
  have a2 := bitField_append uc (8 * (k + 1)) 8 16
  have a3 := bitField_append uc (8 * (k + 2)) 8 8
  have b0 := bitField_byte uc k
  have b1 := bitField_byte uc (k + 1)
  have b2 := bitField_byte uc (k + 2)
  have b3 := bitField_byte uc (k + 3)
  have c1 : 8 * k + 8 = 8 * (k + 1) := by ring
  have c2 : 8 * (k + 1) + 8 = 8 * (k + 2) := by ring
  have c3 : 8 * (k + 2) + 8 = 8 * (k + 3) := by ring
  rw [c1] at a1
  rw [c2] at a2
  rw [c3] at a3
  norm_num at a1 a2 a3
  rw [hlist, a1, a2, a3, b0, b1, b2, b3]
  simp only [beValue, List.foldl_cons, List.foldl_nil]
  ring

theorem readBits_eq_bitField (isLittleEndian : Bool) (uc : Mem) (off w : Nat)
    (h1 : 1 ≤ w) (hw : w + off % 8 ≤ 32) :
    readBits isLittleEndian uc (w : Int) (off : Int) (maskOf (w : Int))
      = some (bitField uc off w) := by
  have hm : Int.tmod (off : Int) 8 = ((off % 8 : Nat) : Int) := (Int.ofNat_tmod off 8).symm
  have hd : Int.tdiv (off : Int) 8 = ((off / 8 : Nat) : Int) := (Int.ofNat_tdiv off 8).symm
  have hcond : 0 ≤ 32 - (w : Int) - ((off % 8 : Nat) : Int)
      ∧ 32 - (w : Int) - ((off % 8 : Nat) : Int) < 32 ∧ 0 ≤ (off : Int) := by
    refine ⟨by omega, by omega, by omega⟩
  have hsh : (32 - (w : Int) - ((off % 8 : Nat) : Int)).toNat = 32 - (off % 8 + w) := by omega
  have hsplit : 32 = (off % 8 + w) + (32 - (off % 8 + w)) := by omega
  have hoff : 8 * (off / 8) + off % 8 = off := Nat.div_add_mod off 8
  simp only [readBits, hm, hd, if_pos hcond, Int.toNat_ofNat, hsh, hostValue_fit,
    beValue_peek4, maskOf_eq w h1 (by omega), Nat.shiftRight_eq_div_pow,
    Nat.and_pow_two_sub_one_eq_mod]
  have hhead : bitField uc (8 * (off / 8)) 32 / 2 ^ (32 - (off % 8 + w))
      = bitField uc (8 * (off / 8)) (off % 8 + w) := by
    conv_lhs => rw [hsplit]
    have := bitField_head uc (8 * (off / 8)) (off % 8 + w) (32 - (off % 8 + w))
    simpa using this
  rw [hhead, bitField_tail, hoff]

theorem collect_some {α : Type} (body : Nat → Option α) (f : Nat → α) (n : Nat)
    (h : ∀ i, i < n → body i = some (f i)) :
    collect body n = some ((List.range n).map f) := by
  induction n with
  | zero => rfl
  | succ n ih =>
    have hprev := ih (fun i hi => h i (Nat.lt_succ_of_lt hi))
    simp only [collect, hprev, h n (Nat.lt_succ_self n), List.range_succ, List.map_append,
      List.map_cons, List.map_nil]

theorem toInt_natCast (n : Nat) (h : n < 2 ^ 31) : Dbl.toInt (.int (n : Int)) = some (n : Int) := by
  have h1 : -2147483648 ≤ (n : Int) := by omega
  have h2 : (n : Int) < 2147483648 := by omega
  show (if -2147483648 ≤ (n : Int) ∧ (n : Int) < 2147483648 then some (n : Int) else none)
    = some (n : Int)
  rw [if_pos ⟨h1, h2⟩]

theorem bitAt_shift (mem : Mem) (c k : Nat) :
    bitAt (fun i => mem (c + i)) k = bitAt mem (8 * c + k) := by
  have h1 : (8 * c + k) / 8 = c + k / 8 := by omega
  have h2 : (8 * c + k) % 8 = k % 8 := by omega
  simp only [bitAt, h1, h2]

theorem bitField_shift (mem : Mem) (c off w : Nat) :
    bitField (fun i => mem (c + i)) off w = bitField mem (8 * c + off) w := by
  induction w with
  | zero => rfl
  | succ w ih => simp only [bitField, ih, bitAt_shift, Nat.add_assoc]

theorem scaled_exact_unit (n : Nat) :
    scaled exactOps (.single 0) (.int 0) (.int 0) n = (n : ℚ) := by
  simp [scaled, exactOps]

theorem unpack_data_eq {F : Type} (A : FloatOps F) (isLittleEndian : Bool) (sec_7 : Mem)
    (values_5 : List Dbl) (N nbits : Nat) (rr ee dd : Dbl)
    (h2 : values_5[2]? = some (.int (N : Int))) (h4 : values_5[4]? = some rr)
    (h5 : values_5[5]? = some ee) (h6 : values_5[6]? = some dd)
    (h7 : values_5[7]? = some (.int (nbits : Int)))
    (h1 : 1 ≤ nbits) (h32 : nbits ≤ 32) (hN : nbits * N < 2 ^ 31)
    (hwin : ∀ i, i < N → nbits + (i * nbits) % 8 ≤ 32) :
    unpack_data A isLittleEndian sec_7 values_5
      = some ((List.range N).map
          (fun i => scaled A rr ee dd (bitField sec_7 (8 * 5 + i * nbits) nbits))) := by
  have hNlt : N < 2 ^ 31 := lt_of_le_of_lt (Nat.le_mul_of_pos_left N h1) hN
  have hnb : nbits < 2 ^ 31 := lt_of_le_of_lt h32 (by norm_num)
  have hbody : ∀ i, i < N →
      (fun ii : Nat =>
        if (nbits : Int) * (ii : Int) < -2147483648 ∨ 2147483648 ≤ (nbits : Int) * (ii : Int)
        then none
        else (readBits isLittleEndian (fun i => sec_7 (5 + i)) (nbits : Int)
          ((nbits : Int) * (ii : Int)) (maskOf (nbits : Int))).map (scaled A rr ee dd)) i
      = some ((fun i => scaled A rr ee dd (bitField sec_7 (8 * 5 + i * nbits) nbits)) i) := by
    intro i hi
    have hlt : nbits * i < 2 ^ 31 :=
      lt_of_le_of_lt (Nat.mul_le_mul_left nbits (Nat.le_of_lt hi)) hN
    have hcast : (nbits : Int) * (i : Int) = ((nbits * i : Nat) : Int) := by push_cast; ring
    have hno : ¬ ((nbits : Int) * (i : Int) < -2147483648
        ∨ 2147483648 ≤ (nbits : Int) * (i : Int)) := by
      rw [hcast]; omega
    have hwin' : nbits + (nbits * i) % 8 ≤ 32 := by
      rw [Nat.mul_comm]; exact hwin i hi
    beta_reduce
    rw [if_neg hno, hcast,
      readBits_eq_bitField isLittleEndian (fun i => sec_7 (5 + i)) (nbits * i) nbits h1 hwin',
      Option.map_some', bitField_shift, Nat.mul_comm nbits i]
  unfold unpack_data
  rw [h2, h4, h5, h6, h7]
  rw [Option.some_bind, Option.some_bind, toInt_natCast N hNlt, toInt_natCast nbits hnb]
  exact collect_some _ _ N hbody

theorem unpack_data_example_exact (isLittleEndian : Bool) (junk : Mem) :
    unpack_data exactOps isLittleEndian (memFrom [0, 0, 0, 8, 7, 10, 20, 30] junk)
        [.int 21, .int 5, .int 3, .int 0, .single 0, .int 0, .int 0, .int 8, .int 0]
      = some [10, 20, 30] := by
  rw [unpack_data_eq exactOps isLittleEndian (memFrom [0, 0, 0, 8, 7, 10, 20, 30] junk)
    [.int 21, .int 5, .int 3, .int 0, .single 0, .int 0, .int 0, .int 8, .int 0]
    3 8 (.single 0) (.int 0) (.int 0) rfl rfl rfl rfl rfl
    (by decide) (by decide) (by decide) (by decide)]
  have e0 : bitField (memFrom [0, 0, 0, 8, 7, 10, 20, 30] junk) (8 * 5 + 0 * 8) 8 = 10 :=
    bitField_byte (memFrom [0, 0, 0, 8, 7, 10, 20, 30] junk) 5
  have e1 : bitField (memFrom [0, 0, 0, 8, 7, 10, 20, 30] junk) (8 * 5 + 1 * 8) 8 = 20 :=
    bitField_byte (memFrom [0, 0, 0, 8, 7, 10, 20, 30] junk) 6
  have e2 : bitField (memFrom [0, 0, 0, 8, 7, 10, 20, 30] junk) (8 * 5 + 2 * 8) 8 = 30 :=
    bitField_byte (memFrom [0, 0, 0, 8, 7, 10, 20, 30] junk) 7
  have hr : List.range 3 = [0, 1, 2] := rfl
  rw [hr]
  simp only [List.map_cons, List.map_nil, e0, e1, e2, scaled_exact_unit]
  norm_num

/-! ## C2: the bit window -/

/-- C2 (amended): for every buffer, every bit offset and every bit width w with
1 <= w and w + (offset mod 8) <= 32, the bit window of `unpack_data` (load 4
bytes at byte offset/8 big-endian, shift right by 32 - w - (offset mod 8),
mask) returns exactly the unsigned integer formed by the w consecutive bits of
the buffer starting at that bit offset, most-significant bit first; over
[0b10110100, 0, 0, 0], offset 0 width 4 gives 11 and offset 4 width 4 gives 4. -/
theorem readBits_window (isLittleEndian : Bool) (uc : Mem) (off w : Nat)
    (h1 : 1 ≤ w) (hw : w + off % 8 ≤ 32) :
    readBits isLittleEndian uc (w : Int) (off : Int) (maskOf (w : Int))
        = some (bitField uc off w)
      ∧ readBits isLittleEndian (memOf [0xB4, 0, 0, 0]) 4 0 (maskOf 4) = some 11
      ∧ readBits isLittleEndian (memOf [0xB4, 0, 0, 0]) 4 4 (maskOf 4) = some 4 := by
  refine ⟨readBits_eq_bitField isLittleEndian uc off w h1 hw, ?_, ?_⟩
  · cases isLittleEndian <;> decide
  · cases isLittleEndian <;> decide

/-- C2, witness: the 12 bits at bit offset 4 of AB CD EF 01 are 0xBCD. -/
theorem readBits_window_witness :
    1 ≤ 12 ∧ 12 + 4 % 8 ≤ 32
      ∧ readBits true (memOf [0xAB, 0xCD, 0xEF, 0x01]) 12 4 (maskOf 12) = some 0xBCD :=
  ⟨by decide, by decide,
    (readBits_window true (memOf [0xAB, 0xCD, 0xEF, 0x01]) 4 12 (by decide) (by decide)).1.trans
      (by decide)⟩

/-- C2, counterexample: width 32 at bit offset 4 of 00 00 00 00 FF (4 readable
bytes from byte 0).  The 32 bits from bit 4 form 15, but the shift amount is
32 - 32 - 4 = -4, undefined in C; and whatever a shift yields, the 4-byte window
is the same as for 00 00 00 00 00, whose 32 bits from bit 4 form 0. -/
theorem readBits_window_too_narrow :
    (4 : Nat) / 8 + 4 ≤ ([0, 0, 0, 0, 0xFF] : List Byte).length
      ∧ bitField (memOf [0, 0, 0, 0, 0xFF]) 4 32 = 15
      ∧ readBits true (memOf [0, 0, 0, 0, 0xFF]) 32 4 (maskOf 32) = none
      ∧ readBits true (memOf [0, 0, 0, 0, 0xFF]) 32 4 (maskOf 32)
          ≠ some (bitField (memOf [0, 0, 0, 0, 0xFF]) 4 32)
      ∧ peek (memOf [0, 0, 0, 0, 0xFF]) (4 / 8) 4 = peek (memOf [0, 0, 0, 0, 0]) (4 / 8) 4
      ∧ bitField (memOf [0, 0, 0, 0, 0]) 4 32 = 0 := by
  decide

/-! ## C3: `unpack_data` -/

/-- C3 (amended): with N = section-5 value 2 and nbits = value 7, when
1 <= nbits <= 32, nbits * N < 2^31 and nbits + ((i*nbits) mod 8) <= 32 for
every i < N, `unpack_data` produces exactly N values and for every i < N
value[i] = (R + 2^E * raw_i) / 10^D (computed in floating point, stored as a
float), R, E, D being values 4, 5, 6 and raw_i the nbits-bit unsigned integer
found i*nbits bits after the 5-byte section-7 header.  R=0, E=0, D=0, nbits=8,
N=3 over payload bytes [10, 20, 30] yields [10, 20, 30], whatever bytes follow
the section in memory. -/
theorem unpack_data_values {F : Type} (A : FloatOps F) (isLittleEndian : Bool) (sec_7 : Mem)
    (values_5 : List Dbl) (N nbits : Nat) (rr ee dd : Dbl)
    (h2 : values_5[2]? = some (.int (N : Int))) (h4 : values_5[4]? = some rr)
    (h5 : values_5[5]? = some ee) (h6 : values_5[6]? = some dd)
    (h7 : values_5[7]? = some (.int (nbits : Int)))
    (h1 : 1 ≤ nbits) (h32 : nbits ≤ 32) (hN : nbits * N < 2 ^ 31)
    (hwin : ∀ i, i < N → nbits + (i * nbits) % 8 ≤ 32) :
    (∃ out, unpack_data A isLittleEndian sec_7 values_5 = some out ∧ out.length = N
        ∧ ∀ i, i < N →
          out[i]? = some (A.toFloat (A.div
            (A.add (A.ofDbl rr)
              (A.mul (A.pow (A.ofDbl (.int 2)) (A.ofDbl ee))
                (A.ofDbl (.int (bitField sec_7 (8 * 5 + i * nbits) nbits : Nat)))))
            (A.pow (A.ofDbl (.int 10)) (A.ofDbl dd)))))
      ∧ (∀ junk : Mem,
          unpack_data exactOps isLittleEndian (memFrom [0, 0, 0, 8, 7, 10, 20, 30] junk)
            [.int 21, .int 5, .int 3, .int 0, .single 0, .int 0, .int 0, .int 8, .int 0]
          = some [10, 20, 30]) := by
  refine ⟨⟨_, unpack_data_eq A isLittleEndian sec_7 values_5 N nbits rr ee dd h2 h4 h5 h6 h7
    h1 h32 hN hwin, ?_, ?_⟩, unpack_data_example_exact isLittleEndian⟩
  · simp
  · intro i hi
    simp [List.getElem?_map, List.getElem?_range hi, scaled]

/-- C3, witness: two 12-bit values packed in AB CD EF after the header. -/
theorem unpack_data_values_witness :
    1 ≤ 12 ∧ 12 ≤ 32 ∧ 12 * 2 < 2 ^ 31 ∧ (∀ i, i < 2 → 12 + (i * 12) % 8 ≤ 32)
      ∧ ∃ out, unpack_data exactOps true (memOf [0, 0, 0, 8, 7, 0xAB, 0xCD, 0xEF])
            [.int 21, .int 5, .int 2, .int 0, .single 0, .int 0, .int 0, .int 12, .int 0]
          = some out ∧ out.length = 2
        ∧ ∀ i, i < 2 → out[i]? = some (exactOps.toFloat (exactOps.div
            (exactOps.add (exactOps.ofDbl (.single 0))
              (exactOps.mul (exactOps.pow (exactOps.ofDbl (.int 2)) (exactOps.ofDbl (.int 0)))
                (exactOps.ofDbl (.int (bitField (memOf [0, 0, 0, 8, 7, 0xAB, 0xCD, 0xEF])
                  (8 * 5 + i * 12) 12 : Nat)))))
            (exactOps.pow (exactOps.ofDbl (.int 10)) (exactOps.ofDbl (.int 0))))) :=
  ⟨by decide, by decide, by decide, by decide,
    (unpack_data_values exactOps true (memOf [0, 0, 0, 8, 7, 0xAB, 0xCD, 0xEF])
      [.int 21, .int 5, .int 2, .int 0, .single 0, .int 0, .int 0, .int 12, .int 0]
      2 12 (.single 0) (.int 0) (.int 0) rfl rfl rfl rfl rfl
      (by decide) (by decide) (by decide) (by decide)).1⟩

/-- C3, counterexample: N = 2 values of nbits = 31.  For i = 1 the shift
amount is 32 - 31 - (31 mod 8) = -6, undefined in C: the 4-byte window at byte 3
does not hold bits 31..61, and `unpack_data` does not produce 2 values. -/
theorem unpack_data_wide_undefined :
    unpack_data exactOps true (memOf [0, 0, 0, 13, 7, 0, 0, 0, 1, 0, 0, 0, 1])
        [.int 21, .int 5, .int 2, .int 0, .single 0, .int 0, .int 0, .int 31, .int 0]
      = none
    ∧ ¬ ∃ out, unpack_data exactOps true (memOf [0, 0, 0, 13, 7, 0, 0, 0, 1, 0, 0, 0, 1])
        [.int 21, .int 5, .int 2, .int 0, .single 0, .int 0, .int 0, .int 31, .int 0]
      = some out ∧ out.length = 2 := by
  have hrun : unpack_data exactOps true (memOf [0, 0, 0, 13, 7, 0, 0, 0, 1, 0, 0, 0, 1])
      [.int 21, .int 5, .int 2, .int 0, .single 0, .int 0, .int 0, .int 31, .int 0]
      = none := by decide
  refine ⟨hrun, ?_⟩
  rintro ⟨out, hout, _⟩
  rw [hrun] at hout
  cases hout

/-! ## C4: `unpack_bitmap` -/

theorem low_bit_of_loaded (uw b s : Nat) (hs : s < 8) :
    (((uw / 256 * 256 + b) >>> (8 - 1 - s)) &&& 1) % 256 = b / 2 ^ (7 - s) % 2 := by
  rw [Nat.shiftRight_eq_div_pow, Nat.and_one_is_mod]
  interval_cases s <;> norm_num <;> omega

theorem bitmapLoop_little_endian (uc : Mem) (n ii uw : Nat) :
    bitmapLoop true uc 1 n ii uw
      = (List.range n).map (fun i => bitAt uc (ii + i)) := by
  induction n generalizing ii uw with
  | zero => rfl
  | succ n ih =>
    rw [List.range_succ_eq_map, List.map_cons, List.map_map]
    simp only [bitmapLoop, storeFirstByte, if_true]
    rw [low_bit_of_loaded _ _ _ (Nat.mod_lt ii (by norm_num)), ih]
    simp only [bitAt, Nat.add_zero, List.cons.injEq, true_and]
    apply List.map_congr_left
    intro i _
    simp only [Function.comp, Nat.succ_eq_add_one, Nat.add_assoc, Nat.add_comm 1 i]

/-- On a little-endian host `unpack_bitmap` yields, for every initial content of
`uw`, exactly N flags, flag i being bit 7 - (i mod 8) of byte 6 + i/8. -/
theorem unpack_bitmap_little_endian (sec_6 : Mem) (values_3 : List Dbl) (N uw0 : Nat)
    (h3 : values_3[3]? = some (.int (N : Int))) (hN : N < 2 ^ 31) :
    unpack_bitmap true sec_6 values_3 uw0
      = some ((List.range N).map
          (fun i => (sec_6 (6 + i / 8)).val / 2 ^ (7 - i % 8) % 2)) := by
  have hm : maskOf 1 = 1 := rfl
  unfold unpack_bitmap
  rw [h3, Option.some_bind, toInt_natCast N hN, hm]
  simp only [Int.toNat_ofNat, bitmapLoop_little_endian, bitAt, Nat.zero_add]

/-- C4, the code on a big-endian host: with section 6 = 00 00 00 07 06 00 80
and N = 1, flag 0 should be bit 7 of byte 6, which is 1.  `memcpy( &uw, p, 1 )`
replaces the most significant byte of `uw`, the shift and mask then test a
bit of the least significant byte, left over from before: the flag is 0 when
`uw` held 0, and a data byte 00 gives flag 1 when `uw` held 128; a little-endian
host yields 1 for the data byte 80. -/
theorem unpack_bitmap_big_endian_host :
    (memOf [0, 0, 0, 7, 6, 0, 0x80] (6 + 0 / 8)).val / 2 ^ (7 - 0 % 8) % 2 = 1
      ∧ unpack_bitmap false (memOf [0, 0, 0, 7, 6, 0, 0x80])
          [.int 72, .int 3, .int 0, .int 1] 0 = some [0]
      ∧ unpack_bitmap false (memOf [0, 0, 0, 7, 6, 0, 0x00])
          [.int 72, .int 3, .int 0, .int 1] 128 = some [1]
      ∧ unpack_bitmap true (memOf [0, 0, 0, 7, 6, 0, 0x80])
          [.int 72, .int 3, .int 0, .int 1] 0 = some [1] := by
  decide

/-! ## C5: `read_section_0` -/

theorem read_section_0_cond (fp : List Byte) :
    ((fp.take 16).length ≠ 16 ∨ (fp.take 16).take 4 ≠ magicGRIB)
      ↔ (fp.length < 16 ∨ fp.take 4 ≠ magicGRIB) := by
  have h1 : (fp.take 16).length ≠ 16 ↔ fp.length < 16 := by
    rw [List.length_take]; omega
  have h2 : (fp.take 16).take 4 = fp.take 4 := by
    rw [List.take_take]; rfl
  rw [h1, h2]

/-- C5: `read_section_0` fails fatally if and only if the stream supplies fewer
than 16 bytes or its first 4 bytes differ from ASCII "GRIB"; otherwise it
returns section number 0 with a buffer equal to the first 16 stream bytes (the
stream advanced by 16).  Every stream starting with "XRIB" fails: the call
exits and hands no section to the decoder. -/
theorem read_section_0_spec (fp : List Byte) :
    ((∃ e, read_section_0 fp = .fatal e) ↔ (fp.length < 16 ∨ fp.take 4 ≠ magicGRIB))
      ∧ (¬ (fp.length < 16 ∨ fp.take 4 ≠ magicGRIB) →
          read_section_0 fp = .ok ⟨0, fp.take 16, fp.drop 16⟩)
      ∧ (∀ more : List Byte,
          read_section_0 ([0x58, 0x52, 0x49, 0x42] ++ more) = .fatal .reallyGrib) := by
  refine ⟨?_, ?_, ?_⟩
  · by_cases hc : fp.length < 16 ∨ fp.take 4 ≠ magicGRIB
    · have hc' := (read_section_0_cond fp).mpr hc
      simp only [read_section_0, if_pos hc', hc, iff_true]
      exact ⟨_, rfl⟩
    · have hc' := mt (read_section_0_cond fp).mp hc
      simp only [read_section_0, if_neg hc', hc, iff_false]
      rintro ⟨e, he⟩
      cases he
  · intro hc
    have hc' := mt (read_section_0_cond fp).mp hc
    simp only [read_section_0, if_neg hc']
  · intro more
    have hc : ([0x58, 0x52, 0x49, 0x42] ++ more).length < 16
        ∨ ([0x58, 0x52, 0x49, 0x42] ++ more).take 4 ≠ magicGRIB := by
      right
      simp [magicGRIB]
    have hc' := (read_section_0_cond _).mpr hc
    simp only [read_section_0, if_pos hc']

/-- C5, witness: a stream that starts with a 16-byte section 0 ("GRIB", two
reserved bytes, discipline 0, edition 2, total length 20) followed by 01 02. -/
theorem read_section_0_spec_witness :
    ¬ (([0x47, 0x52, 0x49, 0x42, 0, 0, 0, 2, 0, 0, 0, 0, 0, 0, 0, 20, 1, 2] : List Byte).length
          < 16
        ∨ ([0x47, 0x52, 0x49, 0x42, 0, 0, 0, 2, 0, 0, 0, 0, 0, 0, 0, 20, 1, 2] : List Byte).take 4
          ≠ magicGRIB)
      ∧ read_section_0 [0x47, 0x52, 0x49, 0x42, 0, 0, 0, 2, 0, 0, 0, 0, 0, 0, 0, 20, 1, 2]
        = .ok ⟨0,
            ([0x47, 0x52, 0x49, 0x42, 0, 0, 0, 2, 0, 0, 0, 0, 0, 0, 0, 20, 1, 2] :
              List Byte).take 16,
            ([0x47, 0x52, 0x49, 0x42, 0, 0, 0, 2, 0, 0, 0, 0, 0, 0, 0, 20, 1, 2] :
              List Byte).drop 16⟩ :=
  ⟨by decide,
    (read_section_0_spec
      [0x47, 0x52, 0x49, 0x42, 0, 0, 0, 2, 0, 0, 0, 0, 0, 0, 0, 20, 1, 2]).2.1 (by decide)⟩

/-! ## C6 and C7: `read_section_X` -/

theorem toInt32_small (n : Nat) (h : n < 2 ^ 31) : toInt32 n = (n : Int) := by
  have h1 : n % 2 ^ 32 = n := Nat.mod_eq_of_lt (lt_trans h (by norm_num))
  unfold toInt32
  rw [h1, if_pos h]

theorem read_section_X_length (isLittleEndian : Bool) (fp : List Byte)
    (hL : beValue (fp.take 4) < 2 ^ 31) :
    toInt32 (hostValue isLittleEndian (FIT_BYTE_ORDER isLittleEndian (fp.take 4)))
      = (beValue (fp.take 4) : Int) := by
  rw [hostValue_fit, toInt32_small _ hL]

theorem read_section_X_ok (isLittleEndian : Bool) (fp : List Byte)
    (hne : fp.take 4 ≠ magic7777) (h5 : 5 ≤ beValue (fp.take 4))
    (hL : beValue (fp.take 4) < 2 ^ 31)
    (havail : beValue (fp.take 4) - 4 ≤ (fp.drop 4).length) :
    ∃ s, (fp.take (beValue (fp.take 4)))[4]? = some s
      ∧ read_section_X isLittleEndian fp
        = .ok ⟨s.val, fp.take (beValue (fp.take 4)), fp.drop (beValue (fp.take 4))⟩ := by
  have hdl : (fp.drop 4).length = fp.length - 4 := List.length_drop 4 fp
  have hlen4 : ¬ fp.length < 4 := by omega
  have hlt4 : ¬ ((beValue (fp.take 4) : Int) < 4) := by omega
  have htn : ((beValue (fp.take 4) : Int) - 4).toNat = beValue (fp.take 4) - 4 := by omega
  have hbody : ((fp.drop 4).take (beValue (fp.take 4) - 4)).length
      = beValue (fp.take 4) - 4 := by
    rw [List.length_take]; omega
  have hbuf : fp.take 4 ++ (fp.drop 4).take (beValue (fp.take 4) - 4)
      = fp.take (beValue (fp.take 4)) := by
    have hsplit : beValue (fp.take 4) = 4 + (beValue (fp.take 4) - 4) := by omega
    conv_rhs => rw [hsplit, List.take_add]
  have hrest : (fp.drop 4).drop (beValue (fp.take 4) - 4) = fp.drop (beValue (fp.take 4)) := by
    rw [List.drop_drop]
    congr 1
    omega
  have hlenbuf : 4 < (fp.take (beValue (fp.take 4))).length := by
    rw [List.length_take]; omega
  refine ⟨(fp.take (beValue (fp.take 4)))[4], List.getElem?_eq_getElem hlenbuf, ?_⟩
  simp only [read_section_X, if_neg hlen4, if_neg hne, read_section_X_length _ _ hL,
    if_neg hlt4, htn, hbody, ne_eq, not_true_eq_false, if_false, fit_fit, hbuf, hrest,
    List.getElem?_eq_getElem hlenbuf]

theorem read_section_X_short (isLittleEndian : Bool) (fp : List Byte)
    (h4 : 4 ≤ fp.length) (hne : fp.take 4 ≠ magic7777)
    (hL : beValue (fp.take 4) < 2 ^ 31)
    (hshort : (fp.drop 4).length < beValue (fp.take 4) - 4) :
    read_section_X isLittleEndian fp = .fatal .unexpectedEOF := by
  have hlen4 : ¬ fp.length < 4 := by omega
  have hlt4 : ¬ ((beValue (fp.take 4) : Int) < 4) := by omega
  have htn : ((beValue (fp.take 4) : Int) - 4).toNat = beValue (fp.take 4) - 4 := by omega
  have hbody : ((fp.drop 4).take (beValue (fp.take 4) - 4)).length
      ≠ beValue (fp.take 4) - 4 := by
    rw [List.length_take]; omega
  simp only [read_section_X, if_neg hlen4, if_neg hne, read_section_X_length _ _ hL,
    if_neg hlt4, htn, if_pos hbody]

/-- C6 (amended): if the next 4 bytes of the stream are ASCII "7777",
`read_section_X` returns section number 8; otherwise, with L the big-endian
value of those 4 bytes, 5 <= L < 2^31 and at least L-4 further bytes
available, it returns a buffer of L bytes identical to the L stream bytes
beginning at the length field (the 4 length bytes copied back unchanged) and
returns as section number the byte at offset 4 of that buffer. -/
theorem read_section_X_frames (isLittleEndian : Bool) (fp : List Byte) :
    (fp.take 4 = magic7777 →
        read_section_X isLittleEndian fp = .ok ⟨8, magic7777, fp.drop 4⟩)
      ∧ (fp.take 4 ≠ magic7777 → 5 ≤ beValue (fp.take 4) → beValue (fp.take 4) < 2 ^ 31 →
          beValue (fp.take 4) - 4 ≤ (fp.drop 4).length →
          ∃ s, (fp.take (beValue (fp.take 4)))[4]? = some s
            ∧ read_section_X isLittleEndian fp
              = .ok ⟨s.val, fp.take (beValue (fp.take 4)), fp.drop (beValue (fp.take 4))⟩
            ∧ (fp.take (beValue (fp.take 4))).length = beValue (fp.take 4)) := by
  constructor
  · intro h7
    have hlen : ¬ fp.length < 4 := by
      intro hlt
      have := congrArg List.length h7
      rw [List.length_take] at this
      simp [magic7777] at this
      omega
    simp only [read_section_X, if_neg hlen, if_pos h7]
  · intro hne h5 hL havail
    obtain ⟨s, hs, hrun⟩ := read_section_X_ok isLittleEndian fp hne h5 hL havail
    have hdl : (fp.drop 4).length = fp.length - 4 := List.length_drop 4 fp
    refine ⟨s, hs, hrun, ?_⟩
    rw [List.length_take]; omega

/-- C6, witness: the stream 00 00 00 06 03 09 01 01 frames the 6-byte section
00 00 00 06 03 09 with section number 3 and leaves 01 01. -/
theorem read_section_X_frames_witness :
    ([0, 0, 0, 6, 3, 9, 1, 1] : List Byte).take 4 ≠ magic7777
      ∧ 5 ≤ beValue (([0, 0, 0, 6, 3, 9, 1, 1] : List Byte).take 4)
      ∧ beValue (([0, 0, 0, 6, 3, 9, 1, 1] : List Byte).take 4) < 2 ^ 31
      ∧ beValue (([0, 0, 0, 6, 3, 9, 1, 1] : List Byte).take 4) - 4
          ≤ (([0, 0, 0, 6, 3, 9, 1, 1] : List Byte).drop 4).length
      ∧ ∃ s, (([0, 0, 0, 6, 3, 9, 1, 1] : List Byte).take
              (beValue (([0, 0, 0, 6, 3, 9, 1, 1] : List Byte).take 4)))[4]? = some s
          ∧ read_section_X true [0, 0, 0, 6, 3, 9, 1, 1]
            = .ok ⟨s.val, ([0, 0, 0, 6, 3, 9, 1, 1] : List Byte).take
                (beValue (([0, 0, 0, 6, 3, 9, 1, 1] : List Byte).take 4)),
              ([0, 0, 0, 6, 3, 9, 1, 1] : List Byte).drop
                (beValue (([0, 0, 0, 6, 3, 9, 1, 1] : List Byte).take 4))⟩
          ∧ (([0, 0, 0, 6, 3, 9, 1, 1] : List Byte).take
              (beValue (([0, 0, 0, 6, 3, 9, 1, 1] : List Byte).take 4))).length
            = beValue (([0, 0, 0, 6, 3, 9, 1, 1] : List Byte).take 4) :=
  ⟨by decide, by decide, by decide, by decide,
    (read_section_X_frames true [0, 0, 0, 6, 3, 9, 1, 1]).2
      (by decide) (by decide) (by decide) (by decide)⟩

/-- C6, counterexample: the stream 00 00 00 04 07 does not start with "7777",
its length field is L = 4 and the L-4 = 0 further bytes are available.  The
code allocates 4 bytes and returns `bufp[4]`, a byte outside the allocation: no
4-byte buffer has a byte at offset 4 to be the section number, and the call
returns no section made of the first L stream bytes. -/
theorem read_section_X_length_four :
    ([0, 0, 0, 4, 7] : List Byte).take 4 ≠ magic7777
      ∧ beValue (([0, 0, 0, 4, 7] : List Byte).take 4) = 4
      ∧ beValue (([0, 0, 0, 4, 7] : List Byte).take 4) - 4
          ≤ (([0, 0, 0, 4, 7] : List Byte).drop 4).length
      ∧ read_section_X true [0, 0, 0, 4, 7] = .undefined
      ∧ (([0, 0, 0, 4, 7] : List Byte).take 4)[4]? = none
      ∧ ∀ f, read_section_X true [0, 0, 0, 4, 7] ≠ .ok f := by
  have hrun : read_section_X true [0, 0, 0, 4, 7] = .undefined := by decide
  refine ⟨by decide, by decide, by decide, hrun, by decide, ?_⟩
  intro f hf
  rw [hrun] at hf
  cases hf

/-- C7 (amended): for every stream whose next 4 bytes are not "7777" and encode
a big-endian length L < 2^31, `read_section_X` terminates the decode with the
fatal "Unexpected EOF" error whenever fewer than L-4 bytes remain in the stream
after the length field; it returns no section in that case. -/
theorem read_section_X_unexpected_eof (isLittleEndian : Bool) (fp : List Byte)
    (h4 : 4 ≤ fp.length) (hne : fp.take 4 ≠ magic7777)
    (hL : beValue (fp.take 4) < 2 ^ 31)
    (hshort : (fp.drop 4).length < beValue (fp.take 4) - 4) :
    read_section_X isLittleEndian fp = .fatal .unexpectedEOF
      ∧ ∀ f, read_section_X isLittleEndian fp ≠ .ok f := by
  have hrun := read_section_X_short isLittleEndian fp h4 hne hL hshort
  refine ⟨hrun, ?_⟩
  intro f hf
  rw [hrun] at hf
  cases hf

/-- C7, witness: the stream 00 00 00 09 04 00 declares 9 bytes and holds 6. -/
theorem read_section_X_unexpected_eof_witness :
    4 ≤ ([0, 0, 0, 9, 4, 0] : List Byte).length
      ∧ ([0, 0, 0, 9, 4, 0] : List Byte).take 4 ≠ magic7777
      ∧ beValue (([0, 0, 0, 9, 4, 0] : List Byte).take 4) < 2 ^ 31
      ∧ (([0, 0, 0, 9, 4, 0] : List Byte).drop 4).length
          < beValue (([0, 0, 0, 9, 4, 0] : List Byte).take 4) - 4
      ∧ read_section_X true [0, 0, 0, 9, 4, 0] = .fatal .unexpectedEOF
      ∧ ∀ f, read_section_X true [0, 0, 0, 9, 4, 0] ≠ .ok f :=
  ⟨by decide, by decide, by decide, by decide,
    read_section_X_unexpected_eof true [0, 0, 0, 9, 4, 0]
      (by decide) (by decide) (by decide) (by decide)⟩

/-- C7, counterexample: the stream 80 00 00 10 01 declares L = 2^31 + 16 and
one byte remains.  `int length` is negative, the count `length - 4` of the
second `fread` converts to a huge `size_t`, and the remaining byte is written
outside the allocation before any end-of-file test: the call is undefined, it
is not the "Unexpected EOF" exit. -/
theorem read_section_X_negative_length :
    4 ≤ ([0x80, 0, 0, 0x10, 1] : List Byte).length
      ∧ ([0x80, 0, 0, 0x10, 1] : List Byte).take 4 ≠ magic7777
      ∧ beValue (([0x80, 0, 0, 0x10, 1] : List Byte).take 4) = 2 ^ 31 + 16
      ∧ (([0x80, 0, 0, 0x10, 1] : List Byte).drop 4).length
          < beValue (([0x80, 0, 0, 0x10, 1] : List Byte).take 4) - 4
      ∧ read_section_X true [0x80, 0, 0, 0x10, 1] = .undefined
      ∧ read_section_X true [0x80, 0, 0, 0x10, 1] ≠ .fatal .unexpectedEOF := by
  decide

/-! ## C8: the template catalog -/

theorem findTemplate_unfold (s t : Int) :
    findTemplate s t templateFormat
      = if s = 3 ∧ t = 0 then templateFormat[0]?
        else if s = 3 ∧ t = 20 then templateFormat[1]?
        else if s = 4 ∧ t = 0 then templateFormat[2]?
        else if s = 4 ∧ t = 1 then templateFormat[3]?
        else if s = 4 ∧ t = 8 then templateFormat[4]?
        else if s = 4 ∧ t = 9 then templateFormat[5]?
        else if s = 4 ∧ t = 11 then templateFormat[6]?
        else if s = 5 ∧ t = 0 then templateFormat[7]?
        else none := by
  simp [findTemplate, templateFormat, eq_comm]

/-- C8: for every section number s (in particular 3, 4, 5) and every template
number t, the linear search of `decode_section` finds an entry if and only if
(s,t) is one of the catalog pairs (3,0), (3,20), (4,0), (4,1), (4,8), (4,9),
(4,11), (5,0); the entry found is the table entry with that section and
template number, so the descriptor used is that entry's format string, and
each of the eight entries is found by its own pair; otherwise the search
ends with no entry (NotFound), and (4, 9999) is NotFound. -/
theorem findTemplate_catalog (s t : Int) :
    ((∃ tfp, findTemplate s t templateFormat = some tfp) ↔ (s, t) ∈ catalogPairs)
      ∧ (∀ tfp, findTemplate s t templateFormat = some tfp →
          tfp ∈ templateFormat ∧ tfp.secno = s ∧ tfp.templat = t)
      ∧ ((s, t) ∉ catalogPairs → findTemplate s t templateFormat = none)
      ∧ (∀ e ∈ templateFormat, e.secno ≠ 0 →
          findTemplate e.secno e.templat templateFormat = some e)
      ∧ findTemplate 4 9999 templateFormat = none := by
  refine ⟨?_, ?_, ?_, by decide, by decide⟩
  · rw [findTemplate_unfold]
    simp only [catalogPairs, List.mem_cons, Prod.mk.injEq, List.mem_singleton,
      List.not_mem_nil, or_false]
    split_ifs <;> simp_all [templateFormat]
  · intro tfp
    rw [findTemplate_unfold]
    split_ifs <;> simp_all [templateFormat] <;> (intro h; subst h; simp)
  · rw [findTemplate_unfold]
    simp only [catalogPairs, List.mem_cons, Prod.mk.injEq, List.mem_singleton,
      List.not_mem_nil, or_false]
    split_ifs <;> simp_all [templateFormat]

/-- C8, witness: the pair (5, 0) is found and yields the descriptor "R22uu";
the pair (5, 1) is not in the catalog and is not found. -/
theorem findTemplate_catalog_witness :
    (⟨5, 0, "R22uu".toList⟩ : TemplateFormat) ∈ templateFormat
      ∧ (⟨5, 0, "R22uu".toList⟩ : TemplateFormat).secno ≠ 0
      ∧ findTemplate 5 0 templateFormat = some ⟨5, 0, "R22uu".toList⟩
      ∧ ((5 : Int), (1 : Int)) ∉ catalogPairs
      ∧ findTemplate 5 1 templateFormat = none :=
  ⟨by decide, by decide,
    (findTemplate_catalog 5 0).2.2.2.1 ⟨5, 0, "R22uu".toList⟩ (by decide) (by decide),
    by decide, (findTemplate_catalog 5 1).2.2.1 (by decide)⟩

/-! ## Sections 3, 4, 5: the fixed prefix -/

theorem decode_fixed_3 (isLittleEndian : Bool) (mem : Mem) (dd : Dbl) :
    ∃ vs, decode_buf isLittleEndian mem 0 (sectionFormat.getD 3 []) dd = .ok (vs, 14)
      ∧ vs.length = 7
      ∧ vs.getLast? = some (.int ((((mem 12).val <<< 8) + (mem 13).val : Nat) : Int)) :=
  ⟨_, rfl, rfl, rfl⟩

theorem decode_fixed_4 (isLittleEndian : Bool) (mem : Mem) (dd : Dbl) :
    ∃ vs, decode_buf isLittleEndian mem 0 (sectionFormat.getD 4 []) dd = .ok (vs, 9)
      ∧ vs.length = 4
      ∧ vs.getLast? = some (.int ((((mem 7).val <<< 8) + (mem 8).val : Nat) : Int)) :=
  ⟨_, rfl, rfl, rfl⟩

theorem decode_fixed_5 (isLittleEndian : Bool) (mem : Mem) (dd : Dbl) :
    ∃ vs, decode_buf isLittleEndian mem 0 (sectionFormat.getD 5 []) dd = .ok (vs, 11)
      ∧ vs.length = 4
      ∧ vs.getLast? = some (.int ((((mem 9).val <<< 8) + (mem 10).val : Nat) : Int)) :=
  ⟨_, rfl, rfl, rfl⟩

theorem be16_lt (b0 b1 : Byte) : ((b0.val <<< 8) + b1.val) < 2 ^ 31 := by
  have h0 := b0.isLt
  have h1 := b1.isLt
  rw [Nat.shiftLeft_eq]
  norm_num
  omega

theorem arrayLength_declared (isLittleEndian : Bool) (secno : Nat) (mem : Mem)
    (hs : secno = 3 ∨ secno = 4 ∨ secno = 5) (hmax : beValue (peek mem 0 4) < 2 ^ 31) :
    arrayLength isLittleEndian secno mem = (beValue (peek mem 0 4) : Int) := by
  have h0 : ¬ secno = 0 := by omega
  have h1 : ¬ secno = 1 := by omega
  have h7 : ¬ secno = 7 := by omega
  have h8 : ¬ secno = 8 := by omega
  simp only [arrayLength, if_neg h0, if_neg h1, if_neg h7, if_neg h8, hostValue_fit,
    toInt32_small _ hmax]

theorem decode_section_of_fixed (isLittleEndian : Bool) (secno : Nat) (mem : Mem)
    (dd0 dd1 : Dbl) (vs : List Dbl) (index : Nat) (t : Nat)
    (hs : secno = 3 ∨ secno = 4 ∨ secno = 5)
    (hdec : decode_buf isLittleEndian mem 0 (sectionFormat.getD secno []) dd0 = .ok (vs, index))
    (hfit : fitsArray (arrayLength isLittleEndian secno mem) vs.length = true)
    (hlast : vs.getLast? = some (.int (t : Int))) (ht : t < 2 ^ 31)
    (hnone : findTemplate (secno : Int) (t : Int) templateFormat = none) :
    decode_section isLittleEndian secno mem dd0 dd1 = .ok vs := by
  have hfmt : sectionFormat[secno]? = some (sectionFormat.getD secno []) := by
    rcases hs with rfl | rfl | rfl <;> rfl
  have h345 : 3 ≤ secno ∧ secno ≤ 5 := by omega
  have hfit' : ¬ (fitsArray (arrayLength isLittleEndian secno mem) vs.length = false) := by
    rw [hfit]; decide
  have hbind : (vs.getLast?).bind Dbl.toInt = some (t : Int) := by
    rw [hlast, Option.some_bind, toInt_natCast t ht]
  unfold decode_section
  rw [hfmt]
  simp only [hdec, if_neg hfit', if_pos h345, hbind, hnone]

/-! ## C10: the missing flag -/

theorem foldl_missing (bs : List Byte) (acc : Bool) :
    bs.foldl (fun missing b => missing && (b == 0xFF)) acc = true
      ↔ acc = true ∧ ∀ b ∈ bs, b = 0xFF := by
  induction bs generalizing acc with
  | nil => simp
  | cons b bs ih =>
    rw [List.foldl_cons, ih]
    simp only [Bool.and_eq_true, beq_iff_eq, List.mem_cons, forall_eq_or_imp]
    tauto

theorem missingFlag_peek (mem : Mem) (ii size : Nat) :
    missingFlag (peek mem ii size) = true ↔ ∀ jj, jj < size → mem (ii + jj) = 0xFF := by
  unfold missingFlag
  rw [foldl_missing]
  simp only [peek, List.mem_map, List.mem_range, true_and]
  constructor
  · intro h jj hjj
    exact h _ ⟨jj, hjj, rfl⟩
  · rintro h b ⟨jj, hjj, rfl⟩
    exact h jj hjj

/-- C10: for every field tag `decode_buf` accepts (byte width `size`) and every
field contents, the per-field missing flag computed by `decode_buf` is set if
and only if every one of the `size` bytes of the field equals 0xFF, and the
decoded value is `fieldValue` of the tag and the bytes, a function that does
not take the flag.  The 2-byte field FF FF is flagged, FF FE is not; the signed
1-byte field FF is flagged and still decodes to -127. -/
theorem decodeField_missing (isLittleEndian : Bool) (sec_buffer : Mem) (ii : Nat) (c : Char)
    (dd : Dbl) (size : Nat) (hc : fieldSize c = some size) :
    ∃ st, decodeField isLittleEndian sec_buffer ii c dd = some st
      ∧ (st.missing = true ↔ ∀ jj, jj < size → sec_buffer (ii + jj) = 0xFF)
      ∧ st.dd = fieldValue isLittleEndian c (peek sec_buffer ii size) dd
      ∧ (decodeField isLittleEndian (memOf [0xFF, 0xFF]) 0 'S' dd).map FieldState.missing
          = some true
      ∧ (decodeField isLittleEndian (memOf [0xFF, 0xFE]) 0 'S' dd).map FieldState.missing
          = some false
      ∧ (decodeField isLittleEndian (memOf [0xFF]) 0 '1' dd).map
          (fun st1 => (st1.missing, st1.dd)) = some (true, .int (-127)) := by
  refine ⟨FieldState.mk size (peek sec_buffer ii size) (missingFlag (peek sec_buffer ii size))
      (fieldValue isLittleEndian c (peek sec_buffer ii size) dd) (ii + size),
    by simp only [decodeField, hc], ?_, rfl, rfl, rfl, rfl⟩
  exact missingFlag_peek sec_buffer ii size

/-- C10, witness: the signed 2-byte field FF FF is flagged and decodes to -32767. -/
theorem decodeField_missing_witness :
    fieldSize '2' = some 2
      ∧ ∃ st, decodeField true (memOf [0xFF, 0xFF]) 0 '2' (.int 0) = some st
        ∧ (st.missing = true ↔ ∀ jj, jj < 2 → memOf [0xFF, 0xFF] (0 + jj) = 0xFF)
        ∧ st.dd = fieldValue true '2' (peek (memOf [0xFF, 0xFF]) 0 2) (.int 0) :=
  ⟨by decide,
    (decodeField_missing true (memOf [0xFF, 0xFF]) 0 '2' (.int 0) 2 (by decide)).imp
      (fun _ h => ⟨h.1, h.2.1, h.2.2.1⟩)⟩

/-! ## C11: injectivity and the symmetric encoder -/

theorem byteOf_val (b : Byte) : byteOf b.val = b := by
  apply Fin.ext
  simp [byteOf, Nat.mod_eq_of_lt b.isLt]

theorem beBytes_positional (bs : List Byte) : beBytes bs.length (positional bs) = bs := by
  induction bs with
  | nil => rfl
  | cons b bs ih =>
    have hlt := positional_lt bs
    have hpos : 0 < 256 ^ bs.length := by positivity
    have hdiv : (b.val * 256 ^ bs.length + positional bs) / 256 ^ bs.length = b.val := by
      rw [Nat.add_comm, Nat.add_mul_div_right _ _ hpos, Nat.div_eq_of_lt hlt, Nat.zero_add]
    have hmod : (b.val * 256 ^ bs.length + positional bs) % 256 ^ bs.length = positional bs := by
      rw [Nat.add_comm, Nat.add_mul_mod_self_right, Nat.mod_eq_of_lt hlt]
    simp only [List.length_cons, positional, beBytes, hdiv, hmod, byteOf_val, ih]

theorem positional_injective (b1 b2 : List Byte) (hl : b1.length = b2.length)
    (h : positional b1 = positional b2) : b1 = b2 := by
  rw [← beBytes_positional b1, ← beBytes_positional b2, hl, h]

theorem and7F_eq (b : Byte) : b.val &&& 0x7F = b.val % 128 := by
  have h := Nat.and_pow_two_sub_one_eq_mod b.val 7
  norm_num at h
  exact h

set_option maxRecDepth 100000 in
theorem and80_eq (b : Byte) : b.val &&& 0x80 = 128 * (b.val / 128) := by
  revert b
  decide

theorem magnitude_cons (a : Byte) (r : List Byte) :
    magnitude (a :: r) = positional (byteOf (a.val &&& 0x7F) :: r) := by
  have h := and7F_eq a
  have ha := a.isLt
  have hv : (byteOf (a.val &&& 0x7F)).val = a.val &&& 0x7F := by
    simp only [byteOf]
    rw [h]
    omega
  simp only [magnitude, positional, hv]

theorem signMagnitude_cons (a : Byte) (r : List Byte) :
    signMagnitude (a :: r)
      = if 128 ≤ a.val then -(magnitude (a :: r) : Int) else (magnitude (a :: r) : Int) := by
  have h := and80_eq a
  have ha := a.isLt
  unfold signMagnitude
  simp only [List.getD_cons_zero]
  by_cases htop : 128 ≤ a.val
  · have hne : a.val &&& 0x80 ≠ 0 := by omega
    rw [if_pos hne, if_pos htop]
  · have he : ¬ (a.val &&& 0x80 ≠ 0) := by omega
    rw [if_neg he, if_neg htop]

theorem byte_of_parts (a a' : Byte) (hlow : byteOf (a.val &&& 0x7F) = byteOf (a'.val &&& 0x7F))
    (htop : (128 ≤ a.val ↔ 128 ≤ a'.val)) : a = a' := by
  have h1 := and7F_eq a
  have h2 := and7F_eq a'
  have ha := a.isLt
  have ha' := a'.isLt
  have hv := congrArg Fin.val hlow
  simp only [byteOf, h1, h2] at hv
  apply Fin.ext
  omega

theorem signed_injective (b1 b2 : List Byte) (hl : b1.length = b2.length)
    (hM1 : magnitude b1 < 2 ^ 53) (hM2 : magnitude b2 < 2 ^ 53)
    (heq : signedValue b1 = signedValue b2)
    (hz : signedValue b1 = 0 → (128 ≤ (b1.getD 0 0).val ↔ 128 ≤ (b2.getD 0 0).val)) :
    b1 = b2 := by
  rw [signedValue_exact b1 hM1, signedValue_exact b2 hM2] at heq
  rw [signedValue_exact b1 hM1] at hz
  cases b1 with
  | nil =>
    cases b2 with
    | nil => rfl
    | cons a' r2 => simp at hl
  | cons a r1 =>
    cases b2 with
    | nil => simp at hl
    | cons a' r2 =>
      rw [signMagnitude_cons] at heq hz
      rw [signMagnitude_cons] at heq
      simp only [List.getD_cons_zero] at hz
      have hmag : magnitude (a :: r1) = magnitude (a' :: r2)
          ∧ (128 ≤ a.val ↔ 128 ≤ a'.val) := by
        by_cases t1 : 128 ≤ a.val <;> by_cases t2 : 128 ≤ a'.val
        · rw [if_pos t1, if_pos t2] at heq
          exact ⟨by omega, by simp [t1, t2]⟩
        · rw [if_pos t1, if_neg t2] at heq
          rw [if_pos t1] at hz
          have hzero : -(magnitude (a :: r1) : Int) = 0 := by omega
          have := (hz hzero).mp t1
          exact absurd this t2
        · rw [if_neg t1, if_pos t2] at heq
          rw [if_neg t1] at hz
          have hzero : (magnitude (a :: r1) : Int) = 0 := by omega
          have := (hz hzero).mpr t2
          exact absurd this t1
        · rw [if_neg t1, if_neg t2] at heq
          exact ⟨by omega, by simp [t1, t2]⟩
      obtain ⟨hm, htop⟩ := hmag
      rw [magnitude_cons, magnitude_cons] at hm
      have hlists := positional_injective _ _ (by simpa using hl) hm
      simp only [List.cons.injEq] at hlists
      rw [byte_of_parts a a' hlists.1 htop, hlists.2]

theorem fieldSize_cases (c : Char) (size : Nat) (hc : fieldSize c = some size) :
    (c = '1' ∧ size = 1) ∨ (c = '2' ∧ size = 2) ∨ (c = '4' ∧ size = 4) ∨ (c = '8' ∧ size = 8)
      ∨ (c = 'u' ∧ size = 1) ∨ (c = 'S' ∧ size = 2) ∨ (c = 'R' ∧ size = 4)
      ∨ (c = 'C' ∧ size = 4) := by
  unfold fieldSize at hc
  split_ifs at hc with h1 h2 h3 h4
  · rcases h1 with rfl | rfl | rfl | rfl <;> simp at hc <;> simp [← hc]
  · subst h2; simp at hc; simp [← hc]
  · subst h3; simp at hc; simp [← hc]
  · rcases h4 with rfl | rfl <;> simp at hc <;> simp [← hc]

theorem peek_head (mem : Mem) (ii size : Nat) (h : 0 < size) :
    (peek mem ii size).getD 0 0 = mem ii := by
  cases size with
  | zero => omega
  | succ n => simp [peek, List.range_succ_eq_map]

theorem fieldSize_pos (c : Char) (size : Nat) (hc : fieldSize c = some size) : 0 < size := by
  rcases fieldSize_cases c size hc with ⟨_, rfl⟩ | ⟨_, rfl⟩ | ⟨_, rfl⟩ | ⟨_, rfl⟩
    | ⟨_, rfl⟩ | ⟨_, rfl⟩ | ⟨_, rfl⟩ | ⟨_, rfl⟩ <;> decide

theorem decode_buf_cons (isLittleEndian : Bool) (mem : Mem) (index : Nat) (c : Char)
    (format : List Char) (dd : Dbl) (size : Nat) (hc : fieldSize c = some size) :
    decode_buf isLittleEndian mem index (c :: format) dd
      = match decode_buf isLittleEndian mem (index + size) format
            (fieldValue isLittleEndian c (peek mem index size) dd) with
        | .ok (vs, e) => .ok (fieldValue isLittleEndian c (peek mem index size) dd :: vs, e)
        | .fatal e => .fatal e
        | .undefined => .undefined := by
  simp only [decode_buf, decodeField, hc]

theorem validFormat_cons (c : Char) (format : List Char) (h : validFormat (c :: format) = true) :
    (∃ size, fieldSize c = some size) ∧ validFormat format = true := by
  simp only [validFormat, List.all_cons, Bool.and_eq_true] at h
  exact ⟨Option.isSome_iff_exists.mp h.1, h.2⟩

theorem formatWidth_cons (c : Char) (format : List Char) :
    formatWidth (c :: format) = (fieldSize c).getD 0 + formatWidth format := by
  simp [formatWidth]

theorem formatWidth_single (c : Char) : formatWidth [c] = (fieldSize c).getD 0 := by
  simp [formatWidth]

theorem decode_buf_valid (isLittleEndian : Bool) (mem : Mem) :
    ∀ (format : List Char) (start : Nat) (dd : Dbl), validFormat format = true →
      ∃ vs, decode_buf isLittleEndian mem start format dd
            = .ok (vs, start + formatWidth format)
        ∧ vs.length = format.length
        ∧ ∀ k c, format[k]? = some c →
            ∃ stale, (if k = 0 then some dd else vs[k - 1]?) = some stale
              ∧ vs[k]? = some (fieldValue isLittleEndian c
                  (peek mem (start + formatWidth (format.take k)) (formatWidth [c])) stale) := by
  intro format
  induction format with
  | nil =>
    intro start dd _
    exact ⟨[], by simp [decode_buf, formatWidth], rfl, fun k c h => by simp at h⟩
  | cons c format ih =>
    intro start dd hv
    obtain ⟨⟨size, hc⟩, hv'⟩ := validFormat_cons c format hv
    obtain ⟨vs, hrun, hlen, hval⟩ := ih (start + size)
      (fieldValue isLittleEndian c (peek mem start size) dd) hv'
    refine ⟨fieldValue isLittleEndian c (peek mem start size) dd :: vs, ?_, ?_, ?_⟩
    · rw [decode_buf_cons isLittleEndian mem start c format dd size hc, hrun,
        formatWidth_cons, hc]
      simp [Nat.add_assoc]
    · simp [hlen]
    · intro k c' hk
      cases k with
      | zero =>
        simp only [List.getElem?_cons_zero, Option.some.injEq] at hk
        subst hk
        refine ⟨dd, by simp, ?_⟩
        simp [formatWidth_single, hc, formatWidth]
      | succ j =>
        simp only [List.getElem?_cons_succ] at hk
        obtain ⟨stale, hst, hj⟩ := hval j c' hk
        refine ⟨stale, ?_, ?_⟩
        · cases j with
          | zero => simpa using hst
          | succ i => simpa using hst
        · simp only [List.getElem?_cons_succ, List.take_succ_cons]
          rw [formatWidth_cons c (format.take j), hc, hj, Option.getD_some, Nat.add_assoc]

theorem fieldValue_stale (isLittleEndian : Bool) (c : Char) (hc : (fieldSize c).isSome = true)
    (hC : c ≠ 'C') (buffer : List Byte) (d1 d2 : Dbl) :
    fieldValue isLittleEndian c buffer d1 = fieldValue isLittleEndian c buffer d2 := by
  obtain ⟨size, hsz⟩ := Option.isSome_iff_exists.mp hc
  rcases fieldSize_cases c size hsz with ⟨rfl, _⟩ | ⟨rfl, _⟩ | ⟨rfl, _⟩ | ⟨rfl, _⟩
    | ⟨rfl, _⟩ | ⟨rfl, _⟩ | ⟨rfl, _⟩ | ⟨rfl, _⟩ <;> first | exact absurd rfl hC | simp [fieldValue]

theorem validFormat_getElem (format : List Char) (h : validFormat format = true) (k : Nat)
    (c : Char) (hk : format[k]? = some c) : (fieldSize c).isSome = true := by
  simp only [validFormat, List.all_eq_true] at h
  exact h c (List.mem_iff_getElem?.mpr ⟨k, hk⟩)

/-- C12 (amended): for every descriptor of valid tags, every start offset,
every buffer and every content of `dd` on entry, `decode_buf` returns one
value per tag, in descriptor order, and the end offset `start` plus the sum of
the widths; the `k`-th value is the reading by its tag of the bytes at
`[start + sum of the first k widths, + width_k)` and of the value before it
(`dd` for the first), and under every tag other than `C` it is the same
whatever that previous value is. -/
theorem decode_buf_fields (isLittleEndian : Bool) (mem : Mem) (format : List Char)
    (start : Nat) (dd : Dbl) (hv : validFormat format = true) :
    ∃ vs, decode_buf isLittleEndian mem start format dd = .ok (vs, start + formatWidth format)
      ∧ vs.length = format.length
      ∧ ∀ k c, format[k]? = some c →
          (∃ stale, (if k = 0 then some dd else vs[k - 1]?) = some stale
            ∧ vs[k]? = some (fieldValue isLittleEndian c
                (peek mem (start + formatWidth (format.take k)) (formatWidth [c])) stale))
          ∧ (c ≠ 'C' → ∀ stale, vs[k]? = some (fieldValue isLittleEndian c
                (peek mem (start + formatWidth (format.take k)) (formatWidth [c])) stale)) := by
  obtain ⟨vs, hrun, hlen, hval⟩ := decode_buf_valid isLittleEndian mem format start dd hv
  refine ⟨vs, hrun, hlen, fun k c hk => ⟨hval k c hk, fun hC stale => ?_⟩⟩
  obtain ⟨s0, _, h0⟩ := hval k c hk
  rw [h0, fieldValue_stale isLittleEndian c (validFormat_getElem format hv k c hk) hC _ s0 stale]

/-- C12, witness: the descriptor `uS` read at offset 1 of 07 01 02 03 gives
two values and the end offset 1 + 3. -/
theorem decode_buf_fields_witness :
    validFormat ['u', 'S'] = true
      ∧ ∃ vs, decode_buf true (memOf [7, 1, 2, 3]) 1 ['u', 'S'] (.int 0)
          = .ok (vs, 1 + formatWidth ['u', 'S'])
        ∧ vs.length = ['u', 'S'].length
        ∧ ∀ k c, ['u', 'S'][k]? = some c →
          (∃ stale, (if k = 0 then some (.int 0) else vs[k - 1]?) = some stale
            ∧ vs[k]? = some (fieldValue true c
                (peek (memOf [7, 1, 2, 3]) (1 + formatWidth (['u', 'S'].take k))
                  (formatWidth [c])) stale))
          ∧ (c ≠ 'C' → ∀ stale, vs[k]? = some (fieldValue true c
                (peek (memOf [7, 1, 2, 3]) (1 + formatWidth (['u', 'S'].take k))
                  (formatWidth [c])) stale)) :=
  ⟨by decide, decode_buf_fields true (memOf [7, 1, 2, 3]) ['u', 'S'] 1 (.int 0) (by decide)⟩

/-- C12, counterexample: under the descriptor `4C` the second value is not a
function of the bytes at offsets 4..7: the buffers 00 00 00 01 09 09 09 09 and
00 20 00 01 09 09 09 09 agree there, and the second values differ (the `C` tag
overwrites four bytes of `dd` and keeps the others from the first value, 1 or
2^21 + 1, whose doubles differ in both halves). -/
theorem decode_buf_raw_tag_stale :
    peek (memOf [0, 0, 0, 1, 9, 9, 9, 9]) 4 4 = peek (memOf [0, 0x20, 0, 1, 9, 9, 9, 9]) 4 4
      ∧ decode_buf true (memOf [0, 0, 0, 1, 9, 9, 9, 9]) 0 ['4', 'C'] (.int 0)
          = .ok ([.int 1, .chars 9 9 9 9 (.int 1)], 8)
      ∧ decode_buf true (memOf [0, 0x20, 0, 1, 9, 9, 9, 9]) 0 ['4', 'C'] (.int 0)
          = .ok ([.int 2097153, .chars 9 9 9 9 (.int 2097153)], 8)
      ∧ Dbl.chars 9 9 9 9 (.int 1) ≠ Dbl.chars 9 9 9 9 (.int 2097153) := by
  decide

theorem decode_buf_stale_head (isLittleEndian : Bool) (mem : Mem) (index : Nat)
    (format : List Char) (hC : format.head? ≠ some 'C') (d1 d2 : Dbl) :
    decode_buf isLittleEndian mem index format d1
      = decode_buf isLittleEndian mem index format d2 := by
  cases format with
  | nil => simp [decode_buf]
  | cons c format =>
    have hc' : c ≠ 'C' := fun h => hC (by simp [h])
    cases hsz : fieldSize c with
    | none => simp [decode_buf, decodeField, hsz]
    | some size =>
      rw [decode_buf_cons isLittleEndian mem index c format d1 size hsz,
        decode_buf_cons isLittleEndian mem index c format d2 size hsz,
        fieldValue_stale isLittleEndian c (by simp [hsz]) hc' _ d1 d2]

theorem decode_buf_append (isLittleEndian : Bool) (mem : Mem) (d2 : List Char) :
    ∀ (d1 : List Char) (start : Nat) (dd : Dbl), validFormat d1 = true →
      ∃ vs1 e1, decode_buf isLittleEndian mem start d1 dd = .ok (vs1, e1)
        ∧ decode_buf isLittleEndian mem start (d1 ++ d2) dd
          = match decode_buf isLittleEndian mem e1 d2 ((vs1.getLast?).getD dd) with
            | .ok (vs2, e2) => .ok (vs1 ++ vs2, e2)
            | .fatal e => .fatal e
            | .undefined => .undefined := by
  intro d1
  induction d1 with
  | nil =>
    intro start dd _
    refine ⟨[], start, by simp [decode_buf], ?_⟩
    simp only [List.nil_append, List.getLast?_nil, Option.getD_none]
    cases decode_buf isLittleEndian mem start d2 dd with
    | ok r => rfl
    | fatal e => rfl
    | undefined => rfl
  | cons c d1 ih =>
    intro start dd hv
    obtain ⟨⟨size, hc⟩, hv'⟩ := validFormat_cons c d1 hv
    obtain ⟨vs1, e1, h1, h12⟩ := ih (start + size)
      (fieldValue isLittleEndian c (peek mem start size) dd) hv'
    refine ⟨fieldValue isLittleEndian c (peek mem start size) dd :: vs1, e1, ?_, ?_⟩
    · rw [decode_buf_cons isLittleEndian mem start c d1 dd size hc, h1]
    · rw [List.cons_append, decode_buf_cons isLittleEndian mem start c (d1 ++ d2) dd size hc, h12]
      have hlast : ((fieldValue isLittleEndian c (peek mem start size) dd :: vs1).getLast?).getD dd
          = (vs1.getLast?).getD (fieldValue isLittleEndian c (peek mem start size) dd) := by
        cases vs1 with
        | nil => rfl
        | cons a t =>
          rw [List.getLast?_cons_cons, List.getLast?_eq_getLast (a :: t) (List.cons_ne_nil a t)]
          rfl
      rw [hlast]
      cases decode_buf isLittleEndian mem e1 d2
          ((vs1.getLast?).getD (fieldValue isLittleEndian c (peek mem start size) dd)) with
      | ok r => rfl
      | fatal e => rfl
      | undefined => rfl

/-- C13 (amended): for all descriptors `d1`, `d2` of valid tags where `d2`
does not begin with the tag `C`, every buffer, start offset and contents
`dd0`, `dd1` of `dd` on entry of the two calls: decoding `d1`, then `d2` from
the end offset of the first call, returns the value sequences and final offset
that decoding `d1 ++ d2` in one call returns. -/
theorem decode_buf_compose (isLittleEndian : Bool) (mem : Mem) (d1 d2 : List Char)
    (start : Nat) (dd0 dd1 : Dbl) (h1 : validFormat d1 = true) (h2 : validFormat d2 = true)
    (hC : d2.head? ≠ some 'C') :
    ∃ vs1 e1 vs2 e2, decode_buf isLittleEndian mem start d1 dd0 = .ok (vs1, e1)
      ∧ decode_buf isLittleEndian mem e1 d2 dd1 = .ok (vs2, e2)
      ∧ decode_buf isLittleEndian mem start (d1 ++ d2) dd0 = .ok (vs1 ++ vs2, e2) := by
  obtain ⟨vs1, e1, hr1, happ⟩ := decode_buf_append isLittleEndian mem d2 d1 start dd0 h1
  obtain ⟨vs2, hr2, -, -⟩ := decode_buf_valid isLittleEndian mem d2 e1 dd1 h2
  refine ⟨vs1, e1, vs2, _, hr1, hr2, ?_⟩
  rw [happ, decode_buf_stale_head isLittleEndian mem e1 d2 hC _ dd1, hr2]

/-- C13, witness: the fixed part `4u2S` of section 4 followed by the first
tags `uu` of its template. -/
theorem decode_buf_compose_witness :
    ∃ vs1 e1 vs2 e2,
      decode_buf true (memOf [0, 0, 0, 34, 4, 0, 0, 0, 0, 1, 8]) 0 "4u2S".toList (.int 0)
        = .ok (vs1, e1)
      ∧ decode_buf true (memOf [0, 0, 0, 34, 4, 0, 0, 0, 0, 1, 8]) e1 "uu".toList (.int 7)
        = .ok (vs2, e2)
      ∧ decode_buf true (memOf [0, 0, 0, 34, 4, 0, 0, 0, 0, 1, 8]) 0
          ("4u2S".toList ++ "uu".toList) (.int 0) = .ok (vs1 ++ vs2, e2) :=
  decode_buf_compose true (memOf [0, 0, 0, 34, 4, 0, 0, 0, 0, 1, 8]) "4u2S".toList "uu".toList
    0 (.int 0) (.int 7) (by decide) (by decide) (by decide)

/-- C13, counterexample: with `d1 = 4` and `d2 = C` over 00 20 00 01 09 09 09 09,
the second call started with `dd` holding 1 returns a value that keeps four
bytes of 1, the single call a value that keeps four bytes of 2^21 + 1. -/
theorem decode_buf_compose_raw_tag :
    decode_buf true (memOf [0, 0x20, 0, 1, 9, 9, 9, 9]) 0 ['4'] (.int 0)
        = .ok ([.int 2097153], 4)
      ∧ decode_buf true (memOf [0, 0x20, 0, 1, 9, 9, 9, 9]) 4 ['C'] (.int 1)
        = .ok ([.chars 9 9 9 9 (.int 1)], 8)
      ∧ decode_buf true (memOf [0, 0x20, 0, 1, 9, 9, 9, 9]) 0 (['4'] ++ ['C']) (.int 0)
        = .ok ([.int 2097153, .chars 9 9 9 9 (.int 2097153)], 8)
      ∧ [Dbl.int 2097153] ++ [Dbl.chars 9 9 9 9 (.int 1)]
        ≠ [.int 2097153, .chars 9 9 9 9 (.int 2097153)] := by
  decide

/-! ## C16, C18: the raw integers of `unpack_data` -/

theorem collect_none {α : Type} (body : Nat → Option α) (n i : Nat) (hi : i < n)
    (h : body i = none) : collect body n = none := by
  induction n with
  | zero => omega
  | succ n ih =>
    rcases Nat.lt_succ_iff_lt_or_eq.mp hi with hlt | heq
    · simp only [collect, ih hlt]
    · subst heq
      cases hc : collect body i <;> simp only [collect, hc, h]

theorem unpack_data_rawAt {F : Type} (A : FloatOps F) (isLittleEndian : Bool) (sec_7 : Mem)
    (values_5 : List Dbl) (num nbit : Int) (rr ee dd : Dbl)
    (h2 : (values_5[2]?).bind Dbl.toInt = some num) (h4 : values_5[4]? = some rr)
    (h5 : values_5[5]? = some ee) (h6 : values_5[6]? = some dd)
    (h7 : (values_5[7]?).bind Dbl.toInt = some nbit) :
    unpack_data A isLittleEndian sec_7 values_5
      = collect (fun ii => (rawAt isLittleEndian sec_7 nbit ii).map (scaled A rr ee dd))
          num.toNat := by
  unfold unpack_data
  rw [h2, h4, h5, h6, h7]
  simp only []
  congr 1
  funext ii
  unfold rawAt
  split <;> rfl

theorem readBits_zero_width (isLittleEndian : Bool) (uc : Mem) (mask : Nat) :
    readBits isLittleEndian uc 0 0 mask = none := by
  simp [readBits]

theorem rawAt_zero_width (isLittleEndian : Bool) (sec_7 : Mem) (ii : Nat) :
    rawAt isLittleEndian sec_7 0 ii = none := by
  simp [rawAt, readBits]

/-- C16 (amended): when nbits = 0 the mask loop of `unpack_data` does not run
and leaves mask = 1 (not 0), and the shift amount 32 - nbits - 0 is 32, the
width of `unsigned int`, which C leaves undefined: no raw integer is defined
for any grid point, so `unpack_data` has no defined result when N >= 1, and
produces no value when N = 0. -/
theorem unpack_data_zero_width {F : Type} (A : FloatOps F) (isLittleEndian : Bool)
    (sec_7 : Mem) (values_5 : List Dbl) (N : Nat) (rr ee dd : Dbl)
    (h2 : values_5[2]? = some (.int (N : Int))) (hN : N < 2 ^ 31)
    (h4 : values_5[4]? = some rr) (h5 : values_5[5]? = some ee) (h6 : values_5[6]? = some dd)
    (h7 : values_5[7]? = some (.int 0)) :
    maskOf 0 = 1
      ∧ (∀ ii, rawAt isLittleEndian sec_7 0 ii = none)
      ∧ (1 ≤ N → unpack_data A isLittleEndian sec_7 values_5 = none)
      ∧ (N = 0 → unpack_data A isLittleEndian sec_7 values_5 = some []) := by
  have h2' : (values_5[2]?).bind Dbl.toInt = some (N : Int) := by
    rw [h2, Option.some_bind, toInt_natCast N hN]
  have h7' : (values_5[7]?).bind Dbl.toInt = some 0 := by
    rw [h7]; rfl
  have hrun := unpack_data_rawAt A isLittleEndian sec_7 values_5 N 0 rr ee dd h2' h4 h5 h6 h7'
  refine ⟨by decide, rawAt_zero_width isLittleEndian sec_7, fun h1 => ?_, fun h0 => ?_⟩
  · rw [hrun]
    apply collect_none _ _ 0 (by simpa using h1)
    rw [rawAt_zero_width]
    rfl
  · rw [hrun, h0]
    rfl

/-- C16, witness: N = 1, R = 0, E = 0, D = 0, nbits = 0. -/
theorem unpack_data_zero_width_witness :
    maskOf 0 = 1
      ∧ (∀ ii, rawAt true (memOf [0, 0, 0, 6, 7, 0xFF]) 0 ii = none)
      ∧ ((1 : Nat) ≤ 1 → unpack_data exactOps true (memOf [0, 0, 0, 6, 7, 0xFF])
          [.int 21, .int 5, .int 1, .int 0, .single 0, .int 0, .int 0, .int 0, .int 0] = none)
      ∧ ((1 : Nat) = 0 → unpack_data exactOps true (memOf [0, 0, 0, 6, 7, 0xFF])
          [.int 21, .int 5, .int 1, .int 0, .single 0, .int 0, .int 0, .int 0, .int 0]
            = some []) :=
  unpack_data_zero_width exactOps true (memOf [0, 0, 0, 6, 7, 0xFF])
    [.int 21, .int 5, .int 1, .int 0, .single 0, .int 0, .int 0, .int 0, .int 0]
    1 (.single 0) (.int 0) (.int 0) rfl (by decide) rfl rfl rfl rfl

/-- C16, counterexample: with nbits = 0 the mask is 1, not 0, and for N = 1,
R = 0, E = 0, D = 0 `unpack_data` does not produce the value R / 10^D: the
shift by 32 is undefined. -/
theorem unpack_data_zero_width_mask :
    maskOf 0 = 1 ∧ maskOf 0 ≠ 0
      ∧ rawAt true (memOf [0, 0, 0, 6, 7, 0xFF]) 0 0 ≠ some 0
      ∧ unpack_data exactOps true (memOf [0, 0, 0, 6, 7, 0xFF])
          [.int 21, .int 5, .int 1, .int 0, .single 0, .int 0, .int 0, .int 0, .int 0]
        = none := by
  decide

/-- C18 (amended): for every bit width nbits >= 1 and index i with
nbits + ((i*nbits) mod 8) <= 32 (in particular for every i when nbits <= 25)
and i*nbits < 2^31 (the `int` product `nbit*ii` does not overflow), the raw
integer `unpack_data` extracts for point i is exactly the nbits-bit
big-endian, MSB-first bit field starting i*nbits bits after the 5-byte header,
and is below 2^nbits; the mask built by the loop is 2^nbits - 1. -/
theorem rawAt_bitField (isLittleEndian : Bool) (sec_7 : Mem) (nbits i : Nat)
    (h1 : 1 ≤ nbits) (hwin : nbits ≤ 25 ∨ nbits + (i * nbits) % 8 ≤ 32)
    (hov : i * nbits < 2 ^ 31) :
    rawAt isLittleEndian sec_7 (nbits : Int) i = some (bitField sec_7 (8 * 5 + i * nbits) nbits)
      ∧ bitField sec_7 (8 * 5 + i * nbits) nbits < 2 ^ nbits
      ∧ maskOf (nbits : Int) = 2 ^ nbits - 1 := by
  have hw : nbits + (nbits * i) % 8 ≤ 32 := by
    rw [Nat.mul_comm]
    rcases hwin with h | h
    · have := Nat.mod_lt (i * nbits) (show 0 < 8 by decide)
      omega
    · exact h
  have h32 : nbits ≤ 32 := by omega
  have hcast : (nbits : Int) * (i : Int) = ((nbits * i : Nat) : Int) := by push_cast; ring
  have hno : ¬ ((nbits : Int) * (i : Int) < -2147483648
      ∨ 2147483648 ≤ (nbits : Int) * (i : Int)) := by
    rw [hcast, Nat.mul_comm]; omega
  refine ⟨?_, bitField_lt _ _ _, maskOf_eq nbits h1 h32⟩
  unfold rawAt
  rw [if_neg hno, hcast,
    readBits_eq_bitField isLittleEndian (fun i => sec_7 (5 + i)) (nbits * i) nbits h1 hw,
    bitField_shift, Nat.mul_comm nbits i]

/-- C18, witness: nbits = 12, i = 1 over the packed bytes AB CD EF: the second
12-bit field is 0xDEF. -/
theorem rawAt_bitField_witness :
    rawAt true (memOf [0, 0, 0, 8, 7, 0xAB, 0xCD, 0xEF]) ((12 : Nat) : Int) 1
        = some (bitField (memOf [0, 0, 0, 8, 7, 0xAB, 0xCD, 0xEF]) (8 * 5 + 1 * 12) 12)
      ∧ bitField (memOf [0, 0, 0, 8, 7, 0xAB, 0xCD, 0xEF]) (8 * 5 + 1 * 12) 12 < 2 ^ 12
      ∧ maskOf ((12 : Nat) : Int) = 2 ^ 12 - 1 :=
  rawAt_bitField true (memOf [0, 0, 0, 8, 7, 0xAB, 0xCD, 0xEF]) 12 1 (by decide)
    (Or.inl (by decide)) (by decide)

/-- C18, counterexample: nbits = 8 and i = 2^28 satisfy
nbits + ((i*nbits) mod 8) <= 32, and the `int` product `nbit*ii` = 2^31
overflows, which C leaves undefined: no raw integer is defined. -/
theorem rawAt_index_overflow :
    8 + (2 ^ 28 * 8) % 8 ≤ 32
      ∧ rawAt true (memOf []) ((8 : Nat) : Int) (2 ^ 28) = none
      ∧ rawAt true (memOf []) ((8 : Nat) : Int) (2 ^ 28)
        ≠ some (bitField (memOf []) (8 * 5 + 2 ^ 28 * 8) 8) := by
  have hrun : rawAt true (memOf []) ((8 : Nat) : Int) (2 ^ 28) = none := by
    unfold rawAt
    rw [if_pos (Or.inr (by norm_num))]
  refine ⟨by norm_num, hrun, ?_⟩
  rw [hrun]
  exact fun h => Option.noConfusion h

/-! ## C19: the descriptors of the tables -/

theorem findTemplate_mem (s t : Int) (tfp : TemplateFormat) :
    ∀ table : List TemplateFormat, findTemplate s t table = some tfp → tfp ∈ table := by
  intro table
  induction table with
  | nil => intro h; simp [findTemplate] at h
  | cons e more ih =>
    intro h
    unfold findTemplate at h
    split at h
    · cases h
    · split at h
      · cases h
        exact List.mem_cons_self _ _
      · exact List.mem_cons_of_mem _ (ih h)

theorem sectionFormat_valid : ∀ format ∈ sectionFormat, validFormat format = true := by
  decide

theorem templateFormat_valid : ∀ tfp ∈ templateFormat, validFormat tfp.format = true := by
  decide

theorem decode_buf_ok_of_valid (isLittleEndian : Bool) (mem : Mem) (format : List Char)
    (start : Nat) (dd : Dbl) (hv : validFormat format = true) :
    ∃ vs, decode_buf isLittleEndian mem start format dd = .ok (vs, start + formatWidth format)
      ∧ vs.length = format.length := by
  obtain ⟨vs, h, hl, -⟩ := decode_buf_valid isLittleEndian mem format start dd hv
  exact ⟨vs, h, hl⟩

theorem decode_section_not_fatal (isLittleEndian : Bool) (secno : Nat) (mem : Mem)
    (dd0 dd1 : Dbl) (e : Fatal) :
    decode_section isLittleEndian secno mem dd0 dd1 ≠ .fatal e := by
  unfold decode_section
  cases hfmt : sectionFormat[secno]? with
  | none => simp
  | some format =>
    have hv : validFormat format = true :=
      sectionFormat_valid format (List.mem_iff_getElem?.mpr ⟨secno, hfmt⟩)
    obtain ⟨vs, hrun, -⟩ := decode_buf_ok_of_valid isLittleEndian mem format 0 dd0 hv
    simp only [hrun]
    split
    · simp
    · split
      · split
        · simp
        · split
          · simp
          · rename_i tfp htfp
            have hv2 : validFormat tfp.format = true :=
              templateFormat_valid tfp (findTemplate_mem _ _ tfp templateFormat htfp)
            obtain ⟨ws, hrun2, -⟩ := decode_buf_ok_of_valid isLittleEndian mem tfp.format
              (0 + formatWidth format) dd1 hv2
            simp only [hrun2]
            split <;> simp
      · simp

/-- C19: every character of every descriptor of `sectionFormat` (sections 0-8)
and of every `templateFormat` entry is one of the tags 1, 2, 4, 8, u, S, R, C;
hence `decode_buf` returns normally, one value per tag, on each of these
descriptors from every offset of every buffer, and `decode_section` never
takes the "Internal Error" exit (nor any other fatal exit). -/
theorem descriptors_valid :
    (∀ format ∈ sectionFormat, ∀ c ∈ format,
        c = '1' ∨ c = '2' ∨ c = '4' ∨ c = '8' ∨ c = 'u' ∨ c = 'S' ∨ c = 'R' ∨ c = 'C')
      ∧ (∀ tfp ∈ templateFormat, ∀ c ∈ tfp.format,
        c = '1' ∨ c = '2' ∨ c = '4' ∨ c = '8' ∨ c = 'u' ∨ c = 'S' ∨ c = 'R' ∨ c = 'C')
      ∧ (∀ format, (format ∈ sectionFormat ∨ ∃ tfp ∈ templateFormat, tfp.format = format) →
          ∀ (isLittleEndian : Bool) (mem : Mem) (start : Nat) (dd : Dbl),
            ∃ vs, decode_buf isLittleEndian mem start format dd
                = .ok (vs, start + formatWidth format) ∧ vs.length = format.length)
      ∧ ∀ (isLittleEndian : Bool) (secno : Nat) (mem : Mem) (dd0 dd1 : Dbl) (e : Fatal),
          decode_section isLittleEndian secno mem dd0 dd1 ≠ .fatal e := by
  refine ⟨by decide, by decide, ?_, decode_section_not_fatal⟩
  rintro format (h | ⟨tfp, h, rfl⟩) isLittleEndian mem start dd
  · exact decode_buf_ok_of_valid isLittleEndian mem format start dd (sectionFormat_valid format h)
  · exact decode_buf_ok_of_valid isLittleEndian mem tfp.format start dd
      (templateFormat_valid tfp h)

/-- C19, witness: the descriptor of section 1 decoded from offset 0, and
`decode_section` for section 3. -/
theorem descriptors_valid_witness :
    (∃ vs, decode_buf true (memOf []) 0 (sectionFormat.getD 1 []) (.int 0)
        = .ok (vs, 0 + formatWidth (sectionFormat.getD 1 []))
        ∧ vs.length = (sectionFormat.getD 1 []).length)
      ∧ decode_section true 3 (memOf []) (.int 0) (.int 0) ≠ .fatal .internalError :=
  ⟨descriptors_valid.2.2.1 (sectionFormat.getD 1 []) (Or.inl (by decide)) true (memOf []) 0
      (.int 0),
    descriptors_valid.2.2.2 true 3 (memOf []) (.int 0) (.int 0) .internalError⟩

/-! ## C20: the template number and the start of the template -/

theorem decode_section_345 (isLittleEndian : Bool) (secno k : Nat) (mem : Mem) (dd0 dd1 : Dbl)
    (hk : (secno = 3 ∧ k = 12) ∨ (secno = 4 ∧ k = 7) ∨ (secno = 5 ∧ k = 9)) :
    ∃ vs, decode_buf isLittleEndian mem 0 (sectionFormat.getD secno []) dd0 = .ok (vs, k + 2)
      ∧ formatWidth (sectionFormat.getD secno []) = k + 2
      ∧ vs.length * 2 ≤ k + 2
      ∧ vs.getLast? = some (.int ((256 * (mem k).val + (mem (k + 1)).val : Nat) : Int))
      ∧ decode_section isLittleEndian secno mem dd0 dd1
        = if fitsArray (arrayLength isLittleEndian secno mem) vs.length = false then .undefined
          else
            match findTemplate (secno : Int)
                ((256 * (mem k).val + (mem (k + 1)).val : Nat) : Int) templateFormat with
            | none => .ok vs
            | some tfp =>
              match decode_buf isLittleEndian mem (k + 2) tfp.format dd1 with
              | .fatal e => .fatal e
              | .undefined => .undefined
              | .ok (ws, _) =>
                if fitsArray (arrayLength isLittleEndian secno mem) (vs ++ ws).length = false
                then .undefined
                else .ok (vs ++ ws) := by
  have hsh : ∀ a b : Nat, (a <<< 8) + b = 256 * a + b := by
    intro a b
    rw [Nat.shiftLeft_eq]
    ring
  have hlt : (256 * (mem k).val + (mem (k + 1)).val) < 2 ^ 31 := by
    have h0 := (mem k).isLt
    have h1 := (mem (k + 1)).isLt
    norm_num
    omega
  have hbind : (some (Dbl.int ((256 * (mem k).val + (mem (k + 1)).val : Nat) : Int))).bind
      Dbl.toInt = some ((256 * (mem k).val + (mem (k + 1)).val : Nat) : Int) := by
    rw [Option.some_bind, toInt_natCast _ hlt]
  have hfmt : sectionFormat[secno]? = some (sectionFormat.getD secno []) := by
    rcases hk with ⟨rfl, _⟩ | ⟨rfl, _⟩ | ⟨rfl, _⟩ <;> rfl
  have h345 : 3 ≤ secno ∧ secno ≤ 5 := by omega
  have key : ∀ vs, decode_buf isLittleEndian mem 0 (sectionFormat.getD secno []) dd0
        = .ok (vs, k + 2) →
      vs.getLast? = some (.int ((256 * (mem k).val + (mem (k + 1)).val : Nat) : Int)) →
      decode_section isLittleEndian secno mem dd0 dd1
        = if fitsArray (arrayLength isLittleEndian secno mem) vs.length = false then .undefined
          else
            match findTemplate (secno : Int)
                ((256 * (mem k).val + (mem (k + 1)).val : Nat) : Int) templateFormat with
            | none => .ok vs
            | some tfp =>
              match decode_buf isLittleEndian mem (k + 2) tfp.format dd1 with
              | .fatal e => .fatal e
              | .undefined => .undefined
              | .ok (ws, _) =>
                if fitsArray (arrayLength isLittleEndian secno mem) (vs ++ ws).length = false
                then .undefined
                else .ok (vs ++ ws) := by
    intro vs hdec hlast
    unfold decode_section
    rw [hfmt]
    simp only [hdec, if_pos h345, hlast, hbind]
  rcases hk with ⟨rfl, rfl⟩ | ⟨rfl, rfl⟩ | ⟨rfl, rfl⟩
  · obtain ⟨vs, hdec, hl, hlast⟩ := decode_fixed_3 isLittleEndian mem dd0
    rw [hsh] at hlast
    exact ⟨vs, hdec, by decide, by omega, hlast, key vs hdec hlast⟩
  · obtain ⟨vs, hdec, hl, hlast⟩ := decode_fixed_4 isLittleEndian mem dd0
    rw [hsh] at hlast
    exact ⟨vs, hdec, by decide, by omega, hlast, key vs hdec hlast⟩
  · obtain ⟨vs, hdec, hl, hlast⟩ := decode_fixed_5 isLittleEndian mem dd0
    rw [hsh] at hlast
    exact ⟨vs, hdec, by decide, by omega, hlast, key vs hdec hlast⟩

/-- C20: for every section of number 3, 4 or 5, with k = 12, 7, 9: the fixed
prefix is decoded from offset 0 to offset k + 2, its last value is the
big-endian unsigned 16-bit value 256*b[k] + b[k+1], and `decode_section`
is the catalog lookup of that number followed by the decoding of the matched
template's fields from byte offset k + 2 (the results being kept only if they
fit the value array). -/
theorem decode_section_template_number (isLittleEndian : Bool) (secno k : Nat)
    (sec_buffer : Mem) (dd0 dd1 : Dbl)
    (hk : (secno = 3 ∧ k = 12) ∨ (secno = 4 ∧ k = 7) ∨ (secno = 5 ∧ k = 9)) :
    ∃ vs, decode_buf isLittleEndian sec_buffer 0 (sectionFormat.getD secno []) dd0
          = .ok (vs, k + 2)
      ∧ vs.getLast?
          = some (.int ((256 * (sec_buffer k).val + (sec_buffer (k + 1)).val : Nat) : Int))
      ∧ decode_section isLittleEndian secno sec_buffer dd0 dd1
        = if fitsArray (arrayLength isLittleEndian secno sec_buffer) vs.length = false
          then .undefined
          else
            match findTemplate (secno : Int)
                ((256 * (sec_buffer k).val + (sec_buffer (k + 1)).val : Nat) : Int)
                templateFormat with
            | none => .ok vs
            | some tfp =>
              match decode_buf isLittleEndian sec_buffer (k + 2) tfp.format dd1 with
              | .fatal e => .fatal e
              | .undefined => .undefined
              | .ok (ws, _) =>
                if fitsArray (arrayLength isLittleEndian secno sec_buffer) (vs ++ ws).length
                    = false
                then .undefined
                else .ok (vs ++ ws) := by
  obtain ⟨vs, h1, -, -, h2, h3⟩ := decode_section_345 isLittleEndian secno k sec_buffer dd0 dd1 hk
  exact ⟨vs, h1, h2, h3⟩

/-- C20, witness: a section 5 of 21 bytes with template number 0 at offsets 9
and 10; the template 5.0 (`R22uu`) is decoded from offset 11. -/
theorem decode_section_template_number_witness :
    decode_buf true (memOf [0, 0, 0, 21, 5, 0, 0, 0, 4, 0, 0, 0, 0, 0, 0, 0, 0, 0, 0, 8, 0]) 0
        (sectionFormat.getD 5 []) (.int 0)
        = .ok ([.int 21, .int 5, .int 4, .int 0], 9 + 2)
      ∧ decode_section true 5
          (memOf [0, 0, 0, 21, 5, 0, 0, 0, 4, 0, 0, 0, 0, 0, 0, 0, 0, 0, 0, 8, 0]) (.int 0) (.int 0)
        = .ok [.int 21, .int 5, .int 4, .int 0, .single 0, .int 0, .int 0, .int 8, .int 0] := by
  obtain ⟨vs, h1, -, h3⟩ := decode_section_template_number true 5 9
    (memOf [0, 0, 0, 21, 5, 0, 0, 0, 4, 0, 0, 0, 0, 0, 0, 0, 0, 0, 0, 8, 0]) (.int 0) (.int 0)
    (Or.inr (Or.inr ⟨rfl, rfl⟩))
  have hvs : decode_buf true
      (memOf [0, 0, 0, 21, 5, 0, 0, 0, 4, 0, 0, 0, 0, 0, 0, 0, 0, 0, 0, 8, 0]) 0
      (sectionFormat.getD 5 []) (.int 0) = .ok ([.int 21, .int 5, .int 4, .int 0], 9 + 2) := by
    decide
  have hv : vs = [.int 21, .int 5, .int 4, .int 0] := by
    rw [hvs] at h1
    cases h1
    rfl
  subst hv
  refine ⟨hvs, ?_⟩
  rw [h3]
  decide

/-! ## C9: unknown templates -/

/-- C9 (amended): for every section of number 3, 4 or 5 (k = 12, 7, 9) whose
declared length L is below 2^31 and at least the number of fields of the fixed
prefix (7, 4, 4: the value array holds L doubles), and whose template number
256*b[k] + b[k+1] is absent from the catalog, `decode_section` returns
normally and the values it leaves are exactly the values `decode_buf` yields
for the fixed-prefix descriptor from offset 0, one per field. -/
theorem decode_section_unknown_template (isLittleEndian : Bool) (secno k : Nat)
    (sec_buffer : Mem) (dd0 dd1 : Dbl)
    (hk : (secno = 3 ∧ k = 12) ∨ (secno = 4 ∧ k = 7) ∨ (secno = 5 ∧ k = 9))
    (hfit : (sectionFormat.getD secno []).length ≤ beValue (peek sec_buffer 0 4))
    (hmax : beValue (peek sec_buffer 0 4) < 2 ^ 31)
    (hnone : findTemplate (secno : Int)
      ((256 * (sec_buffer k).val + (sec_buffer (k + 1)).val : Nat) : Int) templateFormat
        = none) :
    ∃ vs, decode_buf isLittleEndian sec_buffer 0 (sectionFormat.getD secno []) dd0
          = .ok (vs, k + 2)
      ∧ vs.length = (sectionFormat.getD secno []).length
      ∧ decode_section isLittleEndian secno sec_buffer dd0 dd1 = .ok vs := by
  obtain ⟨vs, hdec, -, -, -, heq⟩ :=
    decode_section_345 isLittleEndian secno k sec_buffer dd0 dd1 hk
  have hs : secno = 3 ∨ secno = 4 ∨ secno = 5 := by omega
  have hfmt : sectionFormat.getD secno [] ∈ sectionFormat := by
    rcases hs with rfl | rfl | rfl <;> decide
  obtain ⟨vs', hdec', hlen⟩ := decode_buf_ok_of_valid isLittleEndian sec_buffer
    (sectionFormat.getD secno []) 0 dd0 (sectionFormat_valid _ hfmt)
  have hvs : vs' = vs := by
    rw [hdec] at hdec'
    exact ((Prod.mk.inj (Outcome.ok.inj hdec')).1).symm
  subst hvs
  have hcap := arrayLength_declared isLittleEndian secno sec_buffer hs hmax
  have hfits : fitsArray (arrayLength isLittleEndian secno sec_buffer) vs'.length = true := by
    rw [hcap, hlen]
    simp only [fitsArray, Bool.or_eq_true, decide_eq_true_eq]
    right
    exact_mod_cast hfit
  refine ⟨vs', hdec, hlen, ?_⟩
  rw [heq, hfits, hnone]
  rfl

/-- C9, witness: the 9-byte section 4 with template number 9999 = 256*39 + 15
leaves the four values of its fixed prefix. -/
theorem decode_section_unknown_template_witness :
    findTemplate 4 9999 templateFormat = none
      ∧ decode_section true 4 (memOf [0, 0, 0, 9, 4, 0, 0, 0x27, 0x0F]) (.int 0) (.int 0)
        = .ok [.int 9, .int 4, .int 0, .int 9999] := by
  obtain ⟨vs, hdec, -, hsec⟩ := decode_section_unknown_template true 4 7
    (memOf [0, 0, 0, 9, 4, 0, 0, 0x27, 0x0F]) (.int 0) (.int 0)
    (Or.inr (Or.inl ⟨rfl, rfl⟩)) (by decide) (by decide) (by decide)
  have hvs : decode_buf true (memOf [0, 0, 0, 9, 4, 0, 0, 0x27, 0x0F]) 0
      (sectionFormat.getD 4 []) (.int 0) = .ok ([.int 9, .int 4, .int 0, .int 9999], 7 + 2) := by
    decide
  rw [hvs] at hdec
  cases hdec
  exact ⟨by decide, hsec⟩

/-- C9, counterexample: the stream 00 00 00 05 03 is returned by
`read_section_X` as a section 3 of declared length 5; with the bytes FF after
it in memory its template number reads 65535, absent from the catalog.  The
value array holds 5 doubles and the fixed prefix `4uu4uuS` has 7 fields:
`decode_buf` writes past the array and `decode_section` does not return the
fixed-prefix values.  Likewise a section 4 whose length field 80 00 00 09 is
negative as an `int` has no array to hold its values. -/
theorem decode_section_short_section :
    read_section_X true [0, 0, 0, 5, 3] = .ok ⟨3, [0, 0, 0, 5, 3], []⟩
      ∧ findTemplate 3 65535 templateFormat = none
      ∧ arrayLength true 3 (memFrom [0, 0, 0, 5, 3] (fun _ => 255)) = 5
      ∧ decode_buf true (memFrom [0, 0, 0, 5, 3] (fun _ => 255)) 0 (sectionFormat.getD 3 [])
          (.int 0)
        = .ok ([.int 5, .int 3, .int 255, .int (-2147483647), .int 255, .int 255,
            .int 65535], 14)
      ∧ decode_section true 3 (memFrom [0, 0, 0, 5, 3] (fun _ => 255)) (.int 0) (.int 0)
        = .undefined
      ∧ arrayLength true 4 (memOf [0x80, 0, 0, 9, 4, 0, 0, 0x27, 0x0F]) = -2147483639
      ∧ decode_section true 4 (memOf [0x80, 0, 0, 9, 4, 0, 0, 0x27, 0x0F]) (.int 0) (.int 0)
        = .undefined := by
  decide

/-! ## C17: the offsets `decode_section` reads -/

theorem peek_congr (mem1 mem2 : Mem) (ii size : Nat)
    (h : ∀ i, ii ≤ i → i < ii + size → mem1 i = mem2 i) :
    peek mem1 ii size = peek mem2 ii size := by
  unfold peek
  apply List.map_congr_left
  intro jj hjj
  have := List.mem_range.mp hjj
  exact h (ii + jj) (by omega) (by omega)

theorem decode_buf_congr (isLittleEndian : Bool) (mem1 mem2 : Mem) :
    ∀ (format : List Char) (start : Nat) (dd : Dbl),
      (∀ i, start ≤ i → i < start + formatWidth format → mem1 i = mem2 i) →
      decode_buf isLittleEndian mem1 start format dd
        = decode_buf isLittleEndian mem2 start format dd := by
  intro format
  induction format with
  | nil => intro start dd _; simp [decode_buf]
  | cons c format ih =>
    intro start dd h
    cases hc : fieldSize c with
    | none => simp [decode_buf, decodeField, hc]
    | some size =>
      rw [formatWidth_cons, hc, Option.getD_some] at h
      have hp : peek mem1 start size = peek mem2 start size :=
        peek_congr mem1 mem2 start size (fun i h1 h2 => h i h1 (by omega))
      rw [decode_buf_cons isLittleEndian mem1 start c format dd size hc,
        decode_buf_cons isLittleEndian mem2 start c format dd size hc, hp,
        ih (start + size) _ (fun i h1 h2 => h i (by omega) (by omega))]

theorem memFrom_lt (bs : List Byte) (junk : Mem) (i : Nat) (h : i < bs.length) :
    memFrom bs junk i = memOf bs i := by
  simp [memFrom, memOf, List.getD, List.getElem?_eq_getElem h]

theorem arrayLength_congr (isLittleEndian : Bool) (secno : Nat) (mem1 mem2 : Mem)
    (h : peek mem1 0 4 = peek mem2 0 4) :
    arrayLength isLittleEndian secno mem1 = arrayLength isLittleEndian secno mem2 := by
  simp only [arrayLength, h]

theorem read_section_X_buffer (isLittleEndian : Bool) (fp : List Byte) (fr : Framed)
    (hfr : read_section_X isLittleEndian fp = .ok fr) (hs : fr.secno ≠ 8) :
    5 ≤ fr.buffer.length := by
  simp only [read_section_X] at hfr
  split at hfr
  · cases hfr
  · split at hfr
    · cases hfr
      exact absurd rfl hs
    · split at hfr
      · split at hfr <;> cases hfr
      · split at hfr
        · cases hfr
        · split at hfr
          · cases hfr
          · rename_i s hsome
            cases hfr
            have := (List.getElem?_eq_some_iff.mp hsome).1
            exact this

theorem decode_section_congr (isLittleEndian : Bool) (secno : Nat) (mem1 mem2 : Mem)
    (dd0 dd1 : Dbl) (h4 : ∀ i, i < 4 → mem1 i = mem2 i)
    (h : ∀ i, i < sectionWidth secno mem1 → mem1 i = mem2 i) :
    decode_section isLittleEndian secno mem1 dd0 dd1
      = decode_section isLittleEndian secno mem2 dd0 dd1 := by
  have hlen : arrayLength isLittleEndian secno mem1 = arrayLength isLittleEndian secno mem2 :=
    arrayLength_congr isLittleEndian secno mem1 mem2
      (peek_congr mem1 mem2 0 4 (fun i _ hi => h4 i (by omega)))
  by_cases h345 : 3 ≤ secno ∧ secno ≤ 5
  · obtain ⟨k, hk⟩ : ∃ k, (secno = 3 ∧ k = 12) ∨ (secno = 4 ∧ k = 7) ∨ (secno = 5 ∧ k = 9) := by
      obtain ⟨h3, h5⟩ := h345
      interval_cases secno
      · exact ⟨12, Or.inl ⟨rfl, rfl⟩⟩
      · exact ⟨7, Or.inr (Or.inl ⟨rfl, rfl⟩)⟩
      · exact ⟨9, Or.inr (Or.inr ⟨rfl, rfl⟩)⟩
    obtain ⟨vs1, hd1, hw, -, -, he1⟩ := decode_section_345 isLittleEndian secno k mem1 dd0 dd1 hk
    obtain ⟨vs2, hd2, -, -, -, he2⟩ := decode_section_345 isLittleEndian secno k mem2 dd0 dd1 hk
    have hwidth : sectionWidth secno mem1
        = match findTemplate (secno : Int)
            ((256 * (mem1 k).val + (mem1 (k + 1)).val : Nat) : Int) templateFormat with
          | some tfp => k + 2 + formatWidth tfp.format
          | none => k + 2 := by
      unfold sectionWidth
      simp only [if_pos h345, hw]
      rfl
    have hge : k + 2 ≤ sectionWidth secno mem1 := by
      rw [hwidth]
      cases findTemplate (secno : Int)
          ((256 * (mem1 k).val + (mem1 (k + 1)).val : Nat) : Int) templateFormat with
      | none => exact le_rfl
      | some tfp => exact Nat.le_add_right _ _
    have hfix : decode_buf isLittleEndian mem1 0 (sectionFormat.getD secno []) dd0
        = decode_buf isLittleEndian mem2 0 (sectionFormat.getD secno []) dd0 :=
      decode_buf_congr isLittleEndian mem1 mem2 _ 0 dd0
        (fun i _ hi => h i (by rw [hw] at hi; omega))
    have hvs : vs1 = vs2 := by
      rw [hfix, hd2] at hd1
      cases hd1
      rfl
    subst hvs
    have hk0 : mem1 k = mem2 k := h k (by omega)
    have hk1 : mem1 (k + 1) = mem2 (k + 1) := h (k + 1) (by omega)
    rw [he1, he2, hlen, ← hk0, ← hk1]
    cases hft : findTemplate (secno : Int)
        ((256 * (mem1 k).val + (mem1 (k + 1)).val : Nat) : Int) templateFormat with
    | none => rfl
    | some tfp =>
      rw [hft] at hwidth
      simp only at hwidth
      have htpl : decode_buf isLittleEndian mem1 (k + 2) tfp.format dd1
          = decode_buf isLittleEndian mem2 (k + 2) tfp.format dd1 :=
        decode_buf_congr isLittleEndian mem1 mem2 _ (k + 2) dd1
          (fun i _ hi => h i (by rw [hwidth]; exact hi))
      simp only [htpl]
  · have hwidth : sectionWidth secno mem1 = formatWidth (sectionFormat.getD secno []) := by
      unfold sectionWidth
      simp only [if_neg h345]
    unfold decode_section
    cases hfmt : sectionFormat[secno]? with
    | none => rfl
    | some format =>
      have hget : sectionFormat.getD secno [] = format := by
        simp [List.getD, hfmt]
      rw [hget] at hwidth
      have hfix : decode_buf isLittleEndian mem1 0 format dd0
          = decode_buf isLittleEndian mem2 0 format dd0 :=
        decode_buf_congr isLittleEndian mem1 mem2 _ 0 dd0
          (fun i _ hi => h i (by rw [hwidth]; omega))
      simp only [hfix, hlen, if_neg h345]

/-- C17 (amended): for every section buffer that `read_section_X` returns
(sections 1-7, declared length L = length of the buffer) such that the total
byte width of the section's fixed-prefix descriptor plus, for sections 3-5,
the matched template's descriptor does not exceed L, `decode_section` reads
only buffer offsets below L: its outcome is the same whatever bytes the memory
holds after the buffer. -/
theorem decode_section_within (isLittleEndian : Bool) (fp : List Byte) (fr : Framed)
    (dd0 dd1 : Dbl) (junk1 junk2 : Mem)
    (hfr : read_section_X isLittleEndian fp = .ok fr)
    (hs : 1 ≤ fr.secno ∧ fr.secno ≤ 7)
    (hW : sectionWidth fr.secno (memOf fr.buffer) ≤ fr.buffer.length) :
    decode_section isLittleEndian fr.secno (memFrom fr.buffer junk1) dd0 dd1
      = decode_section isLittleEndian fr.secno (memFrom fr.buffer junk2) dd0 dd1 := by
  have h5 := read_section_X_buffer isLittleEndian fp fr hfr (by omega)
  have hto : ∀ junk : Mem, decode_section isLittleEndian fr.secno (memOf fr.buffer) dd0 dd1
      = decode_section isLittleEndian fr.secno (memFrom fr.buffer junk) dd0 dd1 := by
    intro junk
    apply decode_section_congr
    · intro i hi
      exact (memFrom_lt fr.buffer junk i (by omega)).symm
    · intro i hi
      exact (memFrom_lt fr.buffer junk i (by omega)).symm
  rw [← hto junk1, ← hto junk2]

/-- C17, witness: the 21-byte section 5 with template 5.0, of total width
11 + 10 = 21. -/
theorem decode_section_within_witness :
    read_section_X true [0, 0, 0, 21, 5, 0, 0, 0, 4, 0, 0, 0, 0, 0, 0, 0, 0, 0, 0, 8, 0]
        = .ok ⟨5, [0, 0, 0, 21, 5, 0, 0, 0, 4, 0, 0, 0, 0, 0, 0, 0, 0, 0, 0, 8, 0], []⟩
      ∧ sectionWidth 5 (memOf [0, 0, 0, 21, 5, 0, 0, 0, 4, 0, 0, 0, 0, 0, 0, 0, 0, 0, 0, 8, 0])
        = 21
      ∧ decode_section true 5
          (memFrom [0, 0, 0, 21, 5, 0, 0, 0, 4, 0, 0, 0, 0, 0, 0, 0, 0, 0, 0, 8, 0]
            (fun _ => 0)) (.int 0) (.int 0)
        = decode_section true 5
          (memFrom [0, 0, 0, 21, 5, 0, 0, 0, 4, 0, 0, 0, 0, 0, 0, 0, 0, 0, 0, 8, 0]
            (fun _ => 255)) (.int 0) (.int 0) :=
  ⟨by decide, by decide,
    decode_section_within true [0, 0, 0, 21, 5, 0, 0, 0, 4, 0, 0, 0, 0, 0, 0, 0, 0, 0, 0, 8, 0]
      ⟨5, [0, 0, 0, 21, 5, 0, 0, 0, 4, 0, 0, 0, 0, 0, 0, 0, 0, 0, 0, 8, 0], []⟩
      (.int 0) (.int 0) (fun _ => 0) (fun _ => 255) (by decide) (by decide) (by decide)⟩

/-- C17, counterexample: the stream 00 00 00 05 06 is returned by
`read_section_X` as a section 6 of declared length 5; the descriptor `4uu` of
section 6 is 6 bytes wide, and `decode_section` reads offset 5, past the
buffer: its third value is the byte that follows the buffer in memory. -/
theorem decode_section_reads_past :
    read_section_X true [0, 0, 0, 5, 6] = .ok ⟨6, [0, 0, 0, 5, 6], []⟩
      ∧ sectionWidth 6 (memOf [0, 0, 0, 5, 6]) = 6
      ∧ decode_section true 6 (memFrom [0, 0, 0, 5, 6] (fun _ => 0)) (.int 0) (.int 0)
        = .ok [.int 5, .int 6, .int 0]
      ∧ decode_section true 6 (memFrom [0, 0, 0, 5, 6] (fun _ => 255)) (.int 0) (.int 0)
        = .ok [.int 5, .int 6, .int 255] := by
  decide

/-! ## C14, C15: the section loop of `main` -/

theorem sectionLoop_next {F : Type} (A : FloatOps F) (h : Host) (datakind tgt_kind : Int)
    (fuel n : Nat) (fp : List Byte) (st st1 : Session F) (fr : Framed)
    (hfr : read_section_X h.isLittleEndian fp = .ok fr) (h0 : fr.secno ≠ 0) (h8 : fr.secno ≠ 8)
    (hstep : sectionStep A h datakind tgt_kind n fr st = .ok st1) :
    sectionLoop A h datakind tgt_kind (fuel + 1) n fp st
      = sectionLoop A h datakind tgt_kind fuel (n + 1) fr.rest st1 := by
  simp only [sectionLoop, hfr, if_neg h0, hstep, if_neg h8]

theorem sectionLoop_last {F : Type} (A : FloatOps F) (h : Host) (datakind tgt_kind : Int)
    (fuel n : Nat) (fp : List Byte) (st st1 : Session F) (fr : Framed)
    (hfr : read_section_X h.isLittleEndian fp = .ok fr) (h8 : fr.secno = 8)
    (hstep : sectionStep A h datakind tgt_kind n fr st = .ok st1) :
    sectionLoop A h datakind tgt_kind (fuel + 1) n fp st = .ok st1 := by
  have h0 : fr.secno ≠ 0 := by omega
  simp only [sectionLoop, hfr, if_neg h0, hstep, if_pos h8]

theorem sectionStep_plain {F : Type} (A : FloatOps F) (h : Host) (datakind tgt_kind : Int)
    (n : Nat) (fr : Framed) (st : Session F) (values : List Dbl)
    (hdec : decode_section h.isLittleEndian fr.secno (memFrom fr.buffer (h.junk n))
      (h.dd0 n) (h.dd1 n) = .ok values)
    (h6 : fr.secno ≠ 6) (h7 : fr.secno ≠ 7) :
    sectionStep A h datakind tgt_kind n fr st
      = .ok { st with sec_double_value := st.sec_double_value.set fr.secno (some values) } := by
  by_cases h8 : fr.secno = 8
  · simp only [sectionStep, hdec, if_pos h8]
  · simp only [sectionStep, hdec, if_neg h8, bitmapStep, if_neg h6, if_neg h7]

theorem read_section_X_rest (isLittleEndian : Bool) (fp : List Byte) (fr : Framed)
    (hfr : read_section_X isLittleEndian fp = .ok fr) : fr.rest.length < fp.length := by
  simp only [read_section_X] at hfr
  split at hfr
  · cases hfr
  · rename_i hlen
    split at hfr
    · cases hfr
      simp only [List.length_drop]
      omega
    · split at hfr
      · split at hfr <;> cases hfr
      · split at hfr
        · cases hfr
        · split at hfr
          · cases hfr
          · cases hfr
            simp only [List.length_drop]
            omega

theorem sectionStep_data {F : Type} (A : FloatOps F) (h : Host) (datakind tgt_kind : Int)
    (n : Nat) (fr : Framed) (st : Session F) (v3 v4 v5 values : List Dbl)
    (tempno4 paramc paramn fixedk cremdl prodfld : Int) (date : List Int) (out : List F)
    (h7 : fr.secno = 7)
    (hdec : decode_section h.isLittleEndian 7 (memFrom fr.buffer (h.junk n))
      (h.dd0 n) (h.dd1 n) = .ok values)
    (hs3 : st.sec_double_value.getD 3 none = some v3)
    (hs4 : st.sec_double_value.getD 4 none = some v4)
    (hs5 : st.sec_double_value.getD 5 none = some v5)
    (hlen : st.sec_double_value.length = 9)
    (h43 : (v4[3]?).bind Dbl.toInt = some tempno4)
    (h44 : (v4[4]?).bind Dbl.toInt = some paramc)
    (h45 : (v4[5]?).bind Dbl.toInt = some paramn)
    (h413 : (v4[13]?).bind Dbl.toInt = some fixedk)
    (h47 : (v4[7]?).bind Dbl.toInt = some cremdl)
    (htarget : targetOf datakind tgt_kind tempno4 paramc paramn fixedk cremdl = (1, prodfld))
    (hdate : dateOf st.sec_double_value = some date)
    (hunpack : unpack_data A h.isLittleEndian (memFrom fr.buffer (h.junk n)) v5 = some out) :
    sectionStep A h datakind tgt_kind n fr st
      = .ok { sec_double_value := st.sec_double_value.set 7 (some values)
              bitmap_data := st.bitmap_data
              unpacked_data := some out
              saved := st.saved ++ [
                { values_3 := some v3, values_4 := some v4, values_5 := some v5
                  bitmap_data := st.bitmap_data, unpacked_data := out, date := date
                  prodfld := prodfld, datakind := datakind }] } := by
  obtain ⟨slots, bitmap_data, unpacked_data, saved⟩ := st
  simp only at hs3 hs4 hs5 hlen hdate
  have g : ∀ s, s ≠ 7 → (slots.set 7 (some values)).getD s none = slots.getD s none := by
    intro s hs
    simp only [List.getD_eq_getElem?_getD, List.getElem?_set]
    rw [if_neg (by omega)]
  have i4 : ∀ i, intAt (slots.set 7 (some values)) 4 i = (v4[i]?).bind Dbl.toInt := by
    intro i
    simp only [intAt, g 4 (by decide), hs4]
  have i1 : ∀ i, intAt (slots.set 7 (some values)) 1 i = intAt slots 1 i := by
    intro i
    simp only [intAt, g 1 (by decide)]
  have hd : dateOf (slots.set 7 (some values)) = some date := by
    rw [← hdate]
    simp only [dateOf, i1]
  have h8 : ¬ fr.secno = 8 := by omega
  have h6 : ¬ fr.secno = 6 := by omega
  have ht1 : (targetOf datakind tgt_kind tempno4 paramc paramn fixedk cremdl).1 = 1 := by
    rw [htarget]
  have ht2 : (targetOf datakind tgt_kind tempno4 paramc paramn fixedk cremdl).2 = prodfld := by
    rw [htarget]
  simp only [sectionStep, h7, hdec, bitmapStep, dataStep, i4, h43, h44, h45, h413, h47, ht1, ht2,
    g 5 (by decide), g 3 (by decide), g 4 (by decide), hs3, hs4, hs5, hunpack, hd]
  simp

theorem sectionStep_skip {F : Type} (A : FloatOps F) (h : Host) (datakind tgt_kind : Int)
    (n : Nat) (fr : Framed) (st : Session F) (v4 values : List Dbl)
    (tempno4 paramc paramn fixedk cremdl : Int)
    (h7 : fr.secno = 7)
    (hdec : decode_section h.isLittleEndian 7 (memFrom fr.buffer (h.junk n))
      (h.dd0 n) (h.dd1 n) = .ok values)
    (hs4 : st.sec_double_value.getD 4 none = some v4)
    (hlen : st.sec_double_value.length = 9)
    (h43 : (v4[3]?).bind Dbl.toInt = some tempno4)
    (h44 : (v4[4]?).bind Dbl.toInt = some paramc)
    (h45 : (v4[5]?).bind Dbl.toInt = some paramn)
    (h413 : (v4[13]?).bind Dbl.toInt = some fixedk)
    (h47 : (v4[7]?).bind Dbl.toInt = some cremdl)
    (hnt : (targetOf datakind tgt_kind tempno4 paramc paramn fixedk cremdl).1 ≠ 1) :
    sectionStep A h datakind tgt_kind n fr st
      = .ok { st with sec_double_value := st.sec_double_value.set 7 (some values) } := by
  obtain ⟨slots, bitmap_data, unpacked_data, saved⟩ := st
  simp only at hs4 hlen
  have g : ∀ s, s ≠ 7 → (slots.set 7 (some values)).getD s none = slots.getD s none := by
    intro s hs
    simp only [List.getD_eq_getElem?_getD, List.getElem?_set]
    rw [if_neg (by omega)]
  have i4 : ∀ i, intAt (slots.set 7 (some values)) 4 i = (v4[i]?).bind Dbl.toInt := by
    intro i
    simp only [intAt, g 4 (by decide), hs4]
  have h8 : ¬ fr.secno = 8 := by omega
  have h6 : ¬ fr.secno = 6 := by omega
  simp only [sectionStep, h7, hdec, bitmapStep, dataStep, i4, h43, h44, h45, h413, h47,
    if_neg hnt]
  simp

theorem main_run {F : Type} (A : FloatOps F) (h : Host) (datakind tgt_kind : Int)
    (fp b0 b1 b3 b4 b5 b7 b8 r0 r1 r3 r4 r5 r7 r8 : List Byte)
    (v0 v1 v3 v4 v5 v8 : List Dbl) (st7 : Session F)
    (hf0 : read_section_0 fp = .ok ⟨0, b0, r0⟩)
    (hf1 : read_section_X h.isLittleEndian r0 = .ok ⟨1, b1, r1⟩)
    (hf3 : read_section_X h.isLittleEndian r1 = .ok ⟨3, b3, r3⟩)
    (hf4 : read_section_X h.isLittleEndian r3 = .ok ⟨4, b4, r4⟩)
    (hf5 : read_section_X h.isLittleEndian r4 = .ok ⟨5, b5, r5⟩)
    (hf7 : read_section_X h.isLittleEndian r5 = .ok ⟨7, b7, r7⟩)
    (hf8 : read_section_X h.isLittleEndian r7 = .ok ⟨8, b8, r8⟩)
    (hd0 : decode_section h.isLittleEndian 0 (memFrom b0 (h.junk 0)) (h.dd0 0) (h.dd1 0)
      = .ok v0)
    (hd1 : decode_section h.isLittleEndian 1 (memFrom b1 (h.junk 1)) (h.dd0 1) (h.dd1 1)
      = .ok v1)
    (hd3 : decode_section h.isLittleEndian 3 (memFrom b3 (h.junk 2)) (h.dd0 2) (h.dd1 2)
      = .ok v3)
    (hd4 : decode_section h.isLittleEndian 4 (memFrom b4 (h.junk 3)) (h.dd0 3) (h.dd1 3)
      = .ok v4)
    (hd5 : decode_section h.isLittleEndian 5 (memFrom b5 (h.junk 4)) (h.dd0 4) (h.dd1 4)
      = .ok v5)
    (hd8 : decode_section h.isLittleEndian 8 (memFrom b8 (h.junk 6)) (h.dd0 6) (h.dd1 6)
      = .ok v8)
    (hstep : sectionStep A h datakind (defaultKind datakind tgt_kind) 5 ⟨7, b7, r7⟩
      ⟨[some v0, some v1, none, some v3, some v4, some v5, none, none, none], none, none, []⟩
        = .ok st7) :
    main A h datakind tgt_kind fp
      = .ok { st7 with sec_double_value := st7.sec_double_value.set 8 (some v8) } := by
  have l1 := read_section_X_rest _ _ _ hf1
  have l3 := read_section_X_rest _ _ _ hf3
  have l4 := read_section_X_rest _ _ _ hf4
  have l5 := read_section_X_rest _ _ _ hf5
  have l7 := read_section_X_rest _ _ _ hf7
  have l8 := read_section_X_rest _ _ _ hf8
  simp only at l1 l3 l4 l5 l7 l8
  obtain ⟨m, hm⟩ : ∃ m, r0.length + 1 = m + 1 + 1 + 1 + 1 + 1 + 1 := ⟨r0.length - 5, by omega⟩
  simp only [main, hf0, hd0, hm]
  refine (sectionLoop_next A h datakind _ _ 1 r0
    ⟨[some v0, none, none, none, none, none, none, none, none], none, none, []⟩ _ ⟨1, b1, r1⟩
    hf1 (by simp) (by simp)
    (sectionStep_plain A h datakind _ 1 ⟨1, b1, r1⟩ _ v1 hd1 (by simp) (by simp))).trans ?_
  refine (sectionLoop_next A h datakind _ _ 2 r1
    ⟨[some v0, some v1, none, none, none, none, none, none, none], none, none, []⟩ _
    ⟨3, b3, r3⟩ hf3 (by simp) (by simp)
    (sectionStep_plain A h datakind _ 2 ⟨3, b3, r3⟩ _ v3 hd3 (by simp) (by simp))).trans ?_
  refine (sectionLoop_next A h datakind _ _ 3 r3
    ⟨[some v0, some v1, none, some v3, none, none, none, none, none], none, none, []⟩ _
    ⟨4, b4, r4⟩ hf4 (by simp) (by simp)
    (sectionStep_plain A h datakind _ 3 ⟨4, b4, r4⟩ _ v4 hd4 (by simp) (by simp))).trans ?_
  refine (sectionLoop_next A h datakind _ _ 4 r4
    ⟨[some v0, some v1, none, some v3, some v4, none, none, none, none], none, none, []⟩ _
    ⟨5, b5, r5⟩ hf5 (by simp) (by simp)
    (sectionStep_plain A h datakind _ 4 ⟨5, b5, r5⟩ _ v5 hd5 (by simp) (by simp))).trans ?_
  refine (sectionLoop_next A h datakind _ _ 5 r5
    ⟨[some v0, some v1, none, some v3, some v4, some v5, none, none, none], none, none, []⟩
    st7 ⟨7, b7, r7⟩ hf7 (by simp) (by simp) hstep).trans ?_
  exact sectionLoop_last A h datakind _ _ 6 r7 _ _ ⟨8, b8, r8⟩ hf8 rfl
    (sectionStep_plain A h datakind _ 6 ⟨8, b8, r8⟩ _ v8 hd8 (by simp) (by simp))

theorem targetOf_rule (datakind tgt_kind tempno4 paramc paramn fixedk cremdl : Int)
    (kind category number : Int)
    (hkind : kind = if tgt_kind = 0 then (if datakind = 2 ∨ datakind = 3 then 152 else 18)
      else tgt_kind)
    (hcat : category = if kind < 100 then Int.tdiv kind 10 else Int.tdiv kind 100)
    (hnum : number = if kind < 100 then Int.tmod kind 10 else Int.tmod kind 100) :
    targetOf datakind (defaultKind datakind tgt_kind) tempno4 paramc paramn fixedk cremdl
      = if datakind < 100 then
          (if paramc = category ∧ paramn = number ∧ tempno4 ≠ 9 then 1 else 0, 0)
        else if datakind = 100 then
          (if fixedk = 1 ∧ paramc = 3 ∧ (paramn = 1 ∨ paramn = 200)
              ∧ (cremdl = 225 ∨ cremdl = 226) then 1 else 0, 10)
        else (0, 0) := by
  have hk : defaultKind datakind tgt_kind = kind := by
    rw [hkind]
    unfold defaultKind
    by_cases h0 : tgt_kind = 0
    · by_cases h23 : datakind = 2 ∨ datakind = 3
      · rw [if_pos ⟨h0, h23⟩, if_pos h0, if_pos h23]
      · rw [if_neg (fun hh => h23 hh.2), if_pos h0, if_pos h0, if_neg h23]
    · rw [if_neg (fun hh => h0 hh.1), if_neg h0, if_neg h0]
  unfold targetOf
  rw [hk, ← hcat, ← hnum]
  by_cases hd : datakind < 100
  · rw [if_pos hd, if_pos hd]
    by_cases h9 : tempno4 = 9
    · have hno : ¬ (paramc = category ∧ paramn = number ∧ tempno4 ≠ 9) :=
        fun hh => hh.2.2 h9
      simp only [if_pos h9, if_neg hno]
    · by_cases hp : paramc = category ∧ paramn = number
      · have hyes : paramc = category ∧ paramn = number ∧ tempno4 ≠ 9 := ⟨hp.1, hp.2, h9⟩
        simp only [if_neg h9, if_pos hp, if_pos hyes]
      · have hno : ¬ (paramc = category ∧ paramn = number ∧ tempno4 ≠ 9) :=
          fun hh => hp ⟨hh.1, hh.2.1⟩
        simp only [if_neg h9, if_neg hp, if_neg hno]
  · rw [if_neg hd, if_neg hd]

/-- C14 (amended): for every message whose sections 0, 1, 3, 4, 5, 7, 8, in
that order (no section 6), are framed by `read_section_0` / `read_section_X`
and decoded by `decode_section`, with `kind` the value of `tgt_kind` (152 by
default for `datakind` 2 or 3, 18 by default otherwise) and `category`,
`number` its two parts (tens and units below 100, hundreds and rest from 100):
if the product is selected (for `datakind` below 100: parameter category and
number of section 4 equal to `category`, `number`, product template not 9;
for `datakind` 100: fixed surface 1, category 3, number 1 or 200, model 225
or 226) and `unpack_data` yields `out` for section 7 and the section-5 values,
the session run by `main` returns normally and calls `save_file` once, with
`out` and a `NULL` presence bitmap; if the product is not selected the session
returns normally without unpacking and without calling `save_file`. -/
theorem main_unpacks {F : Type} (A : FloatOps F) (h : Host) (datakind tgt_kind : Int)
    (fp b0 b1 b3 b4 b5 b7 b8 r0 r1 r3 r4 r5 r7 r8 : List Byte)
    (v0 v1 v3 v4 v5 v7 v8 : List Dbl)
    (tempno4 paramc paramn fixedk cremdl kind category number : Int)
    (hf0 : read_section_0 fp = .ok ⟨0, b0, r0⟩)
    (hf1 : read_section_X h.isLittleEndian r0 = .ok ⟨1, b1, r1⟩)
    (hf3 : read_section_X h.isLittleEndian r1 = .ok ⟨3, b3, r3⟩)
    (hf4 : read_section_X h.isLittleEndian r3 = .ok ⟨4, b4, r4⟩)
    (hf5 : read_section_X h.isLittleEndian r4 = .ok ⟨5, b5, r5⟩)
    (hf7 : read_section_X h.isLittleEndian r5 = .ok ⟨7, b7, r7⟩)
    (hf8 : read_section_X h.isLittleEndian r7 = .ok ⟨8, b8, r8⟩)
    (hd0 : decode_section h.isLittleEndian 0 (memFrom b0 (h.junk 0)) (h.dd0 0) (h.dd1 0)
      = .ok v0)
    (hd1 : decode_section h.isLittleEndian 1 (memFrom b1 (h.junk 1)) (h.dd0 1) (h.dd1 1)
      = .ok v1)
    (hd3 : decode_section h.isLittleEndian 3 (memFrom b3 (h.junk 2)) (h.dd0 2) (h.dd1 2)
      = .ok v3)
    (hd4 : decode_section h.isLittleEndian 4 (memFrom b4 (h.junk 3)) (h.dd0 3) (h.dd1 3)
      = .ok v4)
    (hd5 : decode_section h.isLittleEndian 5 (memFrom b5 (h.junk 4)) (h.dd0 4) (h.dd1 4)
      = .ok v5)
    (hd7 : decode_section h.isLittleEndian 7 (memFrom b7 (h.junk 5)) (h.dd0 5) (h.dd1 5)
      = .ok v7)
    (hd8 : decode_section h.isLittleEndian 8 (memFrom b8 (h.junk 6)) (h.dd0 6) (h.dd1 6)
      = .ok v8)
    (h43 : (v4[3]?).bind Dbl.toInt = some tempno4)
    (h44 : (v4[4]?).bind Dbl.toInt = some paramc)
    (h45 : (v4[5]?).bind Dbl.toInt = some paramn)
    (h413 : (v4[13]?).bind Dbl.toInt = some fixedk)
    (h47 : (v4[7]?).bind Dbl.toInt = some cremdl)
    (hkind : kind = if tgt_kind = 0 then (if datakind = 2 ∨ datakind = 3 then 152 else 18)
      else tgt_kind)
    (hcat : category = if kind < 100 then Int.tdiv kind 10 else Int.tdiv kind 100)
    (hnum : number = if kind < 100 then Int.tmod kind 10 else Int.tmod kind 100) :
    (∀ (date : List Int) (out : List F) (prodfld : Int),
        ((datakind < 100 ∧ paramc = category ∧ paramn = number ∧ tempno4 ≠ 9 ∧ prodfld = 0)
          ∨ (datakind = 100 ∧ fixedk = 1 ∧ paramc = 3 ∧ (paramn = 1 ∨ paramn = 200)
              ∧ (cremdl = 225 ∨ cremdl = 226) ∧ prodfld = 10)) →
        dateOf [some v0, some v1] = some date →
        unpack_data A h.isLittleEndian (memFrom b7 (h.junk 5)) v5 = some out →
        main A h datakind tgt_kind fp
          = .ok { sec_double_value :=
                    [some v0, some v1, none, some v3, some v4, some v5, none, some v7, some v8]
                  bitmap_data := none
                  unpacked_data := some out
                  saved := [
                    { values_3 := some v3, values_4 := some v4, values_5 := some v5
                      bitmap_data := none, unpacked_data := out, date := date
                      prodfld := prodfld, datakind := datakind }] })
      ∧ (¬ (datakind < 100 ∧ paramc = category ∧ paramn = number ∧ tempno4 ≠ 9) →
          ¬ (datakind = 100 ∧ fixedk = 1 ∧ paramc = 3 ∧ (paramn = 1 ∨ paramn = 200)
              ∧ (cremdl = 225 ∨ cremdl = 226)) →
          main A h datakind tgt_kind fp
            = .ok { sec_double_value :=
                      [some v0, some v1, none, some v3, some v4, some v5, none, some v7,
                        some v8]
                    bitmap_data := none
                    unpacked_data := none
                    saved := [] }) := by
  have hrule := targetOf_rule datakind tgt_kind tempno4 paramc paramn fixedk cremdl kind
    category number hkind hcat hnum
  constructor
  · intro date out prodfld hsel hdate hunpack
    have htarget : targetOf datakind (defaultKind datakind tgt_kind) tempno4 paramc paramn
        fixedk cremdl = (1, prodfld) := by
      rw [hrule]
      rcases hsel with ⟨hd, hc, hn, h9, hp⟩ | ⟨hd, hfx, hc, hn, hm, hp⟩
      · rw [if_pos hd, if_pos ⟨hc, hn, h9⟩, hp]
      · have hnd : ¬ datakind < 100 := by omega
        rw [if_neg hnd, if_pos hd, if_pos ⟨hfx, hc, hn, hm⟩, hp]
    have hdate' : dateOf [some v0, some v1, none, some v3, some v4, some v5, none, none, none]
        = some date := by
      rw [← hdate]
      rfl
    exact main_run A h datakind tgt_kind fp b0 b1 b3 b4 b5 b7 b8 r0 r1 r3 r4 r5 r7 r8
      v0 v1 v3 v4 v5 v8 _ hf0 hf1 hf3 hf4 hf5 hf7 hf8 hd0 hd1 hd3 hd4 hd5 hd8
      (sectionStep_data A h datakind _ 5 ⟨7, b7, r7⟩
        ⟨[some v0, some v1, none, some v3, some v4, some v5, none, none, none], none, none, []⟩
        v3 v4 v5 v7 tempno4 paramc paramn fixedk cremdl prodfld date out rfl hd7 rfl rfl rfl
        rfl h43 h44 h45 h413 h47 htarget hdate' hunpack)
  · intro hn1 hn2
    have hnt : (targetOf datakind (defaultKind datakind tgt_kind) tempno4 paramc paramn
        fixedk cremdl).1 ≠ 1 := by
      rw [hrule]
      by_cases hd : datakind < 100
      · have hno : ¬ (paramc = category ∧ paramn = number ∧ tempno4 ≠ 9) :=
          fun hh => hn1 ⟨hd, hh⟩
        rw [if_pos hd, if_neg hno]
        decide
      · rw [if_neg hd]
        by_cases h100 : datakind = 100
        · have hno : ¬ (fixedk = 1 ∧ paramc = 3 ∧ (paramn = 1 ∨ paramn = 200)
              ∧ (cremdl = 225 ∨ cremdl = 226)) := fun hh => hn2 ⟨h100, hh⟩
          rw [if_pos h100, if_neg hno]
          decide
        · rw [if_neg h100]
          decide
    exact main_run A h datakind tgt_kind fp b0 b1 b3 b4 b5 b7 b8 r0 r1 r3 r4 r5 r7 r8
      v0 v1 v3 v4 v5 v8 _ hf0 hf1 hf3 hf4 hf5 hf7 hf8 hd0 hd1 hd3 hd4 hd5 hd8
      (sectionStep_skip A h datakind _ 5 ⟨7, b7, r7⟩
        ⟨[some v0, some v1, none, some v3, some v4, some v5, none, none, none], none, none, []⟩
        v4 v7 tempno4 paramc paramn fixedk cremdl rfl hd7 rfl rfl h43 h44 h45 h413 h47 hnt)

theorem unpack_data_sample_exact (isLittleEndian : Bool) (junk : Mem) :
    unpack_data exactOps isLittleEndian (memFrom [0, 0, 0, 9, 7, 1, 2, 3, 4] junk)
        [.int 21, .int 5, .int 4, .int 0, .single 0, .int 0, .int 0, .int 8, .int 0]
      = some [1, 2, 3, 4] := by
  rw [unpack_data_eq exactOps isLittleEndian (memFrom [0, 0, 0, 9, 7, 1, 2, 3, 4] junk)
    [.int 21, .int 5, .int 4, .int 0, .single 0, .int 0, .int 0, .int 8, .int 0]
    4 8 (.single 0) (.int 0) (.int 0) rfl rfl rfl rfl rfl
    (by decide) (by decide) (by decide) (by decide)]
  have e0 : bitField (memFrom [0, 0, 0, 9, 7, 1, 2, 3, 4] junk) (8 * 5 + 0 * 8) 8 = 1 :=
    bitField_byte (memFrom [0, 0, 0, 9, 7, 1, 2, 3, 4] junk) 5
  have e1 : bitField (memFrom [0, 0, 0, 9, 7, 1, 2, 3, 4] junk) (8 * 5 + 1 * 8) 8 = 2 :=
    bitField_byte (memFrom [0, 0, 0, 9, 7, 1, 2, 3, 4] junk) 6
  have e2 : bitField (memFrom [0, 0, 0, 9, 7, 1, 2, 3, 4] junk) (8 * 5 + 2 * 8) 8 = 3 :=
    bitField_byte (memFrom [0, 0, 0, 9, 7, 1, 2, 3, 4] junk) 7
  have e3 : bitField (memFrom [0, 0, 0, 9, 7, 1, 2, 3, 4] junk) (8 * 5 + 3 * 8) 8 = 4 :=
    bitField_byte (memFrom [0, 0, 0, 9, 7, 1, 2, 3, 4] junk) 8
  have hr : List.range 4 = [0, 1, 2, 3] := rfl
  rw [hr]
  simp only [List.map_cons, List.map_nil, e0, e1, e2, e3, scaled_exact_unit]
  norm_num

set_option maxRecDepth 1000000 in
/-- C14, witness: the minimal message of the specification (sections 0, 1, 3,
4, 5, 7, 8; a 2 x 2 grid with nbits = 8, R = 0, E = 0, D = 0 and packed bytes
1, 2, 3, 4) for parameter category 1 and number 8, the product selected for
`datakind` 0 when no `tgt_kind` is given (kind 18): the session calls
`save_file` once, with the values 1, 2, 3, 4 and a `NULL` bitmap. -/
theorem main_unpacks_witness :
    ∃ st, main exactOps sampleHost 0 0 (sampleMessage 1 8) = .ok st
      ∧ st.bitmap_data = none
      ∧ st.unpacked_data = some [1, 2, 3, 4]
      ∧ st.saved.map (fun call => (call.bitmap_data, call.unpacked_data, call.date))
        = [(none, [1, 2, 3, 4], [2019, 2, 15, 0, 0, 0])] :=
  ⟨_, (main_unpacks exactOps sampleHost 0 0 (sampleMessage 1 8)
    (sampleSection0 177) sampleSection1 sampleSection3 (sampleSection4 1 8) (sampleSection5 4)
    [0, 0, 0, 9, 7, 1, 2, 3, 4] magic7777
    (sampleSection1 ++ sampleSection3 ++ sampleSection4 1 8 ++ sampleSection5 4
      ++ [0, 0, 0, 9, 7, 1, 2, 3, 4] ++ magic7777)
    (sampleSection3 ++ sampleSection4 1 8 ++ sampleSection5 4
      ++ [0, 0, 0, 9, 7, 1, 2, 3, 4] ++ magic7777)
    (sampleSection4 1 8 ++ sampleSection5 4 ++ [0, 0, 0, 9, 7, 1, 2, 3, 4] ++ magic7777)
    (sampleSection5 4 ++ [0, 0, 0, 9, 7, 1, 2, 3, 4] ++ magic7777)
    ([0, 0, 0, 9, 7, 1, 2, 3, 4] ++ magic7777)
    magic7777 []
    [.chars 71 82 73 66 (.int 0), .int 0, .int 0, .int 2, .int 177]
    [.int 21, .int 1, .int 34, .int 0, .int 2, .int 1, .int 1, .int 2019, .int 2, .int 15,
      .int 0, .int 0, .int 0, .int 0, .int 1]
    [.int 72, .int 3, .int 0, .int 4, .int 0, .int 0, .int 0, .int 6, .int 255,
      .int (-2147483647), .int 255, .int (-2147483647), .int 255, .int (-2147483647), .int 2,
      .int 2, .int 0, .int (-2147483647), .int 20000000, .int 120000000, .int 48,
      .int 19000000, .int 121000000, .int 1000000, .int 1000000, .int 0]
    [.int 34, .int 4, .int 0, .int 0, .int 1, .int 8, .int 2, .int 0, .int 31, .int 0, .int 0,
      .int 1, .int 6, .int 1, .int 0, .int 0, .int 255, .int (-127), .int (-2147483647)]
    [.int 21, .int 5, .int 4, .int 0, .single 0, .int 0, .int 0, .int 8, .int 0]
    [.int 9, .int 7]
    [.chars 55 55 55 55 (.int 0)]
    0 1 8 1 0 18 1 8
    (by decide) (by decide) (by decide) (by decide) (by decide) (by decide) (by decide)
    (by decide) (by decide) (by decide) (by decide) (by decide) (by decide) (by decide)
    (by decide) (by decide) (by decide) (by decide) (by decide)
    (by decide) (by decide) (by decide)).1 [2019, 2, 15, 0, 0, 0] [1, 2, 3, 4] 0
      (Or.inl (by decide)) (by decide) (unpack_data_sample_exact true (fun _ => 0)),
    rfl, rfl, rfl⟩

set_option maxRecDepth 1000000 in
/-- C14, counterexample: the same minimal message for parameter category 0
and number 0, with `datakind` 0 and no `tgt_kind` (kind 18, so the selected
product is 1/8).  The session returns normally, `unpack_data` is never
called (`unpacked_data` stays `NULL`) and `save_file` is not called. -/
theorem main_skips_other_product :
    decode_section true 4 (memFrom (sampleSection4 0 0) (fun _ => 0)) (.int 0) (.int 0)
        = .ok [.int 34, .int 4, .int 0, .int 0, .int 0, .int 0, .int 2, .int 0, .int 31, .int 0,
            .int 0, .int 1, .int 6, .int 1, .int 0, .int 0, .int 255, .int (-127),
            .int (-2147483647)]
      ∧ targetOf 0 (defaultKind 0 0) 0 0 0 1 0 = (0, 0)
      ∧ savedBitmaps (main exactOps sampleHost 0 0 (sampleMessage 0 0)) = some []
      ∧ ∃ slots, main exactOps sampleHost 0 0 (sampleMessage 0 0)
          = .ok { sec_double_value := slots, bitmap_data := none, unpacked_data := none,
                  saved := [] } := by
  refine ⟨by decide, by decide, by decide, ?_⟩
  cases hrun : main exactOps sampleHost 0 0 (sampleMessage 0 0) with
  | ok st =>
    have h1 : (match Outcome.ok st with
        | .ok st => st.unpacked_data.isNone && st.bitmap_data.isNone && st.saved.isEmpty
        | _ => false) = true := by
      rw [← hrun]
      decide
    obtain ⟨slots, bitmap_data, unpacked_data, saved⟩ := st
    simp only [Bool.and_eq_true, Option.isNone_iff_eq_none, List.isEmpty_iff] at h1
    obtain ⟨⟨h2, h3⟩, h4⟩ := h1
    subst h2 h3 h4
    exact ⟨slots, rfl⟩
  | fatal e =>
    have : savedBitmaps (main exactOps sampleHost 0 0 (sampleMessage 0 0)) = some [] := by
      decide
    rw [hrun] at this
    cases this
  | undefined =>
    have : savedBitmaps (main exactOps sampleHost 0 0 (sampleMessage 0 0)) = some [] := by
      decide
    rw [hrun] at this
    cases this

theorem bitmapStep_other_flag (h : Host) (n : Nat) (sec_buffer : Mem)
    (sec_double_value : List (Option (List Dbl))) (bitmap_data : Option (List Nat))
    (flag : Int) (hflag : intAt sec_double_value 6 2 = some flag) (hne : flag ≠ 0) :
    bitmapStep h n 6 sec_buffer sec_double_value bitmap_data = some bitmap_data := by
  simp only [bitmapStep, hflag, if_neg hne, if_true]

set_option maxRecDepth 1000000 in
/-- C15, the code at the failing input: a message of two fields, the first
with a section 6 of flag 0 (explicit bitmap 1010), the second with a section 6
of flag 255 (no bitmap).  `save_file` is called twice, and the call for the
second section 7 receives the bitmap 1, 0, 1, 0 of the first field, not a
`NULL` bitmap: a section 6 with a flag other than 0 leaves `bitmap_data` as it
is. -/
theorem main_stale_bitmap :
    decode_section true 6 (memFrom [0, 0, 0, 7, 6, 0, 0xA0] (fun _ => 0)) (.int 0) (.int 0)
        = .ok [.int 7, .int 6, .int 0]
      ∧ decode_section true 6 (memFrom [0, 0, 0, 6, 6, 255] (fun _ => 0)) (.int 0) (.int 0)
        = .ok [.int 6, .int 6, .int 255]
      ∧ savedBitmaps (main exactOps sampleHost 0 0 twoFieldMessage)
        = some [some [1, 0, 1, 0], some [1, 0, 1, 0]]
      ∧ savedBitmaps (main exactOps sampleHost 0 0 twoFieldMessage)
        ≠ some [some [1, 0, 1, 0], none] := by
  decide

/-! ## C21: the capacity of the value array -/

theorem validFormat_length_le (format : List Char) (hv : validFormat format = true) :
    format.length ≤ formatWidth format := by
  induction format with
  | nil => simp [formatWidth]
  | cons c format ih =>
    obtain ⟨⟨size, hc⟩, hv'⟩ := validFormat_cons c format hv
    have hpos := fieldSize_pos c size hc
    have := ih hv'
    rw [formatWidth_cons, hc, Option.getD_some, List.length_cons]
    omega

theorem arrayLength_of_length (isLittleEndian : Bool) (secno : Nat) (mem : Mem)
    (hs : 2 ≤ secno ∧ secno ≤ 6) (hmax : beValue (peek mem 0 4) < 2 ^ 31) :
    arrayLength isLittleEndian secno mem = (beValue (peek mem 0 4) : Int) := by
  have h0 : ¬ secno = 0 := by omega
  have h1 : ¬ secno = 1 := by omega
  have h7 : ¬ secno = 7 := by omega
  have h8 : ¬ secno = 8 := by omega
  simp only [arrayLength, if_neg h0, if_neg h1, if_neg h7, if_neg h8, hostValue_fit,
    toInt32_small _ hmax]

theorem fitsArray_of_le (length : Int) (n : Nat) (h : (n : Int) ≤ length) :
    fitsArray length n = true := by
  simp only [fitsArray, Bool.or_eq_true, decide_eq_true_eq]
  exact Or.inr h

theorem decode_section_plain (isLittleEndian : Bool) (secno : Nat) (mem : Mem) (dd0 dd1 : Dbl)
    (h345 : ¬ (3 ≤ secno ∧ secno ≤ 5)) (hs : secno < 9) :
    ∃ vs, decode_buf isLittleEndian mem 0 (sectionFormat.getD secno []) dd0
          = .ok (vs, formatWidth (sectionFormat.getD secno []))
      ∧ vs.length = (sectionFormat.getD secno []).length
      ∧ decode_section isLittleEndian secno mem dd0 dd1
        = if fitsArray (arrayLength isLittleEndian secno mem) vs.length = false then .undefined
          else .ok vs := by
  have hfmt : sectionFormat[secno]? = some (sectionFormat.getD secno []) := by
    interval_cases secno <;> rfl
  have hv : validFormat (sectionFormat.getD secno []) = true :=
    sectionFormat_valid _ (List.mem_iff_getElem?.mpr ⟨secno, hfmt⟩)
  obtain ⟨vs, hrun, hlen⟩ :=
    decode_buf_ok_of_valid isLittleEndian mem (sectionFormat.getD secno []) 0 dd0 hv
  rw [Nat.zero_add] at hrun
  refine ⟨vs, hrun, hlen, ?_⟩
  unfold decode_section
  rw [hfmt]
  simp only [hrun, if_neg h345]

theorem decode_section_fixed_capacity (isLittleEndian : Bool) (secno : Nat) (mem : Mem)
    (dd0 dd1 : Dbl) (hs : secno = 0 ∨ secno = 1 ∨ secno = 7 ∨ secno = 8) :
    arrayLength isLittleEndian secno mem = ((sectionFormat.getD secno []).length : Int)
      ∧ ∃ vs, decode_buf isLittleEndian mem 0 (sectionFormat.getD secno []) dd0
            = .ok (vs, formatWidth (sectionFormat.getD secno []))
        ∧ vs.length = (sectionFormat.getD secno []).length
        ∧ decode_section isLittleEndian secno mem dd0 dd1 = .ok vs := by
  have hcap : arrayLength isLittleEndian secno mem
      = ((sectionFormat.getD secno []).length : Int) := by
    rcases hs with rfl | rfl | rfl | rfl <;> rfl
  obtain ⟨vs, hrun, hlen, heq⟩ :=
    decode_section_plain isLittleEndian secno mem dd0 dd1 (by omega) (by omega)
  refine ⟨hcap, vs, hrun, hlen, ?_⟩
  have hfit : fitsArray (arrayLength isLittleEndian secno mem) vs.length = true :=
    fitsArray_of_le _ _ (by rw [hcap, hlen])
  rw [heq, hfit]
  rfl

theorem sectionWidth_345 (secno k : Nat) (mem : Mem)
    (hk : (secno = 3 ∧ k = 12) ∨ (secno = 4 ∧ k = 7) ∨ (secno = 5 ∧ k = 9)) :
    sectionWidth secno mem
      = match findTemplate (secno : Int)
          ((256 * (mem k).val + (mem (k + 1)).val : Nat) : Int) templateFormat with
        | some tfp => k + 2 + formatWidth tfp.format
        | none => k + 2 := by
  rcases hk with ⟨rfl, rfl⟩ | ⟨rfl, rfl⟩ | ⟨rfl, rfl⟩ <;> rfl

theorem sectionWidth_unmatched (secno k : Nat) (mem : Mem)
    (hk : (secno = 3 ∧ k = 12) ∨ (secno = 4 ∧ k = 7) ∨ (secno = 5 ∧ k = 9))
    (hft : findTemplate (secno : Int)
      ((256 * (mem k).val + (mem (k + 1)).val : Nat) : Int) templateFormat = none) :
    sectionWidth secno mem = k + 2 := by
  have h := sectionWidth_345 secno k mem hk
  rw [hft] at h
  exact h

theorem sectionWidth_matched (secno k : Nat) (mem : Mem) (tfp : TemplateFormat)
    (hk : (secno = 3 ∧ k = 12) ∨ (secno = 4 ∧ k = 7) ∨ (secno = 5 ∧ k = 9))
    (hft : findTemplate (secno : Int)
      ((256 * (mem k).val + (mem (k + 1)).val : Nat) : Int) templateFormat = some tfp) :
    sectionWidth secno mem = k + 2 + formatWidth tfp.format := by
  have h := sectionWidth_345 secno k mem hk
  rw [hft] at h
  exact h

theorem decode_section_count (isLittleEndian : Bool) (secno : Nat) (mem : Mem) (dd0 dd1 : Dbl)
    (hs : 2 ≤ secno ∧ secno ≤ 6) :
    (∀ values, decode_section isLittleEndian secno mem dd0 dd1 = .ok values →
        values.length ≤ sectionWidth secno mem)
      ∧ (beValue (peek mem 0 4) < 2 ^ 31 → sectionWidth secno mem ≤ beValue (peek mem 0 4) →
          ∃ values, decode_section isLittleEndian secno mem dd0 dd1 = .ok values) := by
  by_cases h345 : 3 ≤ secno ∧ secno ≤ 5
  · obtain ⟨k, hk⟩ : ∃ k, (secno = 3 ∧ k = 12) ∨ (secno = 4 ∧ k = 7) ∨ (secno = 5 ∧ k = 9) := by
      obtain ⟨h3, h5⟩ := h345
      interval_cases secno
      · exact ⟨12, Or.inl ⟨rfl, rfl⟩⟩
      · exact ⟨7, Or.inr (Or.inl ⟨rfl, rfl⟩)⟩
      · exact ⟨9, Or.inr (Or.inr ⟨rfl, rfl⟩)⟩
    obtain ⟨vs, -, -, hvs, -, heq⟩ := decode_section_345 isLittleEndian secno k mem dd0 dd1 hk
    cases hft : findTemplate (secno : Int)
        ((256 * (mem k).val + (mem (k + 1)).val : Nat) : Int) templateFormat with
    | none =>
      have hwidth := sectionWidth_unmatched secno k mem hk hft
      rw [hft] at heq
      simp only at heq
      constructor
      · intro values hval
        rw [heq] at hval
        split at hval
        · cases hval
        · cases hval
          omega
      · intro hmax hL
        have hfit : fitsArray (arrayLength isLittleEndian secno mem) vs.length = true :=
          fitsArray_of_le _ _ (by
            rw [arrayLength_of_length isLittleEndian secno mem hs hmax]
            omega)
        exact ⟨vs, by rw [heq, hfit]; rfl⟩
    | some tfp =>
      have hwidth := sectionWidth_matched secno k mem tfp hk hft
      rw [hft] at heq
      simp only at heq
      have hv2 : validFormat tfp.format = true :=
        templateFormat_valid tfp (findTemplate_mem _ _ tfp templateFormat hft)
      obtain ⟨ws, hrun2, hlen2⟩ :=
        decode_buf_ok_of_valid isLittleEndian mem tfp.format (k + 2) dd1 hv2
      have hws := validFormat_length_le tfp.format hv2
      rw [hrun2] at heq
      simp only at heq
      have hcount : (vs ++ ws).length ≤ sectionWidth secno mem := by
        rw [hwidth, List.length_append, hlen2]
        omega
      constructor
      · intro values hval
        rw [heq] at hval
        split at hval
        · cases hval
        · split at hval
          · cases hval
          · cases hval
            exact hcount
      · intro hmax hL
        have hcap := arrayLength_of_length isLittleEndian secno mem hs hmax
        have hfit1 : fitsArray (arrayLength isLittleEndian secno mem) vs.length = true :=
          fitsArray_of_le _ _ (by
            rw [hcap]
            have : vs.length ≤ (vs ++ ws).length := by
              rw [List.length_append]
              omega
            omega)
        have hfit2 : fitsArray (arrayLength isLittleEndian secno mem) (vs ++ ws).length
            = true :=
          fitsArray_of_le _ _ (by rw [hcap]; omega)
        exact ⟨vs ++ ws, by rw [heq, hfit1, hfit2]; rfl⟩
  · obtain ⟨vs, -, hlen, heq⟩ :=
      decode_section_plain isLittleEndian secno mem dd0 dd1 h345 (by omega)
    have hfmt : sectionFormat[secno]? = some (sectionFormat.getD secno []) := by
      obtain ⟨h2, h6⟩ := hs
      interval_cases secno <;> rfl
    have hv : validFormat (sectionFormat.getD secno []) = true :=
      sectionFormat_valid _ (List.mem_iff_getElem?.mpr ⟨secno, hfmt⟩)
    have hle := validFormat_length_le _ hv
    have hwidth : sectionWidth secno mem = formatWidth (sectionFormat.getD secno []) := by
      unfold sectionWidth
      simp only [if_neg h345]
    constructor
    · intro values hval
      rw [heq] at hval
      split at hval
      · cases hval
      · cases hval
        omega
    · intro hmax hL
      have hfit : fitsArray (arrayLength isLittleEndian secno mem) vs.length = true :=
        fitsArray_of_le _ _ (by
          rw [arrayLength_of_length isLittleEndian secno mem hs hmax]
          omega)
      exact ⟨vs, by rw [heq, hfit]; rfl⟩

/-- C21: for each section number s in {0, 1, 7, 8} the capacity of the value
array in `decode_section` (5, 15, 2, 1) is the number of tags of
`sectionFormat[s]`, `decode_buf` writes exactly that many values and
`decode_section` returns them (no write past the array); every descriptor of
the two tables has at most as many tags as its byte width, so for sections 2-6
the number of values `decode_section` leaves (fixed prefix plus any matched
template) never exceeds the total byte width of the descriptors applied, and
they fit the array whenever that width is at most the declared length. -/
theorem decode_section_capacity (isLittleEndian : Bool) (sec_buffer : Mem) (dd0 dd1 : Dbl) :
    (arrayLength isLittleEndian 0 sec_buffer = 5 ∧ arrayLength isLittleEndian 1 sec_buffer = 15
        ∧ arrayLength isLittleEndian 7 sec_buffer = 2
        ∧ arrayLength isLittleEndian 8 sec_buffer = 1)
      ∧ (∀ s, (s = 0 ∨ s = 1 ∨ s = 7 ∨ s = 8) →
          arrayLength isLittleEndian s sec_buffer = ((sectionFormat.getD s []).length : Int)
          ∧ ∃ vs, decode_buf isLittleEndian sec_buffer 0 (sectionFormat.getD s []) dd0
                = .ok (vs, formatWidth (sectionFormat.getD s []))
            ∧ vs.length = (sectionFormat.getD s []).length
            ∧ decode_section isLittleEndian s sec_buffer dd0 dd1 = .ok vs)
      ∧ (∀ format ∈ sectionFormat, format.length ≤ formatWidth format)
      ∧ (∀ tfp ∈ templateFormat, tfp.format.length ≤ formatWidth tfp.format)
      ∧ (∀ s, 2 ≤ s ∧ s ≤ 6 →
          (∀ values, decode_section isLittleEndian s sec_buffer dd0 dd1 = .ok values →
            values.length ≤ sectionWidth s sec_buffer)
          ∧ (beValue (peek sec_buffer 0 4) < 2 ^ 31 →
              sectionWidth s sec_buffer ≤ beValue (peek sec_buffer 0 4) →
              ∃ values, decode_section isLittleEndian s sec_buffer dd0 dd1 = .ok values)) :=
  ⟨⟨rfl, rfl, rfl, rfl⟩,
    fun s hs => decode_section_fixed_capacity isLittleEndian s sec_buffer dd0 dd1 hs,
    by decide, by decide,
    fun s hs => decode_section_count isLittleEndian s sec_buffer dd0 dd1 hs⟩

/-- C21, witness: section 1 of the sample message returns its 15 values, and
the 21-byte section 5 with template 5.0 (width 21, declared length 21)
returns 9 values. -/
theorem decode_section_capacity_witness :
    (∃ vs, decode_section true 1 (memOf sampleSection1) (.int 0) (.int 0) = .ok vs
        ∧ vs.length = (sectionFormat.getD 1 []).length)
      ∧ sectionWidth 5 (memOf (sampleSection5 4)) = 21
      ∧ ∃ values, decode_section true 5 (memOf (sampleSection5 4)) (.int 0) (.int 0)
          = .ok values ∧ values.length ≤ sectionWidth 5 (memOf (sampleSection5 4)) := by
  have h1 := (decode_section_capacity true (memOf sampleSection1) (.int 0) (.int 0)).2.1 1
    (Or.inr (Or.inl rfl))
  have h5 := (decode_section_capacity true (memOf (sampleSection5 4)) (.int 0) (.int 0)).2.2.2.2
    5 ⟨by decide, by decide⟩
  obtain ⟨-, vs, -, hlen, hrun⟩ := h1
  obtain ⟨values, hval⟩ := h5.2 (by decide) (by decide)
  exact ⟨⟨vs, hrun, hlen⟩, by decide, values, hval, h5.1 values hval⟩

end Grib2
